import Mathlib

/-!
# Scenewalker collision core

A shallow embedding of the swept-sphere collision code of `libretro.cpp`
(`inside_triangle`, `point_crash_time`, `line_crash_time`, `wall_hug_detection`,
`collision_detection`, and the triangle loop of `init_mesh`) and theorems about it.

Numbers: the code is embedded twice.  The first embedding reads the `float`s of the
source as elements of a linear ordered field `K` with exact operations; the square root
is a parameter `sqrt : K → K`, and the theorems that need a true square root are stated
for `K = ℝ` with `Real.sqrt`.  The second embedding (`Rounded`) rounds the result of
every operation by a parameter `rnd : K → K`: with `rnd = id` it is the first one, and
with `round32` and `sqrt32` on `ℚ` it is the code in binary32 (round to nearest, ties to
even; overflow and subnormal numbers are not modelled).  Definitions are generic, hence
computable; on `ℚ` they can be evaluated.

Division: the only quotients whose divisor the source does not guard are modelled by
`fdiv`, which returns `none` when the divisor is zero (the hardware result is then NaN
or an infinity, not a number of `K`).
-/

namespace Scenewalker

/-- The three-component vector `glm::vec3`. -/
structure Vec3 (K : Type) where
  x : K
  y : K
  z : K
deriving DecidableEq

namespace Vec3

variable {K : Type} [LinearOrderedField K]

/-- The value `vec3(s)`: all three components equal to `s`. -/
def splat (s : K) : Vec3 K := ⟨s, s, s⟩

/-- Component-wise sum, `u + v`. -/
def add (u v : Vec3 K) : Vec3 K := ⟨u.x + v.x, u.y + v.y, u.z + v.z⟩

/-- Component-wise difference, `u - v`. -/
def sub (u v : Vec3 K) : Vec3 K := ⟨u.x - v.x, u.y - v.y, u.z - v.z⟩

/-- Component-wise negation, `-v`. -/
def neg (v : Vec3 K) : Vec3 K := ⟨-v.x, -v.y, -v.z⟩

/-- Component-wise product, `u * v` (glm multiplies vectors component by component). -/
def mul (u v : Vec3 K) : Vec3 K := ⟨u.x * v.x, u.y * v.y, u.z * v.z⟩

instance : Add (Vec3 K) := ⟨add⟩
instance : Sub (Vec3 K) := ⟨sub⟩
instance : Neg (Vec3 K) := ⟨neg⟩
instance : Mul (Vec3 K) := ⟨mul⟩
instance : Zero (Vec3 K) := ⟨splat 0⟩

/-- The scalar product `glm::dot`. -/
def dot (u v : Vec3 K) : K := u.x * v.x + u.y * v.y + u.z * v.z

/-- The vector product `glm::cross`. -/
def cross (u v : Vec3 K) : Vec3 K :=
  ⟨u.y * v.z - v.y * u.z, u.z * v.x - v.z * u.x, u.x * v.y - v.x * u.y⟩

end Vec3

open Vec3

variable {K : Type} [LinearOrderedField K]

/-! ## The code with exact arithmetic

The functions of the source with the `float` operations read as the exact operations of
`K`.  What rests on the order of the comparisons alone holds of the binary32 code as well;
what rests on the identities of a field holds of it up to rounding, and is stated again
for the rounded code further down. -/

/-- Modelled from the spec: `glm::normalize` belongs to the linear algebra library the
spec assumes (section 2, geometry primitives); it scales a vector to unit length,
`v / sqrt (dot v v)`. -/
def normalize (sqrt : K → K) (v : Vec3 K) : Vec3 K := v * splat (1 / sqrt (dot v v))

/-- The record `struct Triangle`. -/
structure Triangle (K : Type) where
  a : Vec3 K
  b : Vec3 K
  c : Vec3 K
  normal : Vec3 K
  n0 : K

/-- The function `inside_triangle` of `libretro.cpp`, exact operations. -/
def inside_triangle (tri : Triangle K) (pos : Vec3 K) : Bool :=
  let real_normal := -tri.normal
  let ab := tri.b - tri.a
  let ac := tri.c - tri.a
  let ap := pos - tri.a
  let bp := pos - tri.b
  let bc := tri.c - tri.b
  if dot (cross ab ap) real_normal < 0 then false
  else if dot (cross ap ac) real_normal < 0 then false
  else if dot (cross bc bp) real_normal < 0 then false
  else true

/-- The constant `twiddle_factor = -0.5f`. -/
def twiddle_factor : K := -(1 / 2)

/-- The quotient `a / b` of two numbers as the hardware forms it: with a zero divisor
the result is NaN (`0 / 0`) or an infinity, which is no element of `K`: `none`. -/
def fdiv (a b : K) : Option K := if b = 0 then none else some (a / b)

/-- The root selection shared by `point_crash_time` and `line_crash_time`: the
`if / else if / else if` chain over `sol0`, `sol1`; `none` is the final fall-through.
`std::min sol0 sol1` is `if sol1 < sol0 then sol1 else sol0`. -/
def select_root (sol0 sol1 : K) : Option K :=
  if twiddle_factor ≤ sol0 ∧ twiddle_factor ≤ sol1 then
    some (if sol1 < sol0 then sol1 else sol0)
  else if twiddle_factor ≤ sol0 ∧ sol1 < twiddle_factor then some sol0
  else if sol0 < twiddle_factor ∧ twiddle_factor ≤ sol1 then some sol1
  else none

/-- The function `point_crash_time` of `libretro.cpp`, exact operations.  The divisor `2 * A` is zero
only when `v = 0`; then `B = 0` and `d = 0`, both quotients are `0 / 0` (NaN, see
`zero_divisor_numerators`), every comparison of the chain is false and the source
returns `10.0f`: the last match arm. -/
def point_crash_time (sqrt : K → K) (pos v edge : Vec3 K) : K :=
  let l := pos - edge
  let A := dot v v
  let B := 2 * dot l v
  let C := dot l l - 1
  let d := B * B - 4 * A * C
  if d < 0 then 10
  else
    let d_sqrt := sqrt d
    match fdiv (-B + d_sqrt) (2 * A), fdiv (-B - d_sqrt) (2 * A) with
    | some sol0, some sol1 =>
      match select_root sol0 sol1 with
      | some t => t
      | none => 10
    | _, _ => 10

/-- Squared distance of the sphere centre `pos + t * v` from the point `q`. -/
def centre_dist_sq (pos v q : Vec3 K) (t : K) : K :=
  dot (pos + splat t * v - q) (pos + splat t * v - q)

/-- The function `line_crash_time` of `libretro.cpp`, exact operations; the pair is the
returned time and
the output parameter `crash_pos`, which starts as `vec3(0.0f)`.  A zero `ab_sqr` (only
when `a = b`) makes `T` and `S` the NaN `0 / 0`, and with them `V`, `W`, `D` and both
roots: `D < 0.0f` and every comparison of the chain are false and the source returns
`10.0f`.  A zero `2 * A` (only when `V = 0`, hence `B = 0` and `D = 0`) makes both
roots `0 / 0` with the same outcome.  These are the `_, _` arms; that the numerators
vanish with the divisors is `zero_length_numerator` and `zero_divisor_numerators`. -/
def line_crash_time (sqrt : K → K) (pos v a b : Vec3 K) : K × Vec3 K :=
  let ab := b - a
  let d := pos - a
  let ab_sqr := dot ab ab
  match fdiv (dot ab v) ab_sqr, fdiv (dot ab d) ab_sqr with
  | some T, some S =>
    let V := v - splat T * ab
    let W := d - splat S * ab
    let A := dot V V
    let B := 2 * dot V W
    let C := dot W W - 1
    let D := B * B - 4 * A * C
    if D < 0 then (10, 0)
    else
      let D_sqrt := sqrt D
      match fdiv (-B + D_sqrt) (2 * A), fdiv (-B - D_sqrt) (2 * A) with
      | some sol0, some sol1 =>
        match select_root sol0 sol1 with
        | some solution =>
          let k := dot ab (d + splat solution * v) / ab_sqr
          if 0 ≤ k ∧ k ≤ 1 then (solution, a + splat k * ab) else (10, 0)
        | none => (10, 0)
      | _, _ => (10, 0)
  | _, _ => (10, 0)

/-- One iteration of the loop of `wall_hug_detection`; the state is `min_dist` and
`closest_triangle_hug` (the pointer is modelled by a copy of the triangle, null by
`none`). -/
def wall_hug_step (player_pos : Vec3 K) (st : K × Option (Triangle K)) (tri : Triangle K) :
    K × Option (Triangle K) :=
  let plane_dist := tri.n0 - dot player_pos tri.normal
  if -(1 / 100) ≤ plane_dist ∧ plane_dist < st.1 then
    let projected_pos := player_pos + tri.normal * splat plane_dist
    if inside_triangle tri projected_pos then (plane_dist, some tri) else st
  else st

/-- The loop of `wall_hug_detection` over the registry `triangles`, from
`min_dist = 1.0f` and a null `closest_triangle_hug`. -/
def wall_hug_scan (triangles : List (Triangle K)) (player_pos : Vec3 K) :
    K × Option (Triangle K) :=
  triangles.foldl (wall_hug_step player_pos) (1, none)

/-- The function `wall_hug_detection` of `libretro.cpp`, exact operations; the global
registry `triangles` is a parameter and the updated `player_pos` is returned. -/
def wall_hug_detection (triangles : List (Triangle K)) (player_pos : Vec3 K) : Vec3 K :=
  match wall_hug_scan triangles player_pos with
  | (min_dist, some tri) => player_pos + splat (min_dist - 1) * tri.normal
  | (_, none) => player_pos

/-- The locals of `collision_detection` that live across its loop. -/
structure Scan (K : Type) where
  min_time : K
  crash : Bool
  crash_point : Vec3 K
  closest_triangle : Option (Triangle K)

/-- The six vertex and edge tests of `collision_detection` for one triangle:
`min_time_crash` and `crash_pos_tmp` after the tests of `a`, `b`, `c`, `ab`, `ac`, `bc`. -/
def edge_vertex_time (sqrt : K → K) (player_pos velocity : Vec3 K) (tri : Triangle K) :
    K × Vec3 K :=
  let r0 : K × Vec3 K := (point_crash_time sqrt player_pos velocity tri.a, tri.a)
  let time_point_b := point_crash_time sqrt player_pos velocity tri.b
  let r1 := if time_point_b < r0.1 then (time_point_b, tri.b) else r0
  let time_point_c := point_crash_time sqrt player_pos velocity tri.c
  let r2 := if time_point_c < r1.1 then (time_point_c, tri.c) else r1
  let line_ab := line_crash_time sqrt player_pos velocity tri.a tri.b
  let r3 := if line_ab.1 < r2.1 then (line_ab.1, line_ab.2) else r2
  let line_ac := line_crash_time sqrt player_pos velocity tri.a tri.c
  let r4 := if line_ac.1 < r3.1 then (line_ac.1, line_ac.2) else r3
  let line_bc := line_crash_time sqrt player_pos velocity tri.b tri.c
  if line_bc.1 < r4.1 then (line_bc.1, line_bc.2) else r4

/-- One iteration of the loop of `collision_detection`. -/
def collision_step (sqrt : K → K) (player_pos velocity : Vec3 K) (st : Scan K)
    (tri : Triangle K) : Scan K :=
  let plane_dist := tri.n0 - dot player_pos tri.normal
  let towards_plane_v := dot velocity tri.normal
  if 1 / 100000 < towards_plane_v then
    let ticks_to_hit := (plane_dist - 1) / towards_plane_v
    if 0 ≤ ticks_to_hit ∧ ticks_to_hit < st.min_time then
      let projected_pos := (player_pos + tri.normal) + splat ticks_to_hit * velocity
      if inside_triangle tri projected_pos then
        { st with min_time := ticks_to_hit, closest_triangle := some tri, crash := false }
      else st
    else if 0 ≤ plane_dist ∧ plane_dist < 1 + towards_plane_v then
      let r := edge_vertex_time sqrt player_pos velocity tri
      if r.1 < st.min_time then
        { min_time := r.1, closest_triangle := some tri, crash := true, crash_point := r.2 }
      else st
    else st
  else st

/-- The loop of `collision_detection` over the registry, from `min_time = 1.0f`,
`crash = false`, `crash_point = vec3(0.0f)` and a null `closest_triangle`. -/
def collision_scan (sqrt : K → K) (triangles : List (Triangle K))
    (player_pos velocity : Vec3 K) : Scan K :=
  triangles.foldl (collision_step sqrt player_pos velocity)
    { min_time := 1, crash := false, crash_point := 0, closest_triangle := none }

/-- The normal that the response of `collision_detection` projects the velocity on:
the normal of the closest triangle for a face event, `crash_point - player_pos` (with
`player_pos` already advanced) for an edge or vertex event. -/
def response_normal (player_pos velocity : Vec3 K) (st : Scan K) (tri : Triangle K) : Vec3 K :=
  if st.crash then st.crash_point - (player_pos + splat (1 * st.min_time) * velocity)
  else tri.normal

/-- The function `collision_detection` of `libretro.cpp`, exact operations; the global
registry is a parameter and the updated `player_pos` and `velocity` are returned.  In the edge and
vertex branch the divisor `dot normal normal` is `1` when `sqrt` is a square root (see
`crash_normal_unit`), so the quotient is an ordinary one. -/
def collision_detection (sqrt : K → K) (triangles : List (Triangle K))
    (player_pos velocity : Vec3 K) : Vec3 K × Vec3 K :=
  if velocity = 0 then (player_pos, velocity)
  else
    let st := collision_scan sqrt triangles player_pos velocity
    match st.closest_triangle with
    | none => (player_pos, velocity)
    | some tri =>
      if st.crash = false then
        let normal := tri.normal
        let player_pos1 := player_pos + splat (1 * st.min_time) * velocity
        let velocity1 := velocity - splat (dot velocity normal) * normal
        (player_pos1, velocity1 * splat (1 - st.min_time))
      else
        let player_pos1 := player_pos + splat (1 * st.min_time) * velocity
        let normal := st.crash_point - player_pos1
        let velocity1 := velocity - splat (dot velocity normal / dot normal normal) * normal
        (player_pos1, velocity1 * splat (1 - st.min_time))

/-- Component-wise quotient, `u / v` (glm divides vectors component by component). -/
def Vec3.div (u v : Vec3 K) : Vec3 K := ⟨u.x / v.x, u.y / v.y, u.z / v.z⟩

instance : Div (Vec3 K) := ⟨Vec3.div⟩

/-- The global `player_size(0.4f, 0.8f, 0.4f)`, the radii of the ellipsoid. -/
def player_size : Vec3 K := ⟨2 / 5, 4 / 5, 2 / 5⟩

/-- The body of the vertex loop of `init_mesh`, exact operations: the triangle built from
three consecutive mesh vertices.  The normal of collinear vertices, NaN in the source, is
not modelled here (see `Rounded.init_triangle`). -/
def init_triangle (sqrt : K → K) (va vb vc : Vec3 K) : Triangle K :=
  let a := va / player_size
  let b := vb / player_size
  let c := vc / player_size
  let normal := -(normalize sqrt (cross (b - a) (c - a)))
  { a := a, b := b, c := c, normal := normal, n0 := dot normal a }

/-- The vertex loop of `init_mesh` over the vertex positions of one mesh, three at a
time.  The loader supplies whole triples; a trailing group of one or two vertices, which
the source would complete by reading past the end of the vector, builds nothing. -/
def mesh_triangles (sqrt : K → K) : List (Vec3 K) → List (Triangle K)
  | va :: vb :: vc :: rest => init_triangle sqrt va vb vc :: mesh_triangles sqrt rest
  | _ => []

/-- The registry that `init_mesh` fills from the loaded meshes (each given by its
vertex positions), starting from the registry emptied by `context_reset`. -/
def init_mesh (sqrt : K → K) (meshes : List (List (Vec3 K))) : List (Triangle K) :=
  meshes.foldl (fun triangles vertices => triangles ++ mesh_triangles sqrt vertices) []

/-! ## The code with rounded arithmetic

The same functions with the result of every `float` operation passed through `rnd`, in
the order in which the source forms them (and glm, for `dot`, `cross` and `normalize`:
`dot` sums `(x + y) + z`).  Negation and the selection of a value do not round.  With
`rnd = id` these are the functions above; with `round32` and `sqrt32` they are the code
in binary32. -/

/-- Sum of two vectors, each component rounded by `rnd`. -/
def Rounded.vadd (rnd : K → K) (u v : Vec3 K) : Vec3 K :=
  ⟨rnd (u.x + v.x), rnd (u.y + v.y), rnd (u.z + v.z)⟩

/-- Difference of two vectors, each component rounded by `rnd`. -/
def Rounded.vsub (rnd : K → K) (u v : Vec3 K) : Vec3 K :=
  ⟨rnd (u.x - v.x), rnd (u.y - v.y), rnd (u.z - v.z)⟩

/-- Component-wise product of two vectors, each component rounded by `rnd`. -/
def Rounded.vmul (rnd : K → K) (u v : Vec3 K) : Vec3 K :=
  ⟨rnd (u.x * v.x), rnd (u.y * v.y), rnd (u.z * v.z)⟩

/-- Component-wise quotient of two vectors, each component rounded by `rnd`. -/
def Rounded.vdiv (rnd : K → K) (u v : Vec3 K) : Vec3 K :=
  ⟨rnd (u.x / v.x), rnd (u.y / v.y), rnd (u.z / v.z)⟩

/-- The scalar product `glm::dot` with rounded operations: the three products, then the
sum `(x + y) + z`. -/
def Rounded.vdot (rnd : K → K) (u v : Vec3 K) : K :=
  rnd (rnd (rnd (u.x * v.x) + rnd (u.y * v.y)) + rnd (u.z * v.z))

/-- The vector product `glm::cross` with rounded operations. -/
def Rounded.vcross (rnd : K → K) (u v : Vec3 K) : Vec3 K :=
  ⟨rnd (rnd (u.y * v.z) - rnd (v.y * u.z)), rnd (rnd (u.z * v.x) - rnd (v.z * u.x)),
    rnd (rnd (u.x * v.y) - rnd (v.x * u.y))⟩

/-- The rounded quotient `a / b`; `none` for a zero divisor, as `fdiv`.  In binary32
(`round32`, which sends only zero to zero and keeps the sign) a divisor of the solvers is
zero only together with the numerator: the quotient is `0 / 0`, NaN. -/
def Rounded.fdiv (rnd : K → K) (a b : K) : Option K :=
  if b = 0 then none else some (rnd (a / b))

/-- The function `inside_triangle` of `libretro.cpp` with rounded operations. -/
def Rounded.inside_triangle (rnd : K → K) (tri : Triangle K) (pos : Vec3 K) : Bool :=
  let real_normal := -tri.normal
  let ab := Rounded.vsub rnd tri.b tri.a
  let ac := Rounded.vsub rnd tri.c tri.a
  let ap := Rounded.vsub rnd pos tri.a
  let bp := Rounded.vsub rnd pos tri.b
  let bc := Rounded.vsub rnd tri.c tri.b
  if Rounded.vdot rnd (Rounded.vcross rnd ab ap) real_normal < 0 then false
  else if Rounded.vdot rnd (Rounded.vcross rnd ap ac) real_normal < 0 then false
  else if Rounded.vdot rnd (Rounded.vcross rnd bc bp) real_normal < 0 then false
  else true

/-- The function `point_crash_time` of `libretro.cpp` with rounded operations; `sqrt` is
the rounded square root.  The last match arm is the one of `point_crash_time`. -/
def Rounded.point_crash_time (rnd sqrt : K → K) (pos v edge : Vec3 K) : K :=
  let l := Rounded.vsub rnd pos edge
  let A := Rounded.vdot rnd v v
  let B := rnd (2 * Rounded.vdot rnd l v)
  let C := rnd (Rounded.vdot rnd l l - 1)
  let d := rnd (rnd (B * B) - rnd (rnd (4 * A) * C))
  if d < 0 then 10
  else
    let d_sqrt := sqrt d
    match Rounded.fdiv rnd (rnd (-B + d_sqrt)) (rnd (2 * A)),
        Rounded.fdiv rnd (rnd (-B - d_sqrt)) (rnd (2 * A)) with
    | some sol0, some sol1 =>
      match select_root sol0 sol1 with
      | some t => t
      | none => 10
    | _, _ => 10

/-- The function `line_crash_time` of `libretro.cpp` with rounded operations; the `_, _`
arms are the ones of `line_crash_time`. -/
def Rounded.line_crash_time (rnd sqrt : K → K) (pos v a b : Vec3 K) : K × Vec3 K :=
  let ab := Rounded.vsub rnd b a
  let d := Rounded.vsub rnd pos a
  let ab_sqr := Rounded.vdot rnd ab ab
  match Rounded.fdiv rnd (Rounded.vdot rnd ab v) ab_sqr,
      Rounded.fdiv rnd (Rounded.vdot rnd ab d) ab_sqr with
  | some T, some S =>
    let V := Rounded.vsub rnd v (Rounded.vmul rnd (splat T) ab)
    let W := Rounded.vsub rnd d (Rounded.vmul rnd (splat S) ab)
    let A := Rounded.vdot rnd V V
    let B := rnd (2 * Rounded.vdot rnd V W)
    let C := rnd (Rounded.vdot rnd W W - 1)
    let D := rnd (rnd (B * B) - rnd (rnd (4 * A) * C))
    if D < 0 then (10, 0)
    else
      let D_sqrt := sqrt D
      match Rounded.fdiv rnd (rnd (-B + D_sqrt)) (rnd (2 * A)),
          Rounded.fdiv rnd (rnd (-B - D_sqrt)) (rnd (2 * A)) with
      | some sol0, some sol1 =>
        match select_root sol0 sol1 with
        | some solution =>
          let k := rnd (Rounded.vdot rnd ab
            (Rounded.vadd rnd d (Rounded.vmul rnd (splat solution) v)) / ab_sqr)
          if 0 ≤ k ∧ k ≤ 1 then (solution, Rounded.vadd rnd a (Rounded.vmul rnd (splat k) ab))
          else (10, 0)
        | none => (10, 0)
      | _, _ => (10, 0)
  | _, _ => (10, 0)

/-- One iteration of the loop of `wall_hug_detection` with rounded operations; `-0.01f`
is the rounded constant. -/
def Rounded.wall_hug_step (rnd : K → K) (player_pos : Vec3 K)
    (st : K × Option (Triangle K)) (tri : Triangle K) : K × Option (Triangle K) :=
  let plane_dist := rnd (tri.n0 - Rounded.vdot rnd player_pos tri.normal)
  if -(rnd (1 / 100)) ≤ plane_dist ∧ plane_dist < st.1 then
    let projected_pos := Rounded.vadd rnd player_pos (Rounded.vmul rnd tri.normal (splat plane_dist))
    if Rounded.inside_triangle rnd tri projected_pos then (plane_dist, some tri) else st
  else st

/-- The loop of `wall_hug_detection` with rounded operations. -/
def Rounded.wall_hug_scan (rnd : K → K) (triangles : List (Triangle K)) (player_pos : Vec3 K) :
    K × Option (Triangle K) :=
  triangles.foldl (Rounded.wall_hug_step rnd player_pos) (1, none)

/-- The function `wall_hug_detection` of `libretro.cpp` with rounded operations. -/
def Rounded.wall_hug_detection (rnd : K → K) (triangles : List (Triangle K))
    (player_pos : Vec3 K) : Vec3 K :=
  match Rounded.wall_hug_scan rnd triangles player_pos with
  | (min_dist, some tri) =>
    Rounded.vadd rnd player_pos (Rounded.vmul rnd (splat (rnd (min_dist - 1))) tri.normal)
  | (_, none) => player_pos

/-- The six vertex and edge tests of `collision_detection` with rounded operations. -/
def Rounded.edge_vertex_time (rnd sqrt : K → K) (player_pos velocity : Vec3 K)
    (tri : Triangle K) : K × Vec3 K :=
  let r0 : K × Vec3 K := (Rounded.point_crash_time rnd sqrt player_pos velocity tri.a, tri.a)
  let time_point_b := Rounded.point_crash_time rnd sqrt player_pos velocity tri.b
  let r1 := if time_point_b < r0.1 then (time_point_b, tri.b) else r0
  let time_point_c := Rounded.point_crash_time rnd sqrt player_pos velocity tri.c
  let r2 := if time_point_c < r1.1 then (time_point_c, tri.c) else r1
  let line_ab := Rounded.line_crash_time rnd sqrt player_pos velocity tri.a tri.b
  let r3 := if line_ab.1 < r2.1 then (line_ab.1, line_ab.2) else r2
  let line_ac := Rounded.line_crash_time rnd sqrt player_pos velocity tri.a tri.c
  let r4 := if line_ac.1 < r3.1 then (line_ac.1, line_ac.2) else r3
  let line_bc := Rounded.line_crash_time rnd sqrt player_pos velocity tri.b tri.c
  if line_bc.1 < r4.1 then (line_bc.1, line_bc.2) else r4

/-- One iteration of the loop of `collision_detection` with rounded operations;
`0.00001f` is the rounded constant. -/
def Rounded.collision_step (rnd sqrt : K → K) (player_pos velocity : Vec3 K) (st : Scan K)
    (tri : Triangle K) : Scan K :=
  let plane_dist := rnd (tri.n0 - Rounded.vdot rnd player_pos tri.normal)
  let towards_plane_v := Rounded.vdot rnd velocity tri.normal
  if rnd (1 / 100000) < towards_plane_v then
    let ticks_to_hit := rnd (rnd (plane_dist - 1) / towards_plane_v)
    if 0 ≤ ticks_to_hit ∧ ticks_to_hit < st.min_time then
      let projected_pos := Rounded.vadd rnd (Rounded.vadd rnd player_pos tri.normal)
        (Rounded.vmul rnd (splat ticks_to_hit) velocity)
      if Rounded.inside_triangle rnd tri projected_pos then
        { st with min_time := ticks_to_hit, closest_triangle := some tri, crash := false }
      else st
    else if 0 ≤ plane_dist ∧ plane_dist < rnd (1 + towards_plane_v) then
      let r := Rounded.edge_vertex_time rnd sqrt player_pos velocity tri
      if r.1 < st.min_time then
        { min_time := r.1, closest_triangle := some tri, crash := true, crash_point := r.2 }
      else st
    else st
  else st

/-- The loop of `collision_detection` with rounded operations. -/
def Rounded.collision_scan (rnd sqrt : K → K) (triangles : List (Triangle K))
    (player_pos velocity : Vec3 K) : Scan K :=
  triangles.foldl (Rounded.collision_step rnd sqrt player_pos velocity)
    { min_time := 1, crash := false, crash_point := 0, closest_triangle := none }

/-- The function `collision_detection` of `libretro.cpp` with rounded operations. -/
def Rounded.collision_detection (rnd sqrt : K → K) (triangles : List (Triangle K))
    (player_pos velocity : Vec3 K) : Vec3 K × Vec3 K :=
  if velocity = 0 then (player_pos, velocity)
  else
    let st := Rounded.collision_scan rnd sqrt triangles player_pos velocity
    match st.closest_triangle with
    | none => (player_pos, velocity)
    | some tri =>
      if st.crash = false then
        let normal := tri.normal
        let player_pos1 := Rounded.vadd rnd player_pos
          (Rounded.vmul rnd (splat (rnd (1 * st.min_time))) velocity)
        let velocity1 := Rounded.vsub rnd velocity
          (Rounded.vmul rnd (splat (Rounded.vdot rnd velocity normal)) normal)
        (player_pos1, Rounded.vmul rnd velocity1 (splat (rnd (1 - st.min_time))))
      else
        let player_pos1 := Rounded.vadd rnd player_pos
          (Rounded.vmul rnd (splat (rnd (1 * st.min_time))) velocity)
        let normal := Rounded.vsub rnd st.crash_point player_pos1
        let velocity1 := Rounded.vsub rnd velocity
          (Rounded.vmul rnd
            (splat (rnd (Rounded.vdot rnd velocity normal / Rounded.vdot rnd normal normal)))
            normal)
        (player_pos1, Rounded.vmul rnd velocity1 (splat (rnd (1 - st.min_time))))

/-- The global `player_size(0.4f, 0.8f, 0.4f)` with its constants rounded. -/
def Rounded.player_size (rnd : K → K) : Vec3 K := ⟨rnd (2 / 5), rnd (4 / 5), rnd (2 / 5)⟩

/-- Modelled from the spec: `glm::normalize` with rounded operations,
`v * (1 / sqrt (dot v v))`; `none` when the square root is zero, the components being then
NaN (`0 * inf`) or infinite. -/
def Rounded.normalize (rnd sqrt : K → K) (v : Vec3 K) : Option (Vec3 K) :=
  match Rounded.fdiv rnd 1 (sqrt (Rounded.vdot rnd v v)) with
  | some inv => some (Rounded.vmul rnd v (splat inv))
  | none => none

/-- The body of the vertex loop of `init_mesh` with rounded operations; `none` when the
normal is not a vector of numbers (see `Rounded.normalize`), the plane constant being
then NaN as well. -/
def Rounded.init_triangle (rnd sqrt : K → K) (va vb vc : Vec3 K) : Option (Triangle K) :=
  let a := Rounded.vdiv rnd va (Rounded.player_size rnd)
  let b := Rounded.vdiv rnd vb (Rounded.player_size rnd)
  let c := Rounded.vdiv rnd vc (Rounded.player_size rnd)
  match Rounded.normalize rnd sqrt (Rounded.vcross rnd (Rounded.vsub rnd b a) (Rounded.vsub rnd c a)) with
  | some n => some { a := a, b := b, c := c, normal := -n, n0 := Rounded.vdot rnd (-n) a }
  | none => none

/-- The vertex loop of `init_mesh` with rounded operations over the vertex positions of
one mesh, three at a time (see `mesh_triangles`); `none` stands for a triangle whose
normal and plane constant are not numbers. -/
def Rounded.mesh_triangles (rnd sqrt : K → K) : List (Vec3 K) → List (Option (Triangle K))
  | va :: vb :: vc :: rest =>
    Rounded.init_triangle rnd sqrt va vb vc :: Rounded.mesh_triangles rnd sqrt rest
  | _ => []

/-- The registry that `init_mesh` fills, with rounded operations. -/
def Rounded.init_mesh (rnd sqrt : K → K) (meshes : List (List (Vec3 K))) :
    List (Option (Triangle K)) :=
  meshes.foldl (fun triangles vertices => triangles ++ Rounded.mesh_triangles rnd sqrt vertices) []

/-! ## Binary32 rounding -/

/-- The number of halvings that bring `n` below `2`, at most `fuel` of them: `⌊log₂ n⌋`
for `0 < n < 2 ^ fuel`. -/
def log2_fuel : Nat → Nat → Nat
  | 0, _ => 0
  | fuel + 1, n => if n < 2 then 0 else log2_fuel fuel (n / 2) + 1

/-- The integer `⌊log₂ |q|⌋` of a non-zero rational whose numerator and denominator are
below `2 ^ 512`. -/
def ilog2 (q : ℚ) : ℤ :=
  let e0 : ℤ := (log2_fuel 512 q.num.natAbs : ℤ) - (log2_fuel 512 q.den : ℤ)
  if (2 : ℚ) ^ e0 ≤ |q| then e0 else e0 - 1

/-- The integer nearest to a non-negative rational, ties to the even one. -/
def round_half_even (q : ℚ) : ℤ :=
  let f : ℤ := q.num / (q.den : ℤ)
  let r : ℚ := q - f
  if r < 1 / 2 then f else if 1 / 2 < r then f + 1 else if f % 2 = 0 then f else f + 1

/-- Rounding to binary32: the nearest number with a 24-bit significand, ties to even.
The exponent range is not bounded: overflow and subnormal numbers are not modelled. -/
def round32 (q : ℚ) : ℚ :=
  if q = 0 then 0
  else
    let u : ℚ := (2 : ℚ) ^ (ilog2 q - 23)
    if q < 0 then -((round_half_even (-q / u) : ℚ) * u) else (round_half_even (q / u) : ℚ) * u

/-- Integer square root by bits: the largest `r` below `2 ^ i` steps with `r * r ≤ n`. -/
def isqrt_bits : Nat → Nat → Nat → Nat
  | 0, _, r => r
  | i + 1, n, r => isqrt_bits i n (if (r + 2 ^ i) * (r + 2 ^ i) ≤ n then r + 2 ^ i else r)

/-- The binary32 square root `std::sqrt`: the square root rounded to a 24-bit
significand, ties to even; `0` for a non-positive argument (the callers pass none). -/
def sqrt32 (q : ℚ) : ℚ :=
  if q ≤ 0 then 0
  else
    let e : ℤ := ilog2 q / 2
    let u : ℚ := (2 : ℚ) ^ (e - 23)
    let x : ℚ := q / (u * u)
    let m : ℕ := isqrt_bits 32 (x.num / (x.den : ℤ)).toNat 0
    let mid : ℚ := (m : ℚ) + 1 / 2
    if x < mid * mid then (m : ℚ) * u
    else if mid * mid < x then ((m : ℚ) + 1) * u
    else if m % 2 = 0 then (m : ℚ) * u else ((m : ℚ) + 1) * u

/-- The plane distance of `wall_hug_detection` with rounded operations. -/
def Rounded.plane_dist (rnd : K → K) (tri : Triangle K) (p : Vec3 K) : K :=
  rnd (tri.n0 - Rounded.vdot rnd p tri.normal)

/-- A triangle is a hug candidate at `p` for the code with rounded operations: the
computed plane distance lies in `[-0.01f, 1)` and the computed projection of `p` passes
the computed inside test. -/
def Rounded.hug_candidate (rnd : K → K) (tri : Triangle K) (p : Vec3 K) : Prop :=
  -(rnd (1 / 100)) ≤ Rounded.plane_dist rnd tri p ∧ Rounded.plane_dist rnd tri p < 1
    ∧ Rounded.inside_triangle rnd tri
        (Rounded.vadd rnd p (Rounded.vmul rnd tri.normal (splat (Rounded.plane_dist rnd tri p))))
      = true

/-- The invariant of the loop of `wall_hug_detection` with rounded operations after the
triangles `seen`. -/
def Rounded.hug_ok (rnd : K → K) (p : Vec3 K) (seen : List (Triangle K))
    (st : K × Option (Triangle K)) : Prop :=
  st.1 ≤ 1
  ∧ (st.2 = none → st.1 = 1)
  ∧ (∀ t ∈ seen, Rounded.hug_candidate rnd t p → st.2 ≠ none ∧ st.1 ≤ Rounded.plane_dist rnd t p)
  ∧ (∀ t, st.2 = some t →
      t ∈ seen ∧ Rounded.hug_candidate rnd t p ∧ st.1 = Rounded.plane_dist rnd t p)

/-- The part of the loop invariant of `collision_detection` that rests on the comparisons
alone, for the code with rounded operations. -/
def Rounded.scan_ok (st : Scan K) : Prop :=
  st.min_time ≤ 1
  ∧ -(1 / 2) ≤ st.min_time
  ∧ (st.closest_triangle ≠ none → st.min_time < 1)

/-! ## Predicates of the specification -/

/-- The least of the six times of the vertex and edge tests of one triangle:
`point_crash_time` for `a`, `b`, `c` and `line_crash_time` for `ab`, `ac`, `bc`. -/
def six_min (sqrt : K → K) (player_pos velocity : Vec3 K) (tri : Triangle K) : K :=
  min (min (min (min (min (point_crash_time sqrt player_pos velocity tri.a)
    (point_crash_time sqrt player_pos velocity tri.b))
    (point_crash_time sqrt player_pos velocity tri.c))
    (line_crash_time sqrt player_pos velocity tri.a tri.b).1)
    (line_crash_time sqrt player_pos velocity tri.a tri.c).1)
    (line_crash_time sqrt player_pos velocity tri.b tri.c).1

/-- The time `ticks_to_hit` of the plane test of `collision_detection` for one triangle. -/
def face_hit_time (tri : Triangle K) (player_pos velocity : Vec3 K) : K :=
  (tri.n0 - dot player_pos tri.normal - 1) / dot velocity tri.normal

/-- A triangle has a valid face hit: the closing speed exceeds `0.00001`, the time
`ticks_to_hit` lies in `[0, 1)` and the projected contact point is inside the triangle. -/
def valid_face_hit (tri : Triangle K) (player_pos velocity : Vec3 K) : Prop :=
  1 / 100000 < dot velocity tri.normal
  ∧ 0 ≤ face_hit_time tri player_pos velocity
  ∧ face_hit_time tri player_pos velocity < 1
  ∧ inside_triangle tri
      ((player_pos + tri.normal) + splat (face_hit_time tri player_pos velocity) * velocity) = true

/-- Squared perpendicular distance of the point `q` from the line of motion
`pos + t * v`: the squared distance of `q` from its orthogonal projection onto the line,
which is the centre at `t = dot (q - pos) v / dot v v`. -/
def perp_dist_sq (pos v q : Vec3 K) : K :=
  centre_dist_sq pos v q (dot (q - pos) v / dot v v)

/-- A result `(time, contact)` of a vertex or edge test is sound for the sweep from
`pos` with velocity `v`: it is the sentinel, or the time is at least `-1/2` and the
contact is at squared distance one from the centre advanced by `time * v`. -/
def hit_ok (pos v : Vec3 K) (r : K × Vec3 K) : Prop :=
  r.1 = 10 ∨
    (-(1 / 2) ≤ r.1
      ∧ dot (r.2 - (pos + splat (1 * r.1) * v)) (r.2 - (pos + splat (1 * r.1) * v)) = 1)

/-- The invariant of the loop of `collision_detection`. -/
def scan_ok (pos v : Vec3 K) (st : Scan K) : Prop :=
  st.min_time ≤ 1
  ∧ -(1 / 2) ≤ st.min_time
  ∧ (st.crash = false → 0 ≤ st.min_time)
  ∧ (st.crash = true →
      dot (st.crash_point - (pos + splat (1 * st.min_time) * v))
        (st.crash_point - (pos + splat (1 * st.min_time) * v)) = 1)
  ∧ (st.closest_triangle ≠ none → st.min_time < 1)

/-- The plane distance `n0 - dot (p, normal)` of a position from a triangle's plane. -/
def plane_dist (tri : Triangle K) (p : Vec3 K) : K := tri.n0 - dot p tri.normal

/-- A triangle is a hug candidate at `p`: its plane distance lies in `[-0.01, 1)` and
the projection of `p` onto the plane is inside the triangle. -/
def hug_candidate (tri : Triangle K) (p : Vec3 K) : Prop :=
  -(1 / 100) ≤ plane_dist tri p ∧ plane_dist tri p < 1
    ∧ inside_triangle tri (p + tri.normal * splat (plane_dist tri p)) = true

/-- The invariant of the loop of `wall_hug_detection` after the triangles `seen`. -/
def hug_ok (p : Vec3 K) (seen : List (Triangle K)) (st : K × Option (Triangle K)) : Prop :=
  st.1 ≤ 1
  ∧ (st.2 = none → st.1 = 1)
  ∧ (∀ t ∈ seen, hug_candidate t p → st.2 ≠ none ∧ st.1 ≤ plane_dist t p)
  ∧ (∀ t, st.2 = some t → t ∈ seen ∧ hug_candidate t p ∧ st.1 = plane_dist t p)

/-! ## Worked examples -/

/-- A wall in the plane `x = 0` used in worked examples: vertices `(0,-10,-10)`,
`(0,10,-10)`, `(0,0,10)`, with the normal `(-1,0,0)` and the plane constant `0` that
`init_mesh` gives it. -/
def example_wall : Triangle K :=
  { a := ⟨0, -10, -10⟩, b := ⟨0, 10, -10⟩, c := ⟨0, 0, 10⟩, normal := ⟨-1, 0, 0⟩, n0 := 0 }

/-- A second wall used in worked examples, in the plane `y = 0`: vertices `(-10,0,-10)`,
`(0,0,10)`, `(10,0,-10)`, with the normal `(0,-1,0)` and the plane constant `0` that
`init_mesh` gives it. -/
def example_wall_y : Triangle K :=
  { a := ⟨-10, 0, -10⟩, b := ⟨0, 0, 10⟩, c := ⟨10, 0, -10⟩, normal := ⟨0, -1, 0⟩, n0 := 0 }

/-- A wall in the plane `x = -3/4` used in worked examples: vertices `(-3/4,0,0)`,
`(-3/4,5,0)`, `(-3/4,0,5)`, with the normal `(-1,0,0)` and the plane constant `3/4` that
`init_mesh` gives it. -/
def example_near_wall : Triangle K :=
  { a := ⟨-(3 / 4), 0, 0⟩, b := ⟨-(3 / 4), 5, 0⟩, c := ⟨-(3 / 4), 0, 5⟩,
    normal := ⟨-1, 0, 0⟩, n0 := 3 / 4 }

/-- A wall in the plane `x = -11/10` used in worked examples: vertices `(-11/10,3/5,0)`,
`(-11/10,5,0)`, `(-11/10,3/5,5)`, with the normal `(-1,0,0)` and the plane constant
`11/10` that `init_mesh` gives it. -/
def example_side_wall : Triangle K :=
  { a := ⟨-(11 / 10), 3 / 5, 0⟩, b := ⟨-(11 / 10), 5, 0⟩, c := ⟨-(11 / 10), 3 / 5, 5⟩,
    normal := ⟨-1, 0, 0⟩, n0 := 11 / 10 }

/-- A triangle used in worked examples: vertices `(0,0,0)`, `(1 + 2⁻²³,1,0)`, `(-1,1,0)`,
with the normal `(0,0,-1)` and the plane constant `0` that `init_mesh` gives it. -/
def example_thin_triangle : Triangle K :=
  { a := ⟨0, 0, 0⟩, b := ⟨8388609 / 8388608, 1, 0⟩, c := ⟨-1, 1, 0⟩, normal := ⟨0, 0, -1⟩,
    n0 := 0 }

/-- A wall used in worked examples, in the plane `x = -15332949 / 2 ^ 26`: vertices with
`(y, z)` equal to `(-10,-10)`, `(10,-10)`, `(0,10)`, the normal `(-1,0,0)` and the plane
constant `15332949 / 2 ^ 26` (a binary32 number, `0x1.d3ecaap-3`). -/
def example_offset_wall : Triangle K :=
  { a := ⟨-(15332949 / 67108864), -10, -10⟩, b := ⟨-(15332949 / 67108864), 10, -10⟩,
    c := ⟨-(15332949 / 67108864), 0, 10⟩, normal := ⟨-1, 0, 0⟩, n0 := 15332949 / 67108864 }

/-- A floor triangle used in worked examples: vertices `(0,0,0)`, `(1,0,0)`, `(0,1,0)`,
with the normal `(0,0,-1)` and the plane constant `0` that `init_mesh` gives it. -/
def example_floor : Triangle K :=
  { a := ⟨0, 0, 0⟩, b := ⟨1, 0, 0⟩, c := ⟨0, 1, 0⟩, normal := ⟨0, 0, -1⟩, n0 := 0 }

/-! ## Vector algebra -/

section algebra

variable {K : Type} [LinearOrderedField K]

@[simp] theorem Vec3.add_def (u v : Vec3 K) : u + v = ⟨u.x + v.x, u.y + v.y, u.z + v.z⟩ := rfl
@[simp] theorem Vec3.sub_def (u v : Vec3 K) : u - v = ⟨u.x - v.x, u.y - v.y, u.z - v.z⟩ := rfl
@[simp] theorem Vec3.neg_def (v : Vec3 K) : -v = ⟨-v.x, -v.y, -v.z⟩ := rfl
@[simp] theorem Vec3.mul_def (u v : Vec3 K) : u * v = ⟨u.x * v.x, u.y * v.y, u.z * v.z⟩ := rfl
theorem Vec3.zero_def : (0 : Vec3 K) = ⟨0, 0, 0⟩ := rfl
@[simp] theorem Vec3.zero_x : (0 : Vec3 K).x = 0 := rfl
@[simp] theorem Vec3.zero_y : (0 : Vec3 K).y = 0 := rfl
@[simp] theorem Vec3.zero_z : (0 : Vec3 K).z = 0 := rfl

theorem Vec3.dot_self_nonneg (v : Vec3 K) : 0 ≤ dot v v := by
  unfold dot
  nlinarith [mul_self_nonneg v.x, mul_self_nonneg v.y, mul_self_nonneg v.z]

theorem Vec3.dot_self_eq_zero {v : Vec3 K} (h : dot v v = 0) : v = 0 := by
  unfold dot at h
  have hx : v.x = 0 := by
    have := mul_self_nonneg v.x; have := mul_self_nonneg v.y; have := mul_self_nonneg v.z
    exact mul_self_eq_zero.mp (by linarith)
  have hy : v.y = 0 := by
    have := mul_self_nonneg v.x; have := mul_self_nonneg v.y; have := mul_self_nonneg v.z
    exact mul_self_eq_zero.mp (by linarith)
  have hz : v.z = 0 := by
    have := mul_self_nonneg v.x; have := mul_self_nonneg v.y; have := mul_self_nonneg v.z
    exact mul_self_eq_zero.mp (by linarith)
  cases v
  simp_all [Vec3.zero_def]

theorem Vec3.dot_self_pos {v : Vec3 K} (h : v ≠ 0) : 0 < dot v v :=
  lt_of_le_of_ne (Vec3.dot_self_nonneg v) (fun e => h (Vec3.dot_self_eq_zero e.symm))

/-- The squared distance of the centre from `q` is the quadratic of the solver plus one. -/
theorem centre_dist_sq_eq (pos v q : Vec3 K) (t : K) :
    centre_dist_sq pos v q t
      = dot v v * (t * t) + 2 * dot (pos - q) v * t + (dot (pos - q) (pos - q) - 1) + 1 := by
  simp only [centre_dist_sq, dot, splat, Vec3.add_def, Vec3.sub_def, Vec3.mul_def]
  ring

/-- With the larger root first, the chain of `select_root` takes the smaller root when it
passes the tolerance, else the larger one when that passes, else nothing. -/
theorem select_root_of_le {r0 r1 : K} (h : r1 ≤ r0) :
    select_root r0 r1
      = if -(1 / 2) ≤ r1 then some r1 else if -(1 / 2) ≤ r0 then some r0 else none := by
  unfold select_root twiddle_factor
  by_cases h1 : -(1 / 2) ≤ r1
  · have h0 : -(1 / 2) ≤ r0 := le_trans h1 h
    rw [if_pos ⟨h0, h1⟩, if_pos h1]
    rcases lt_or_eq_of_le h with hlt | heq
    · rw [if_pos hlt]
    · rw [if_neg (by rw [heq]; exact lt_irrefl _), heq]
  · rw [if_neg (fun hc => h1 hc.2), if_neg h1]
    by_cases h0 : -(1 / 2) ≤ r0
    · rw [if_pos ⟨h0, not_le.mp h1⟩, if_pos h0]
    · rw [if_neg (fun hc => h0 hc.1), if_neg (fun hc => h1 hc.2), if_neg h0]

theorem fdiv_of_ne {a b : K} (h : b ≠ 0) : fdiv a b = some (a / b) := by
  unfold fdiv
  rw [if_neg h]

theorem fdiv_zero (a : K) : fdiv a 0 = none := by
  unfold fdiv
  rw [if_pos rfl]

/-- A zero `ab_sqr` comes with zero numerators: the quotients `T` and `S` of
`line_crash_time` are then `0 / 0`. -/
theorem zero_length_numerator (ab x : Vec3 K) (h : dot ab ab = 0) : dot ab x = 0 := by
  rw [Vec3.dot_self_eq_zero h]
  simp [dot]

/-- A zero leading coefficient comes with zero numerators: with `dot V V = 0` the
discriminant and both numerators `-B ± sqrt D` of the solvers vanish, so the two roots
are `0 / 0`. -/
theorem zero_divisor_numerators (sqrt : K → K) (hs : sqrt 0 = 0) (V W : Vec3 K) (C : K)
    (h : 2 * dot V V = 0) :
    -(2 * dot V W) + sqrt (2 * dot V W * (2 * dot V W) - 4 * dot V V * C) = 0
    ∧ -(2 * dot V W) - sqrt (2 * dot V W * (2 * dot V W) - 4 * dot V V * C) = 0
    ∧ -(2 * dot W V) + sqrt (2 * dot W V * (2 * dot W V) - 4 * dot V V * C) = 0
    ∧ -(2 * dot W V) - sqrt (2 * dot W V * (2 * dot W V) - 4 * dot V V * C) = 0 := by
  have hV : V = 0 := Vec3.dot_self_eq_zero (by linarith)
  have h1 : dot V W = 0 := by rw [hV]; simp [dot]
  have h2 : dot W V = 0 := by rw [hV]; simp [dot]
  have h3 : dot V V = 0 := by linarith
  simp [h1, h2, h3, hs]

/-- For a non-zero velocity the point solver is: the sentinel when the discriminant is
negative, else the smaller root if it is at least `-1/2`, else the larger root if that
is at least `-1/2`, else the sentinel. -/
theorem point_crash_time_eq (sqrt : K → K) (hs : ∀ x, 0 ≤ sqrt x) (pos v q : Vec3 K)
    (hv : v ≠ 0) :
    point_crash_time sqrt pos v q
      = if 2 * dot (pos - q) v * (2 * dot (pos - q) v)
            - 4 * dot v v * (dot (pos - q) (pos - q) - 1) < 0 then 10
        else if -(1 / 2) ≤ (-(2 * dot (pos - q) v) - sqrt (2 * dot (pos - q) v * (2 * dot (pos - q) v)
            - 4 * dot v v * (dot (pos - q) (pos - q) - 1))) / (2 * dot v v) then
          (-(2 * dot (pos - q) v) - sqrt (2 * dot (pos - q) v * (2 * dot (pos - q) v)
            - 4 * dot v v * (dot (pos - q) (pos - q) - 1))) / (2 * dot v v)
        else if -(1 / 2) ≤ (-(2 * dot (pos - q) v) + sqrt (2 * dot (pos - q) v * (2 * dot (pos - q) v)
            - 4 * dot v v * (dot (pos - q) (pos - q) - 1))) / (2 * dot v v) then
          (-(2 * dot (pos - q) v) + sqrt (2 * dot (pos - q) v * (2 * dot (pos - q) v)
            - 4 * dot v v * (dot (pos - q) (pos - q) - 1))) / (2 * dot v v)
        else 10 := by
  have hA : 0 < 2 * dot v v := by have := Vec3.dot_self_pos hv; linarith
  unfold point_crash_time
  simp only []
  split_ifs with h1 h2 h3 <;>
    simp only [fdiv_of_ne hA.ne'] <;>
    rw [select_root_of_le (div_le_div_of_nonneg_right (by linarith [hs (2 * dot (pos - q) v * (2 * dot (pos - q) v)
            - 4 * dot v v * (dot (pos - q) (pos - q) - 1))]) hA.le)]
  · rw [if_pos h2]
  · rw [if_neg h2, if_pos h3]
  · rw [if_neg h2, if_neg h3]

/-- Whatever `select_root` returns is one of the two candidates and passes the tolerance. -/
theorem select_root_some {r0 r1 t : K} (h : select_root r0 r1 = some t) :
    (t = r0 ∨ t = r1) ∧ -(1 / 2) ≤ t := by
  unfold select_root twiddle_factor at h
  split_ifs at h with h1 h2 h3 h4
  · exact ⟨Or.inr (Option.some.inj h).symm, (Option.some.inj h) ▸ h1.2⟩
  · exact ⟨Or.inl (Option.some.inj h).symm, (Option.some.inj h) ▸ h1.1⟩
  · exact ⟨Or.inl (Option.some.inj h).symm, (Option.some.inj h) ▸ h3.1⟩
  · exact ⟨Or.inr (Option.some.inj h).symm, (Option.some.inj h) ▸ h4.2⟩

theorem Vec3.eq_of_sub_eq_zero {u v : Vec3 K} (h : u - v = 0) : u = v := by
  cases u; cases v
  simp only [Vec3.sub_def, Vec3.zero_def, Vec3.mk.injEq] at h ⊢
  exact ⟨sub_eq_zero.mp h.1, sub_eq_zero.mp h.2.1, sub_eq_zero.mp h.2.2⟩

theorem fdiv_some {a b q : K} (h : fdiv a b = some q) : b ≠ 0 ∧ q * b = a := by
  unfold fdiv at h
  split_ifs at h with hb
  exact ⟨hb, by rw [← Option.some.inj h, div_mul_cancel₀ a hb]⟩

/-- What a hit of `line_crash_time` means: the time passes the tolerance, the contact is
`a + k * (b - a)` with `0 ≤ k ≤ 1`, the centre at that time projects orthogonally onto
the contact and is at distance one from it. -/
theorem line_crash_time_hit (sqrt : K → K) (hs : ∀ x, 0 ≤ x → sqrt x * sqrt x = x)
    (pos v a b : Vec3 K) (t : K) (c : Vec3 K)
    (h : line_crash_time sqrt pos v a b = (t, c)) (ht : t ≠ 10) :
    -(1 / 2) ≤ t ∧
    ∃ k : K, 0 ≤ k ∧ k ≤ 1 ∧ c = a + splat k * (b - a)
      ∧ dot (pos + splat t * v - c) (b - a) = 0
      ∧ dot (pos + splat t * v - c) (pos + splat t * v - c) = 1 := by
  unfold line_crash_time at h
  simp only [] at h
  split at h
  · rename_i T S hT hS
    split_ifs at h with hD
    · exact absurd (congrArg Prod.fst h).symm ht
    · split at h
      · rename_i sol0 sol1 h0 h1
        split at h
        · rename_i solution hsel
          split_ifs at h with hk
          · obtain ⟨hab, eT⟩ := fdiv_some hT
            obtain ⟨_, eS⟩ := fdiv_some hS
            obtain ⟨hA, e0⟩ := fdiv_some h0
            obtain ⟨_, e1⟩ := fdiv_some h1
            obtain ⟨hor, htw⟩ := select_root_some hsel
            have hsq := hs _ (not_lt.mp hD)
            generalize hkdef : dot (b - a) (pos - a + splat solution * v) / dot (b - a) (b - a) = k
              at hk h
            have ek : k * dot (b - a) (b - a) = dot (b - a) (pos - a + splat solution * v) := by
              rw [← hkdef, div_mul_cancel₀ _ hab]
            obtain ⟨rfl, rfl⟩ := Prod.mk.inj h
            have hkST : k = S + solution * T := by
              have h3 : (k - S - solution * T) * dot (b - a) (b - a) = 0 := by
                rw [sub_mul, sub_mul, ek, eS, mul_assoc, eT]
                simp only [dot, splat, Vec3.add_def, Vec3.sub_def, Vec3.mul_def]
                ring
              rcases mul_eq_zero.mp h3 with h4 | h4
              · linarith
              · exact absurd h4 hab
            generalize hAdef : dot (v - splat T * (b - a)) (v - splat T * (b - a)) = A
              at hA e0 e1 hsq hD
            generalize hBdef : 2 * dot (v - splat T * (b - a)) (pos - a - splat S * (b - a)) = B
              at e0 e1 hsq hD
            generalize hCdef : dot (pos - a - splat S * (b - a)) (pos - a - splat S * (b - a)) - 1 = C
              at e0 e1 hsq hD
            have hroot : A * (solution * solution) + B * solution + C = 0 := by
              have h4 : (2 * A) * (A * (solution * solution) + B * solution + C) = 0 := by
                rcases hor with e | e
                · rw [e]; linear_combination (sol0 * A + B / 2 + sqrt (B * B - 4 * A * C) / 2) * e0 + hsq / 2
                · rw [e]; linear_combination (sol1 * A + B / 2 - sqrt (B * B - 4 * A * C) / 2) * e1 + hsq / 2
              rcases mul_eq_zero.mp h4 with h5 | h5
              · exact absurd h5 hA
              · exact h5
            refine ⟨htw, k, hk.1, hk.2, rfl, ?_, ?_⟩
            · simp only [dot, splat, Vec3.add_def, Vec3.sub_def, Vec3.mul_def] at ek ⊢
              linear_combination -ek
            · have : dot (pos + splat solution * v - (a + splat k * (b - a)))
                    (pos + splat solution * v - (a + splat k * (b - a)))
                  = A * (solution * solution) + B * solution + C + 1 := by
                rw [← hAdef, ← hBdef, ← hCdef, hkST]
                simp only [dot, splat, Vec3.add_def, Vec3.sub_def, Vec3.mul_def]
                ring
              rw [this, hroot, zero_add]
          · exact absurd (congrArg Prod.fst h).symm ht
        · exact absurd (congrArg Prod.fst h).symm ht
      · exact absurd (congrArg Prod.fst h).symm ht
  · exact absurd (congrArg Prod.fst h).symm ht

end algebra

/-! ## The point solver -/

section point

/-- A root of a quadratic forces a non-negative discriminant. -/
theorem discrim_nonneg_of_root {K : Type} [LinearOrderedField K] {A B C t : K}
    (h : A * (t * t) + B * t + C = 0) : 0 ≤ B * B - 4 * A * C := by
  have : B * B - 4 * A * C = (2 * A * t + B) * (2 * A * t + B) := by linear_combination -4 * A * h
  rw [this]
  exact mul_self_nonneg _

theorem sqrt_four : Real.sqrt 4 = 2 := by
  rw [show (4 : ℝ) = 2 * 2 by norm_num]
  exact Real.sqrt_mul_self (by norm_num)

theorem unit_x_ne_zero : (⟨1, 0, 0⟩ : Vec3 ℝ) ≠ 0 := by
  intro h
  have := congrArg Vec3.x h
  simp at this

/-- Exact arithmetic. For a non-zero velocity, `point_crash_time pos v q` is the least `t ≥
-1/2` at which the centre `pos + t * v` is at distance one from `q` when such a `t` exists,
and the sentinel `10` otherwise; from the origin with velocity `(1,0,0)` the point `(3,0,0)`
gives `2` and the point `(1,1/2,0)` gives `1 - cos (π/6)`. -/
theorem point_crash_time_least (pos v q : Vec3 ℝ) (hv : v ≠ 0) :
    ((∃ t : ℝ, -(1 / 2) ≤ t ∧ centre_dist_sq pos v q t = 1) →
        IsLeast {t : ℝ | -(1 / 2) ≤ t ∧ centre_dist_sq pos v q t = 1}
          (point_crash_time Real.sqrt pos v q))
    ∧ ((¬ ∃ t : ℝ, -(1 / 2) ≤ t ∧ centre_dist_sq pos v q t = 1) →
        point_crash_time Real.sqrt pos v q = 10)
    ∧ point_crash_time Real.sqrt ⟨0, 0, 0⟩ ⟨1, 0, 0⟩ ⟨3, 0, 0⟩ = 2
    ∧ point_crash_time Real.sqrt ⟨0, 0, 0⟩ ⟨1, 0, 0⟩ ⟨1, 1 / 2, 0⟩ = 1 - Real.cos (Real.pi / 6) := by
  have hA : 0 < dot v v := Vec3.dot_self_pos hv
  have hA2 : (2 * dot v v) ≠ 0 := by linarith
  rw [point_crash_time_eq Real.sqrt Real.sqrt_nonneg pos v q hv]
  have key : ∀ t : ℝ, centre_dist_sq pos v q t = 1 ↔
      dot v v * (t * t) + 2 * dot (pos - q) v * t + (dot (pos - q) (pos - q) - 1) = 0 := by
    intro t
    rw [centre_dist_sq_eq]
    constructor <;> intro h <;> linarith
  generalize hB : 2 * dot (pos - q) v = B at key ⊢
  generalize hC : dot (pos - q) (pos - q) - 1 = C at key ⊢
  generalize hAA : dot v v = A at key hA hA2 ⊢
  have hlast : point_crash_time Real.sqrt ⟨0, 0, 0⟩ ⟨1, 0, 0⟩ ⟨3, 0, 0⟩ = 2
      ∧ point_crash_time Real.sqrt ⟨0, 0, 0⟩ ⟨1, 0, 0⟩ ⟨1, 1 / 2, 0⟩ = 1 - Real.cos (Real.pi / 6) := by
    have hne : (⟨1, 0, 0⟩ : Vec3 ℝ) ≠ 0 := unit_x_ne_zero
    constructor
    · rw [point_crash_time_eq Real.sqrt Real.sqrt_nonneg _ _ _ hne]
      norm_num [dot]
      rw [sqrt_four]
      norm_num
    · rw [point_crash_time_eq Real.sqrt Real.sqrt_nonneg _ _ _ hne, Real.cos_pi_div_six]
      norm_num [dot]
      have h3 : Real.sqrt 3 ≤ 3 := by
        rw [Real.sqrt_le_left (by norm_num)]
        norm_num
      rw [if_pos (by linarith)]
      ring
  refine ⟨?_, ?_, hlast⟩
  · rintro ⟨t0, ht0, hr0⟩
    have hd : 0 ≤ B * B - 4 * A * C := discrim_nonneg_of_root ((key t0).mp hr0)
    rw [if_neg (not_lt.mpr hd)]
    have hss : discrim A B C = Real.sqrt (B * B - 4 * A * C) * Real.sqrt (B * B - 4 * A * C) := by
      rw [Real.mul_self_sqrt hd, discrim]; ring
    have roots := fun t => quadratic_eq_zero_iff hA.ne' hss t
    have hle : (-B - Real.sqrt (B * B - 4 * A * C)) / (2 * A)
        ≤ (-B + Real.sqrt (B * B - 4 * A * C)) / (2 * A) :=
      div_le_div_of_nonneg_right (by linarith [Real.sqrt_nonneg (B * B - 4 * A * C)]) (by linarith)
    split_ifs with h1 h0
    · refine ⟨⟨h1, (key _).mpr ((roots _).mpr (Or.inr rfl))⟩, ?_⟩
      rintro t ⟨_, ht⟩
      rcases (roots t).mp ((key t).mp ht) with e | e
      · rw [e]; exact hle
      · rw [e]
    · refine ⟨⟨h0, (key _).mpr ((roots _).mpr (Or.inl rfl))⟩, ?_⟩
      rintro t ⟨htw, ht⟩
      rcases (roots t).mp ((key t).mp ht) with e | e
      · rw [e]
      · rw [e] at htw; exact absurd htw h1
    · rcases (roots t0).mp ((key t0).mp hr0) with e | e
      · rw [e] at ht0; exact absurd ht0 h0
      · rw [e] at ht0; exact absurd ht0 h1
  · intro hno
    split_ifs with hd h1 h0
    · rfl
    · have hss : discrim A B C = Real.sqrt (B * B - 4 * A * C) * Real.sqrt (B * B - 4 * A * C) := by
        rw [Real.mul_self_sqrt (not_lt.mp hd), discrim]; ring
      exact absurd ⟨_, h1, (key _).mpr ((quadratic_eq_zero_iff hA.ne' hss _).mpr (Or.inr rfl))⟩ hno
    · have hss : discrim A B C = Real.sqrt (B * B - 4 * A * C) * Real.sqrt (B * B - 4 * A * C) := by
        rw [Real.mul_self_sqrt (not_lt.mp hd), discrim]; ring
      exact absurd ⟨_, h0, (key _).mpr ((quadratic_eq_zero_iff hA.ne' hss _).mpr (Or.inl rfl))⟩ hno
    · rfl

/-- The least contact time at the origin with velocity `(1,0,0)` and the point `(3,0,0)`,
exact arithmetic. -/
theorem point_crash_time_least_witness :
    (⟨1, 0, 0⟩ : Vec3 ℝ) ≠ 0
    ∧ IsLeast {t : ℝ | -(1 / 2) ≤ t ∧ centre_dist_sq ⟨0, 0, 0⟩ ⟨1, 0, 0⟩ ⟨3, 0, 0⟩ t = 1}
        (point_crash_time Real.sqrt ⟨0, 0, 0⟩ ⟨1, 0, 0⟩ ⟨3, 0, 0⟩) :=
  ⟨unit_x_ne_zero,
    (point_crash_time_least ⟨0, 0, 0⟩ ⟨1, 0, 0⟩ ⟨3, 0, 0⟩ unit_x_ne_zero).1
      ⟨2, by norm_num, by norm_num [centre_dist_sq, dot, splat]⟩⟩

theorem point_crash_time_far_example :
    point_crash_time Real.sqrt ⟨0, 0, 0⟩ ⟨1, 0, 0⟩ ⟨2, 2, 0⟩ = 10 := by
  norm_num [point_crash_time, dot]

/-- Exact arithmetic. For a non-zero velocity and a point `q` whose perpendicular distance
from the line of motion exceeds the radius `1`, `point_crash_time` returns the sentinel
`10`; so it does from the origin with velocity `(1,0,0)` for the point `(2,2,0)`. -/
theorem point_crash_time_miss (pos v q : Vec3 ℝ) (hv : v ≠ 0)
    (hfar : 1 < perp_dist_sq pos v q) :
    point_crash_time Real.sqrt pos v q = 10
    ∧ point_crash_time Real.sqrt ⟨0, 0, 0⟩ ⟨1, 0, 0⟩ ⟨2, 2, 0⟩ = 10 := by
  refine ⟨?_, point_crash_time_far_example⟩
  have hA : 0 < dot v v := Vec3.dot_self_pos hv
  unfold perp_dist_sq at hfar
  rw [centre_dist_sq_eq] at hfar
  have hB : 2 * dot (pos - q) v = -2 * (dot (q - pos) v / dot v v * dot v v) := by
    rw [div_mul_cancel₀ _ hA.ne']
    simp only [dot, Vec3.sub_def]
    ring
  generalize dot (q - pos) v / dot v v = t at hfar hB
  rw [point_crash_time_eq Real.sqrt Real.sqrt_nonneg pos v q hv, if_pos]
  generalize dot (pos - q) (pos - q) - 1 = C at hfar ⊢
  generalize 2 * dot (pos - q) v = B at hfar hB ⊢
  generalize dot v v = A at hfar hB hA ⊢
  subst hB
  nlinarith [mul_pos hA hA]

/-- The sentinel at the origin with velocity `(1,0,0)` and the point `(2,2,0)`, at
perpendicular distance `2` from the line of motion. -/
theorem point_crash_time_miss_witness :
    (⟨1, 0, 0⟩ : Vec3 ℝ) ≠ 0
    ∧ perp_dist_sq (⟨0, 0, 0⟩ : Vec3 ℝ) ⟨1, 0, 0⟩ ⟨2, 2, 0⟩ = 4
    ∧ point_crash_time Real.sqrt ⟨0, 0, 0⟩ ⟨1, 0, 0⟩ ⟨2, 2, 0⟩ = 10 :=
  ⟨unit_x_ne_zero, by norm_num [perp_dist_sq, centre_dist_sq, dot, splat],
    (point_crash_time_miss ⟨0, 0, 0⟩ ⟨1, 0, 0⟩ ⟨2, 2, 0⟩ unit_x_ne_zero
      (by norm_num [perp_dist_sq, centre_dist_sq, dot, splat])).1⟩

end point

/-! ## The edge solver -/

section line

end line

/-! ## The scan of `collision_detection` -/

section scan

variable {K : Type} [LinearOrderedField K]

/-- An iteration never raises `min_time`. -/
theorem collision_step_min_time_le (sqrt : K → K) (pos v : Vec3 K) (st : Scan K)
    (tri : Triangle K) : (collision_step sqrt pos v st tri).min_time ≤ st.min_time := by
  unfold collision_step
  simp only []
  split_ifs with h1 h2 h3 h4 h5
  · exact h2.2.le
  · exact le_refl _
  · exact h5.le
  · exact le_refl _
  · exact le_refl _
  · exact le_refl _

/-- An iteration never resets `closest_triangle` to null. -/
theorem collision_step_closest (sqrt : K → K) (pos v : Vec3 K) (st : Scan K)
    (tri : Triangle K) (h : st.closest_triangle ≠ none) :
    (collision_step sqrt pos v st tri).closest_triangle ≠ none := by
  unfold collision_step
  simp only []
  split_ifs <;> simp [h]

/-- An iteration keeps: `min_time` below `1` only with a recorded triangle. -/
theorem collision_step_recorded (sqrt : K → K) (pos v : Vec3 K) (st : Scan K)
    (tri : Triangle K) (h : st.min_time < 1 → st.closest_triangle ≠ none) :
    (collision_step sqrt pos v st tri).min_time < 1 →
      (collision_step sqrt pos v st tri).closest_triangle ≠ none := by
  unfold collision_step
  simp only []
  split_ifs <;> simp <;> exact h

theorem collision_fold_min_time_le (sqrt : K → K) (pos v : Vec3 K) (l : List (Triangle K)) :
    ∀ st : Scan K, (l.foldl (collision_step sqrt pos v) st).min_time ≤ st.min_time := by
  induction l with
  | nil => intro st; exact le_refl _
  | cons tri l ih =>
    intro st
    exact le_trans (ih _) (collision_step_min_time_le sqrt pos v st tri)

theorem collision_fold_closest (sqrt : K → K) (pos v : Vec3 K) (l : List (Triangle K)) :
    ∀ st : Scan K, st.closest_triangle ≠ none →
      (l.foldl (collision_step sqrt pos v) st).closest_triangle ≠ none := by
  induction l with
  | nil => intro st h; exact h
  | cons tri l ih =>
    intro st h
    exact ih _ (collision_step_closest sqrt pos v st tri h)

theorem collision_fold_recorded (sqrt : K → K) (pos v : Vec3 K) (l : List (Triangle K)) :
    ∀ st : Scan K, (st.min_time < 1 → st.closest_triangle ≠ none) →
      (l.foldl (collision_step sqrt pos v) st).min_time < 1 →
      (l.foldl (collision_step sqrt pos v) st).closest_triangle ≠ none := by
  induction l with
  | nil => intro st h; exact h
  | cons tri l ih =>
    intro st h
    exact ih _ (collision_step_recorded sqrt pos v st tri h)

/-- The iteration on a triangle with a valid face hit leaves `min_time` at or below the
time of that hit, with a recorded triangle. -/
theorem collision_step_face_hit (sqrt : K → K) (pos v : Vec3 K) (st : Scan K)
    (tri : Triangle K) (h : st.min_time < 1 → st.closest_triangle ≠ none)
    (hvalid : valid_face_hit tri pos v) :
    (collision_step sqrt pos v st tri).min_time ≤ face_hit_time tri pos v
    ∧ (collision_step sqrt pos v st tri).closest_triangle ≠ none := by
  obtain ⟨h1, h2, h3, h4⟩ := hvalid
  unfold face_hit_time at h2 h3 h4 ⊢
  by_cases hlt : (tri.n0 - dot pos tri.normal - 1) / dot v tri.normal < st.min_time
  · unfold collision_step
    simp only []
    rw [if_pos h1, if_pos ⟨h2, hlt⟩, if_pos h4]
    exact ⟨le_refl _, by simp⟩
  · have hle := not_lt.mp hlt
    exact ⟨le_trans (collision_step_min_time_le sqrt pos v st tri) hle,
      collision_step_closest sqrt pos v st tri (h (lt_of_le_of_lt hle h3))⟩

/-- With a non-zero velocity and a recorded triangle the position is advanced by
`min_time * velocity`, in the face branch and in the edge and vertex branch alike. -/
theorem collision_detection_pos (sqrt : K → K) (triangles : List (Triangle K))
    (pos v : Vec3 K) (hv : v ≠ 0)
    (h : (collision_scan sqrt triangles pos v).closest_triangle ≠ none) :
    (collision_detection sqrt triangles pos v).1
      = pos + splat (1 * (collision_scan sqrt triangles pos v).min_time) * v := by
  unfold collision_detection
  rw [if_neg hv]
  simp only []
  split
  · rename_i heq
    exact absurd heq h
  · split_ifs <;> rfl

/-- C3. For every registry, position and non-zero velocity: the impact time of
`collision_detection` (the `min_time` after its scan) is at most the face-hit time of
every triangle of the registry with a valid face hit (closing speed above `0.00001`,
`ticks_to_hit` in `[0,1)`, projected contact inside the triangle); and then a triangle
is recorded and the position is advanced by `min_time * velocity`: a correction is
applied, for every order of the registry. -/
theorem collision_detection_earliest_face (sqrt : K → K) (triangles : List (Triangle K))
    (pos v : Vec3 K) (hv : v ≠ 0) (tri : Triangle K) (hmem : tri ∈ triangles)
    (hvalid : valid_face_hit tri pos v) :
    (collision_scan sqrt triangles pos v).min_time ≤ face_hit_time tri pos v
    ∧ (collision_scan sqrt triangles pos v).closest_triangle ≠ none
    ∧ (collision_detection sqrt triangles pos v).1
        = pos + splat (1 * (collision_scan sqrt triangles pos v).min_time) * v := by
  have hscan : (collision_scan sqrt triangles pos v).min_time ≤ face_hit_time tri pos v
      ∧ (collision_scan sqrt triangles pos v).closest_triangle ≠ none := by
    obtain ⟨l1, l2, rfl⟩ := List.append_of_mem hmem
    unfold collision_scan
    rw [List.foldl_append, List.foldl_cons]
    have hrec := collision_fold_recorded sqrt pos v l1
      { min_time := 1, crash := false, crash_point := 0, closest_triangle := none }
      (fun h => absurd h (lt_irrefl _))
    obtain ⟨hle, hcl⟩ := collision_step_face_hit sqrt pos v _ tri hrec hvalid
    exact ⟨le_trans (collision_fold_min_time_le sqrt pos v l2 _) hle,
      collision_fold_closest sqrt pos v l2 _ hcl⟩
  exact ⟨hscan.1, hscan.2, collision_detection_pos sqrt triangles pos v hv hscan.2⟩

theorem example_wall_face_hit :
    valid_face_hit (example_wall : Triangle ℝ) ⟨3 / 2, 0, 0⟩ ⟨-1, 0, 0⟩ := by
  norm_num [valid_face_hit, face_hit_time, example_wall, inside_triangle, dot, cross, splat]

theorem neg_unit_x_ne_zero : (⟨-1, 0, 0⟩ : Vec3 ℝ) ≠ 0 := by
  intro h
  have := congrArg Vec3.x h
  simp at this

/-- C3 on the registry holding `example_wall`, from `(3/2,0,0)` with velocity
`(-1,0,0)`: the face hit at time `1/2` bounds the impact time. -/
theorem collision_detection_earliest_face_witness :
    valid_face_hit (example_wall : Triangle ℝ) ⟨3 / 2, 0, 0⟩ ⟨-1, 0, 0⟩
    ∧ face_hit_time (example_wall : Triangle ℝ) ⟨3 / 2, 0, 0⟩ ⟨-1, 0, 0⟩ = 1 / 2
    ∧ (collision_scan Real.sqrt [example_wall] ⟨3 / 2, 0, 0⟩ ⟨-1, 0, 0⟩).min_time
        ≤ face_hit_time (example_wall : Triangle ℝ) ⟨3 / 2, 0, 0⟩ ⟨-1, 0, 0⟩ :=
  ⟨example_wall_face_hit, by norm_num [face_hit_time, example_wall, dot],
    (collision_detection_earliest_face Real.sqrt [example_wall] ⟨3 / 2, 0, 0⟩ ⟨-1, 0, 0⟩
      neg_unit_x_ne_zero example_wall (List.mem_singleton.mpr rfl) example_wall_face_hit).1⟩

theorem hit_ok_ite (pos v : Vec3 K) (c : Prop) [Decidable c] (x y : K × Vec3 K)
    (hx : hit_ok pos v x) (hy : hit_ok pos v y) : hit_ok pos v (if c then x else y) := by
  split_ifs
  · exact hx
  · exact hy

theorem dist_sq_flip (pos v c : Vec3 K) (t : K) :
    dot (c - (pos + splat (1 * t) * v)) (c - (pos + splat (1 * t) * v))
      = dot (pos + splat t * v - c) (pos + splat t * v - c) := by
  simp only [dot, splat, Vec3.add_def, Vec3.sub_def, Vec3.mul_def]
  ring

/-- The point solver returns the sentinel or a time at which the centre is at distance
one from the point. -/
theorem point_crash_time_ok (sqrt : K → K) (hs0 : ∀ x, 0 ≤ sqrt x)
    (hs : ∀ x, 0 ≤ x → sqrt x * sqrt x = x) (pos v q : Vec3 K) (hv : v ≠ 0) :
    hit_ok pos v (point_crash_time sqrt pos v q, q) := by
  have hA : 0 < dot v v := Vec3.dot_self_pos hv
  have hdist : ∀ t : K, dot (q - (pos + splat (1 * t) * v)) (q - (pos + splat (1 * t) * v))
      = dot v v * (t * t) + 2 * dot (pos - q) v * t + (dot (pos - q) (pos - q) - 1) + 1 := by
    intro t
    simp only [dot, splat, Vec3.add_def, Vec3.sub_def, Vec3.mul_def]
    ring
  unfold hit_ok
  simp only []
  rw [point_crash_time_eq sqrt hs0 pos v q hv]
  split_ifs with hd h1 h0
  · exact Or.inl rfl
  · refine Or.inr ⟨h1, ?_⟩
    have hss := hs _ (not_lt.mp hd)
    rw [hdist, (quadratic_eq_zero_iff hA.ne' (by rw [hss, discrim]; ring) _).mpr (Or.inr rfl),
      zero_add]
  · refine Or.inr ⟨h0, ?_⟩
    have hss := hs _ (not_lt.mp hd)
    rw [hdist, (quadratic_eq_zero_iff hA.ne' (by rw [hss, discrim]; ring) _).mpr (Or.inl rfl),
      zero_add]
  · exact Or.inl rfl

/-- The edge solver returns the sentinel or a time at which the centre is at distance
one from the contact. -/
theorem line_crash_time_ok (sqrt : K → K) (hs : ∀ x, 0 ≤ x → sqrt x * sqrt x = x)
    (pos v a b : Vec3 K) : hit_ok pos v (line_crash_time sqrt pos v a b) := by
  by_cases h : (line_crash_time sqrt pos v a b).1 = 10
  · exact Or.inl h
  · obtain ⟨htw, k, _, _, _, _, hdist⟩ := line_crash_time_hit sqrt hs pos v a b _ _ rfl h
    refine Or.inr ⟨htw, ?_⟩
    rw [dist_sq_flip]
    exact hdist

theorem edge_vertex_time_ok (sqrt : K → K) (hs0 : ∀ x, 0 ≤ sqrt x)
    (hs : ∀ x, 0 ≤ x → sqrt x * sqrt x = x) (pos v : Vec3 K) (hv : v ≠ 0)
    (tri : Triangle K) : hit_ok pos v (edge_vertex_time sqrt pos v tri) := by
  unfold edge_vertex_time
  simp only []
  exact hit_ok_ite _ _ _ _ _ (line_crash_time_ok sqrt hs _ _ _ _)
    (hit_ok_ite _ _ _ _ _ (line_crash_time_ok sqrt hs _ _ _ _)
      (hit_ok_ite _ _ _ _ _ (line_crash_time_ok sqrt hs _ _ _ _)
        (hit_ok_ite _ _ _ _ _ (point_crash_time_ok sqrt hs0 hs _ _ _ hv)
          (hit_ok_ite _ _ _ _ _ (point_crash_time_ok sqrt hs0 hs _ _ _ hv)
            (point_crash_time_ok sqrt hs0 hs _ _ _ hv)))))

/-- An iteration of the loop keeps the invariant. -/
theorem collision_step_ok (sqrt : K → K) (hs0 : ∀ x, 0 ≤ sqrt x)
    (hs : ∀ x, 0 ≤ x → sqrt x * sqrt x = x) (pos v : Vec3 K) (hv : v ≠ 0)
    (st : Scan K) (tri : Triangle K) (h : scan_ok pos v st) :
    scan_ok pos v (collision_step sqrt pos v st tri) := by
  obtain ⟨h1, h2, h3, h4, h5⟩ := h
  unfold collision_step
  simp only []
  split_ifs with c1 c2 c3 c4 c5
  · exact ⟨le_trans c2.2.le h1, le_trans (by norm_num) c2.1, fun _ => c2.1,
      fun hc => absurd hc (by simp), fun _ => lt_of_lt_of_le c2.2 h1⟩
  · exact ⟨h1, h2, h3, h4, h5⟩
  · have hlt : (edge_vertex_time sqrt pos v tri).1 < 1 := lt_of_lt_of_le c5 h1
    rcases edge_vertex_time_ok sqrt hs0 hs pos v hv tri with e | ⟨e1, e2⟩
    · rw [e] at hlt; norm_num at hlt
    · exact ⟨hlt.le, e1, fun hc => absurd hc (by simp), fun _ => e2, fun _ => hlt⟩
  · exact ⟨h1, h2, h3, h4, h5⟩
  · exact ⟨h1, h2, h3, h4, h5⟩
  · exact ⟨h1, h2, h3, h4, h5⟩

/-- The scan of a registry ends in a state that satisfies the invariant. -/
theorem collision_scan_ok (sqrt : K → K) (hs0 : ∀ x, 0 ≤ sqrt x)
    (hs : ∀ x, 0 ≤ x → sqrt x * sqrt x = x) (triangles : List (Triangle K))
    (pos v : Vec3 K) (hv : v ≠ 0) : scan_ok pos v (collision_scan sqrt triangles pos v) := by
  have hfold : ∀ (l : List (Triangle K)) (st : Scan K), scan_ok pos v st →
      scan_ok pos v (l.foldl (collision_step sqrt pos v) st) := by
    intro l
    induction l with
    | nil => intro st h; exact h
    | cons tri l ih => intro st h; exact ih _ (collision_step_ok sqrt hs0 hs pos v hv st tri h)
  exact hfold triangles _
    ⟨le_refl _, by norm_num, fun _ => by norm_num, fun hc => absurd hc (by simp),
      fun hc => absurd rfl hc⟩

end scan

/-! ## The response of `collision_detection` -/

section response

theorem example_wall_unit :
    ∀ tri ∈ [(example_wall : Triangle ℝ)], dot tri.normal tri.normal = 1 := by
  intro tri h
  rw [List.mem_singleton.mp h]
  norm_num [example_wall, dot]

theorem example_near_wall_scan :
    collision_scan Real.sqrt [example_near_wall] ⟨0, 0, 0⟩ ⟨-1, 0, 0⟩
      = { min_time := -(1 / 4), crash := true, crash_point := ⟨-(3 / 4), 0, 0⟩,
          closest_triangle := some example_near_wall } := by
  norm_num [collision_scan, collision_step, edge_vertex_time, point_crash_time,
    line_crash_time, fdiv, select_root, twiddle_factor, example_near_wall, inside_triangle,
    dot, cross, splat, sqrt_four]

/-- C8 fails as stated: on the registry holding `example_near_wall` (unit normal,
non-collinear vertices), from the origin with velocity `(-1,0,0)`, the sphere already
overlaps the vertex `(-3/4,0,0)`; the vertex test returns the root `-1/4`, a correction
is applied with the time `-1/4`, outside `[0,1)`, the velocity factor is `5/4`, outside
`(0,1]`, and the position moves to `(1/4,0,0)`, against the velocity. -/
theorem collision_detection_negative_time :
    dot (example_near_wall : Triangle ℝ).normal (example_near_wall : Triangle ℝ).normal = 1
    ∧ cross ((example_near_wall : Triangle ℝ).b - example_near_wall.a)
        ((example_near_wall : Triangle ℝ).c - example_near_wall.a) ≠ 0
    ∧ (collision_scan Real.sqrt [example_near_wall] ⟨0, 0, 0⟩ ⟨-1, 0, 0⟩).closest_triangle
        = some example_near_wall
    ∧ (collision_scan Real.sqrt [example_near_wall] ⟨0, 0, 0⟩ ⟨-1, 0, 0⟩).min_time = -(1 / 4)
    ∧ ¬ (0 ≤ (collision_scan Real.sqrt [example_near_wall] ⟨0, 0, 0⟩ ⟨-1, 0, 0⟩).min_time)
    ∧ ¬ (1 - (collision_scan Real.sqrt [example_near_wall] ⟨0, 0, 0⟩ ⟨-1, 0, 0⟩).min_time ≤ 1)
    ∧ (collision_detection Real.sqrt [example_near_wall] ⟨0, 0, 0⟩ ⟨-1, 0, 0⟩).1
        = ⟨1 / 4, 0, 0⟩ := by
  refine ⟨by norm_num [example_near_wall, dot], ?_, by rw [example_near_wall_scan],
    by rw [example_near_wall_scan], by rw [example_near_wall_scan]; norm_num,
    by rw [example_near_wall_scan]; norm_num, ?_⟩
  · intro h
    have := congrArg Vec3.x h
    norm_num [example_near_wall, cross] at this
  · rw [collision_detection_pos Real.sqrt _ _ _ neg_unit_x_ne_zero
      (by rw [example_near_wall_scan]; simp), example_near_wall_scan]
    norm_num [splat]

/-- C8, amended. For a registry, a position and a non-zero velocity: when
`collision_detection` applies a correction, its time of impact lies in `[-1/2, 1)`, and
in `[0, 1)` for a face event; the position is advanced by `time * velocity`, and the
velocity, after the removal of its component along the response normal, is scaled by
`1 - time`, which lies in `(0, 3/2]`. -/
theorem collision_detection_time_bounds (triangles : List (Triangle ℝ)) (pos v : Vec3 ℝ)
    (hv : v ≠ 0) (tri : Triangle ℝ)
    (hcl : (collision_scan Real.sqrt triangles pos v).closest_triangle = some tri) :
    -(1 / 2) ≤ (collision_scan Real.sqrt triangles pos v).min_time
    ∧ (collision_scan Real.sqrt triangles pos v).min_time < 1
    ∧ ((collision_scan Real.sqrt triangles pos v).crash = false →
        0 ≤ (collision_scan Real.sqrt triangles pos v).min_time)
    ∧ 0 < 1 - (collision_scan Real.sqrt triangles pos v).min_time
    ∧ 1 - (collision_scan Real.sqrt triangles pos v).min_time ≤ 3 / 2
    ∧ (collision_detection Real.sqrt triangles pos v).1
        = pos + splat ((collision_scan Real.sqrt triangles pos v).min_time) * v
    ∧ (collision_detection Real.sqrt triangles pos v).2
        = (v - splat (dot v (response_normal pos v (collision_scan Real.sqrt triangles pos v) tri))
                * response_normal pos v (collision_scan Real.sqrt triangles pos v) tri)
            * splat (1 - (collision_scan Real.sqrt triangles pos v).min_time) := by
  obtain ⟨_, h2, h3, h4, h5⟩ := collision_scan_ok Real.sqrt Real.sqrt_nonneg
    (fun x hx => Real.mul_self_sqrt hx) triangles pos v hv
  have hlt := h5 (by rw [hcl]; simp)
  refine ⟨h2, hlt, h3, by linarith, by linarith, ?_, ?_⟩
  · rw [collision_detection_pos Real.sqrt triangles pos v hv (by rw [hcl]; simp), one_mul]
  · unfold collision_detection response_normal
    rw [if_neg hv]
    simp only [hcl]
    by_cases hc : (collision_scan Real.sqrt triangles pos v).crash = true
    · rw [if_neg (by simp [hc]), if_pos hc]
      simp only []
      rw [h4 hc, div_one]
    · have hf : (collision_scan Real.sqrt triangles pos v).crash = false := by simpa using hc
      rw [if_pos hf, if_neg hc]

/-- The amended C8 on the registry holding `example_near_wall`, from the origin with
velocity `(-1,0,0)`: the time `-1/4` is within `[-1/2, 1)`. -/
theorem collision_detection_time_bounds_witness :
    (collision_scan Real.sqrt [example_near_wall] ⟨0, 0, 0⟩ ⟨-1, 0, 0⟩).closest_triangle
        = some example_near_wall
    ∧ -(1 / 2) ≤ (collision_scan Real.sqrt [example_near_wall] ⟨0, 0, 0⟩ ⟨-1, 0, 0⟩).min_time
    ∧ (collision_scan Real.sqrt [example_near_wall] ⟨0, 0, 0⟩ ⟨-1, 0, 0⟩).min_time < 1 :=
  ⟨by rw [example_near_wall_scan],
    (collision_detection_time_bounds [example_near_wall] ⟨0, 0, 0⟩ ⟨-1, 0, 0⟩
      neg_unit_x_ne_zero example_near_wall (by rw [example_near_wall_scan])).1,
    (collision_detection_time_bounds [example_near_wall] ⟨0, 0, 0⟩ ⟨-1, 0, 0⟩
      neg_unit_x_ne_zero example_near_wall (by rw [example_near_wall_scan])).2.1⟩

/-- A step of `t * x` with `-1/2 ≤ t < 1` is no longer than `x`. -/
theorem abs_step_le (t x p : ℝ) (h1 : -(1 / 2) ≤ t) (h2 : t < 1) :
    |p + t * x - p| ≤ |x| := by
  rw [add_sub_cancel_left, abs_mul]
  have ht : |t| ≤ 1 := abs_le.mpr ⟨by linarith, h2.le⟩
  calc |t| * |x| ≤ 1 * |x| := mul_le_mul_of_nonneg_right ht (abs_nonneg x)
    _ = |x| := one_mul _

/-- Exact arithmetic. For every registry, position and velocity, `collision_detection` moves
the position in each coordinate by at most the absolute value of the velocity's coordinate;
the position is unchanged when the velocity is zero and when the scan records no triangle.
-/
theorem collision_detection_displacement (triangles : List (Triangle ℝ)) (pos v : Vec3 ℝ) :
    |(collision_detection Real.sqrt triangles pos v).1.x - pos.x| ≤ |v.x|
    ∧ |(collision_detection Real.sqrt triangles pos v).1.y - pos.y| ≤ |v.y|
    ∧ |(collision_detection Real.sqrt triangles pos v).1.z - pos.z| ≤ |v.z|
    ∧ (v = 0 → (collision_detection Real.sqrt triangles pos v).1 = pos)
    ∧ ((collision_scan Real.sqrt triangles pos v).closest_triangle = none →
        (collision_detection Real.sqrt triangles pos v).1 = pos) := by
  have hzero : v = 0 → (collision_detection Real.sqrt triangles pos v).1 = pos := by
    intro h
    unfold collision_detection
    rw [if_pos h]
  have hnone : (collision_scan Real.sqrt triangles pos v).closest_triangle = none →
      (collision_detection Real.sqrt triangles pos v).1 = pos := by
    intro h
    unfold collision_detection
    simp only [h]
    split_ifs <;> rfl
  have hsame : (collision_detection Real.sqrt triangles pos v).1 = pos →
      |(collision_detection Real.sqrt triangles pos v).1.x - pos.x| ≤ |v.x|
      ∧ |(collision_detection Real.sqrt triangles pos v).1.y - pos.y| ≤ |v.y|
      ∧ |(collision_detection Real.sqrt triangles pos v).1.z - pos.z| ≤ |v.z| := by
    intro h
    rw [h]
    simp
  by_cases hv : v = 0
  · exact ⟨(hsame (hzero hv)).1, (hsame (hzero hv)).2.1, (hsame (hzero hv)).2.2, hzero, hnone⟩
  by_cases hcl : (collision_scan Real.sqrt triangles pos v).closest_triangle = none
  · exact ⟨(hsame (hnone hcl)).1, (hsame (hnone hcl)).2.1, (hsame (hnone hcl)).2.2, hzero, hnone⟩
  obtain ⟨_, h2, _, _, h5⟩ := collision_scan_ok Real.sqrt Real.sqrt_nonneg
    (fun x hx => Real.mul_self_sqrt hx) triangles pos v hv
  have hlt := h5 hcl
  have hmove : |(collision_detection Real.sqrt triangles pos v).1.x - pos.x| ≤ |v.x|
      ∧ |(collision_detection Real.sqrt triangles pos v).1.y - pos.y| ≤ |v.y|
      ∧ |(collision_detection Real.sqrt triangles pos v).1.z - pos.z| ≤ |v.z| := by
    rw [collision_detection_pos Real.sqrt triangles pos v hv hcl, one_mul]
    simp only [splat, Vec3.add_def, Vec3.mul_def]
    exact ⟨abs_step_le _ _ _ h2 hlt, abs_step_le _ _ _ h2 hlt, abs_step_le _ _ _ h2 hlt⟩
  exact ⟨hmove.1, hmove.2.1, hmove.2.2, hzero, hnone⟩

/-- The displacement on the registry holding `example_near_wall`, from the origin with
velocity `(-1,0,0)`: the position moves by `1/4` in `x`, within the bound `1`. -/
theorem collision_detection_displacement_witness :
    |(collision_detection Real.sqrt [example_near_wall] ⟨0, 0, 0⟩ ⟨-1, 0, 0⟩).1.x - 0|
      ≤ |(-1 : ℝ)| :=
  (collision_detection_displacement [example_near_wall] ⟨0, 0, 0⟩ ⟨-1, 0, 0⟩).1

end response

/-! ## The inside test -/

section inside

variable {K : Type} [LinearOrderedField K]

/-- The three sign checks of `inside_triangle`, as a conjunction. -/
theorem inside_triangle_iff_checks (tri : Triangle K) (p : Vec3 K) :
    inside_triangle tri p = true ↔
      0 ≤ dot (cross (tri.b - tri.a) (p - tri.a)) (-tri.normal)
      ∧ 0 ≤ dot (cross (p - tri.a) (tri.c - tri.a)) (-tri.normal)
      ∧ 0 ≤ dot (cross (tri.c - tri.b) (p - tri.b)) (-tri.normal) := by
  unfold inside_triangle
  simp only []
  split_ifs with h1 h2 h3
  · exact ⟨fun h => h.elim, fun h => absurd h.1 (not_le.mpr h1)⟩
  · exact ⟨fun h => h.elim, fun h => absurd h.2.1 (not_le.mpr h2)⟩
  · exact ⟨fun h => h.elim, fun h => absurd h.2.2 (not_le.mpr h3)⟩
  · exact ⟨fun _ => ⟨not_lt.mp h1, not_lt.mp h2, not_lt.mp h3⟩, fun _ => rfl⟩

/-- The same-side test in coordinates relative to the vertex `a`: for independent edge
vectors `u`, `w` and a vector `q` of their plane, the three cross products have
non-negative projection on `cross u w` exactly when `q = s * u + t * w` with `s, t ≥ 0`
and `s + t ≤ 1`. -/
theorem same_side_iff (u w q : Vec3 K) (hN : 0 < dot (cross u w) (cross u w))
    (hpl : dot (cross u w) q = 0) :
    (0 ≤ dot (cross u q) (cross u w) ∧ 0 ≤ dot (cross q w) (cross u w)
        ∧ 0 ≤ dot (cross (w - u) (q - u)) (cross u w))
      ↔ ∃ s t : K, 0 ≤ s ∧ 0 ≤ t ∧ s + t ≤ 1 ∧ q = splat s * u + splat t * w := by
  have e3 : dot (cross (w - u) (q - u)) (cross u w)
      = dot (cross u w) (cross u w) - dot (cross q w) (cross u w)
        - dot (cross u q) (cross u w) := by
    simp only [dot, cross, Vec3.sub_def]
    ring
  constructor
  · rintro ⟨h1, h2, h3⟩
    refine ⟨dot (cross q w) (cross u w) / dot (cross u w) (cross u w),
      dot (cross u q) (cross u w) / dot (cross u w) (cross u w),
      div_nonneg h2 hN.le, div_nonneg h1 hN.le, ?_, ?_⟩
    · rw [← add_div, div_le_one hN]
      rw [e3] at h3
      linarith
    · obtain ⟨qx, qy, qz⟩ := q
      simp only [splat, Vec3.add_def, Vec3.mul_def, Vec3.mk.injEq]
      refine ⟨?_, ?_, ?_⟩
      · field_simp
        simp only [dot, cross] at hpl ⊢
        linear_combination (u.y * w.z - w.y * u.z) * hpl
      · field_simp
        simp only [dot, cross] at hpl ⊢
        linear_combination (u.z * w.x - w.z * u.x) * hpl
      · field_simp
        simp only [dot, cross] at hpl ⊢
        linear_combination (u.x * w.y - w.x * u.y) * hpl
  · rintro ⟨s, t, hs, ht, hst, rfl⟩
    have e1 : dot (cross u (splat s * u + splat t * w)) (cross u w)
        = t * dot (cross u w) (cross u w) := by
      simp only [dot, cross, splat, Vec3.add_def, Vec3.mul_def]
      ring
    have e2 : dot (cross (splat s * u + splat t * w) w) (cross u w)
        = s * dot (cross u w) (cross u w) := by
      simp only [dot, cross, splat, Vec3.add_def, Vec3.mul_def]
      ring
    rw [e3, e1, e2]
    refine ⟨mul_nonneg ht hN.le, mul_nonneg hs hN.le, ?_⟩
    nlinarith [mul_nonneg (sub_nonneg.mpr hst) hN.le]

theorem dot_mul_splat (x n : Vec3 K) (lam : K) : dot x (n * splat lam) = lam * dot x n := by
  simp only [dot, splat, Vec3.mul_def]
  ring

theorem cross_rebase (a b c p : Vec3 K) :
    cross (c - b) (p - b) = cross ((c - a) - (b - a)) ((p - a) - (b - a)) := by
  simp only [cross, Vec3.sub_def, Vec3.mk.injEq]
  refine ⟨?_, ?_, ?_⟩ <;> ring

theorem sub_eq_comb_iff (a u w p : Vec3 K) (s t : K) :
    p - a = splat s * u + splat t * w ↔ p = a + splat s * u + splat t * w := by
  obtain ⟨px, py, pz⟩ := p
  simp only [splat, Vec3.add_def, Vec3.sub_def, Vec3.mul_def, Vec3.mk.injEq]
  constructor
  · rintro ⟨h1, h2, h3⟩
    exact ⟨by linarith, by linarith, by linarith⟩
  · rintro ⟨h1, h2, h3⟩
    exact ⟨by linarith, by linarith, by linarith⟩

end inside

section inside_real

/-- Exact arithmetic. For a triangle with non-collinear vertices whose normal is `-normalize
(cross (b - a) (c - a))` and whose plane constant is `dot normal a` (as `init_mesh` builds
them), and a point `p` of its plane `dot normal p = n0`: `inside_triangle` is true exactly
when `p = a + s * (b - a) + t * (c - a)` with `s ≥ 0`, `t ≥ 0` and `s + t ≤ 1`, boundary and
vertices included. -/
theorem inside_triangle_iff_closed (tri : Triangle ℝ) (p : Vec3 ℝ)
    (hnc : cross (tri.b - tri.a) (tri.c - tri.a) ≠ 0)
    (hn : tri.normal = -(normalize Real.sqrt (cross (tri.b - tri.a) (tri.c - tri.a))))
    (hn0 : tri.n0 = dot tri.normal tri.a)
    (hp : dot tri.normal p = tri.n0) :
    inside_triangle tri p = true ↔
      ∃ s t : ℝ, 0 ≤ s ∧ 0 ≤ t ∧ s + t ≤ 1
        ∧ p = tri.a + splat s * (tri.b - tri.a) + splat t * (tri.c - tri.a) := by
  have hNN := Vec3.dot_self_pos hnc
  have hlam : 0 < 1 / Real.sqrt (dot (cross (tri.b - tri.a) (tri.c - tri.a))
      (cross (tri.b - tri.a) (tri.c - tri.a))) := one_div_pos.mpr (Real.sqrt_pos.mpr hNN)
  have hrn : -tri.normal = cross (tri.b - tri.a) (tri.c - tri.a)
      * splat (1 / Real.sqrt (dot (cross (tri.b - tri.a) (tri.c - tri.a))
          (cross (tri.b - tri.a) (tri.c - tri.a)))) := by
    rw [hn]
    unfold normalize
    simp only [Vec3.neg_def, neg_neg]
  have hpl : dot (cross (tri.b - tri.a) (tri.c - tri.a)) (p - tri.a) = 0 := by
    have h1 : dot (p - tri.a) (-tri.normal) = 0 := by
      rw [hn0] at hp
      simp only [dot, Vec3.sub_def, Vec3.neg_def] at hp ⊢
      linarith
    rw [hrn, dot_mul_splat] at h1
    rcases mul_eq_zero.mp h1 with h2 | h2
    · exact absurd h2 hlam.ne'
    · simp only [dot] at h2 ⊢
      linarith
  rw [inside_triangle_iff_checks, hrn, dot_mul_splat, dot_mul_splat, dot_mul_splat,
    mul_nonneg_iff_of_pos_left hlam, mul_nonneg_iff_of_pos_left hlam,
    mul_nonneg_iff_of_pos_left hlam, cross_rebase tri.a tri.b tri.c p, same_side_iff _ _ _ hNN hpl]
  constructor
  · rintro ⟨s, t, hs, ht, hst, h⟩
    exact ⟨s, t, hs, ht, hst, (sub_eq_comb_iff _ _ _ _ _ _).mp h⟩
  · rintro ⟨s, t, hs, ht, hst, h⟩
    exact ⟨s, t, hs, ht, hst, (sub_eq_comb_iff _ _ _ _ _ _).mpr h⟩

theorem example_floor_cross :
    cross ((example_floor : Triangle ℝ).b - example_floor.a)
      ((example_floor : Triangle ℝ).c - example_floor.a) = ⟨0, 0, 1⟩ := by
  norm_num [example_floor, cross]

theorem example_floor_not_collinear :
    cross ((example_floor : Triangle ℝ).b - example_floor.a)
      ((example_floor : Triangle ℝ).c - example_floor.a) ≠ 0 := by
  rw [example_floor_cross]
  intro h
  have := congrArg Vec3.z h
  simp at this

theorem example_floor_normal :
    (example_floor : Triangle ℝ).normal
      = -(normalize Real.sqrt (cross ((example_floor : Triangle ℝ).b - example_floor.a)
          ((example_floor : Triangle ℝ).c - example_floor.a))) := by
  rw [example_floor_cross]
  norm_num [example_floor, normalize, dot, splat]

/-- The exact inside test on `example_floor` with the point `(1/4,1/4,0)` of its plane. -/
theorem inside_triangle_iff_closed_witness :
    inside_triangle (example_floor : Triangle ℝ) ⟨1 / 4, 1 / 4, 0⟩ = true ↔
      ∃ s t : ℝ, 0 ≤ s ∧ 0 ≤ t ∧ s + t ≤ 1
        ∧ (⟨1 / 4, 1 / 4, 0⟩ : Vec3 ℝ)
            = example_floor.a + splat s * (example_floor.b - example_floor.a)
              + splat t * (example_floor.c - example_floor.a) :=
  inside_triangle_iff_closed example_floor ⟨1 / 4, 1 / 4, 0⟩ example_floor_not_collinear
    example_floor_normal (by norm_num [example_floor, dot]) (by norm_num [example_floor, dot])

end inside_real

/-! ## The wall-hug corrector -/

section hug

variable {K : Type} [LinearOrderedField K]

/-- An iteration of the loop of `wall_hug_detection` keeps the invariant. -/
theorem wall_hug_step_ok (p : Vec3 K) (seen : List (Triangle K))
    (st : K × Option (Triangle K)) (tri : Triangle K) (h : hug_ok p seen st) :
    hug_ok p (seen ++ [tri]) (wall_hug_step p st tri) := by
  obtain ⟨h1, h2, h3, h4⟩ := h
  unfold wall_hug_step
  simp only []
  split_ifs with c1 c2
  · refine ⟨le_trans c1.2.le h1, fun hc => absurd hc (by simp), ?_, ?_⟩
    · intro t ht hcand
      rcases List.mem_append.mp ht with hm | hm
      · exact ⟨by simp, le_trans c1.2.le (h3 t hm hcand).2⟩
      · rw [List.mem_singleton.mp hm]
        exact ⟨by simp, le_refl _⟩
    · intro t ht
      have e : tri = t := Option.some.inj ht
      subst e
      exact ⟨by simp, ⟨c1.1, lt_of_lt_of_le c1.2 h1, c2⟩, rfl⟩
  · refine ⟨h1, h2, ?_, fun t ht => ⟨List.mem_append_left _ (h4 t ht).1, (h4 t ht).2⟩⟩
    intro t ht hcand
    rcases List.mem_append.mp ht with hm | hm
    · exact h3 t hm hcand
    · rw [List.mem_singleton.mp hm] at hcand
      exact absurd hcand.2.2 c2
  · refine ⟨h1, h2, ?_, fun t ht => ⟨List.mem_append_left _ (h4 t ht).1, (h4 t ht).2⟩⟩
    intro t ht hcand
    rcases List.mem_append.mp ht with hm | hm
    · exact h3 t hm hcand
    · rw [List.mem_singleton.mp hm] at hcand ⊢
      have hle : st.1 ≤ plane_dist tri p := by
        by_contra hlt
        exact c1 ⟨hcand.1, not_le.mp hlt⟩
      refine ⟨fun hn => ?_, hle⟩
      have := h2 hn
      have := hcand.2.1
      linarith

/-- The scan of `wall_hug_detection` ends in a state that satisfies the invariant for
the whole registry. -/
theorem wall_hug_scan_ok (triangles : List (Triangle K)) (p : Vec3 K) :
    hug_ok p triangles (wall_hug_scan triangles p) := by
  have hfold : ∀ (l seen : List (Triangle K)) (st : K × Option (Triangle K)),
      hug_ok p seen st → hug_ok p (seen ++ l) (l.foldl (wall_hug_step p) st) := by
    intro l
    induction l with
    | nil => intro seen st h; simpa using h
    | cons tri l ih =>
      intro seen st h
      have := ih (seen ++ [tri]) _ (wall_hug_step_ok p seen st tri h)
      simpa using this
  have := hfold triangles [] (1, none)
    ⟨le_refl _, fun _ => rfl, fun t ht => absurd ht (List.not_mem_nil t),
      fun t ht => absurd ht (by simp)⟩
  simpa using this

/-- The two outcomes of `wall_hug_detection`: the position itself without a hug
candidate, else the position displaced along the normal of a candidate of least plane
distance. -/
theorem wall_hug_detection_cases (triangles : List (Triangle K)) (p : Vec3 K) :
    ((∀ tri ∈ triangles, ¬ hug_candidate tri p) → wall_hug_detection triangles p = p)
    ∧ ((∃ tri ∈ triangles, hug_candidate tri p) →
        ∃ tri ∈ triangles, hug_candidate tri p
          ∧ (∀ other ∈ triangles, hug_candidate other p → plane_dist tri p ≤ plane_dist other p)
          ∧ wall_hug_detection triangles p = p + splat (plane_dist tri p - 1) * tri.normal) := by
  obtain ⟨_, _, h3, h4⟩ := wall_hug_scan_ok triangles p
  unfold wall_hug_detection
  constructor
  · intro hno
    split
    · rename_i min_dist tri heq
      have := h4 tri (by rw [heq])
      exact absurd this.2.1 (hno tri this.1)
    · rfl
  · rintro ⟨t0, ht0, hc0⟩
    split
    · rename_i min_dist tri heq
      obtain ⟨hmem, hcand, hmin⟩ := h4 tri (by rw [heq])
      rw [heq] at h3 hmin
      simp only [] at hmin h3
      refine ⟨tri, hmem, hcand, fun other ho hco => ?_, by rw [hmin]⟩
      rw [← hmin]
      exact (h3 other ho hco).2
    · rename_i min_dist heq
      rw [heq] at h3
      exact absurd rfl (h3 t0 ht0 hc0).1

/-- After a displacement by `(d - 1) * normal`, with `d` the plane distance and a unit
normal, the plane distance is one. -/
theorem plane_dist_pushed (tri : Triangle K) (p : Vec3 K)
    (hu : dot tri.normal tri.normal = 1) :
    plane_dist tri (p + splat (plane_dist tri p - 1) * tri.normal) = 1 := by
  simp only [plane_dist, dot, splat, Vec3.add_def, Vec3.mul_def] at hu ⊢
  linear_combination
    (1 - (tri.n0 - (p.x * tri.normal.x + p.y * tri.normal.y + p.z * tri.normal.z))) * hu

/-- Exact arithmetic. For a registry of triangles with unit normals and a position `p`:
without a hug candidate `wall_hug_detection` returns `p`; with one, it returns `p` displaced
by `(minDist - 1) * normal` for a candidate of least plane distance `minDist`, and the plane
distance of the result to that triangle is `1`. -/
theorem wall_hug_detection_spec (triangles : List (Triangle K)) (p : Vec3 K)
    (hunit : ∀ tri ∈ triangles, dot tri.normal tri.normal = 1) :
    ((∀ tri ∈ triangles, ¬ hug_candidate tri p) → wall_hug_detection triangles p = p)
    ∧ ((∃ tri ∈ triangles, hug_candidate tri p) →
        ∃ tri ∈ triangles, hug_candidate tri p
          ∧ (∀ other ∈ triangles, hug_candidate other p → plane_dist tri p ≤ plane_dist other p)
          ∧ wall_hug_detection triangles p = p + splat (plane_dist tri p - 1) * tri.normal
          ∧ plane_dist tri (wall_hug_detection triangles p) = 1) := by
  refine ⟨(wall_hug_detection_cases triangles p).1, fun hex => ?_⟩
  obtain ⟨tri, hmem, hcand, hmin, heq⟩ := (wall_hug_detection_cases triangles p).2 hex
  refine ⟨tri, hmem, hcand, hmin, heq, ?_⟩
  rw [heq]
  exact plane_dist_pushed tri p (hunit tri hmem)

theorem example_wall_candidate :
    hug_candidate (example_wall : Triangle ℝ) ⟨1 / 2, 0, 0⟩ := by
  norm_num [hug_candidate, plane_dist, example_wall, inside_triangle, dot, cross, splat]

/-- The exact push on the registry holding `example_wall` at `(1/2,0,0)`, a hug candidate at
plane distance `1/2`. -/
theorem wall_hug_detection_spec_witness :
    ∃ tri ∈ [(example_wall : Triangle ℝ)], hug_candidate tri ⟨1 / 2, 0, 0⟩
      ∧ (∀ other ∈ [(example_wall : Triangle ℝ)], hug_candidate other ⟨1 / 2, 0, 0⟩ →
          plane_dist tri ⟨1 / 2, 0, 0⟩ ≤ plane_dist other ⟨1 / 2, 0, 0⟩)
      ∧ wall_hug_detection [example_wall] ⟨1 / 2, 0, 0⟩
          = ⟨1 / 2, 0, 0⟩ + splat (plane_dist tri ⟨1 / 2, 0, 0⟩ - 1) * tri.normal
      ∧ plane_dist tri (wall_hug_detection [example_wall] ⟨1 / 2, 0, 0⟩) = 1 :=
  (wall_hug_detection_spec [example_wall] ⟨1 / 2, 0, 0⟩ example_wall_unit).2
    ⟨example_wall, List.mem_singleton.mpr rfl, example_wall_candidate⟩

/-- A displacement along a unit vector by a non-zero amount moves the position. -/
theorem push_ne_self (p n : Vec3 K) (s : K) (hs : s ≠ 0) (hn : dot n n = 1) :
    p + splat s * n ≠ p := by
  intro h
  have hx := congrArg Vec3.x h
  have hy := congrArg Vec3.y h
  have hz := congrArg Vec3.z h
  simp only [splat, Vec3.add_def, Vec3.mul_def] at hx hy hz
  have ex : n.x = 0 := by
    rcases mul_eq_zero.mp (show s * n.x = 0 by linarith) with e | e
    · exact absurd e hs
    · exact e
  have ey : n.y = 0 := by
    rcases mul_eq_zero.mp (show s * n.y = 0 by linarith) with e | e
    · exact absurd e hs
    · exact e
  have ez : n.z = 0 := by
    rcases mul_eq_zero.mp (show s * n.z = 0 by linarith) with e | e
    · exact absurd e hs
    · exact e
  simp only [dot, ex, ey, ez] at hn
  norm_num at hn

/-- Exact arithmetic. For a registry of triangles with unit normals and a position `p`: a
second invocation of `wall_hug_detection` leaves the position unchanged exactly when no
triangle of the registry is a hug candidate at the position the first invocation returned;
this is the case for every registry of at most one triangle. -/
theorem wall_hug_detection_idempotent_iff (triangles : List (Triangle K)) (p : Vec3 K)
    (hunit : ∀ tri ∈ triangles, dot tri.normal tri.normal = 1) :
    (wall_hug_detection triangles (wall_hug_detection triangles p)
        = wall_hug_detection triangles p
      ↔ ∀ tri ∈ triangles, ¬ hug_candidate tri (wall_hug_detection triangles p))
    ∧ (triangles.length ≤ 1 →
        wall_hug_detection triangles (wall_hug_detection triangles p)
          = wall_hug_detection triangles p) := by
  have hiff : wall_hug_detection triangles (wall_hug_detection triangles p)
        = wall_hug_detection triangles p
      ↔ ∀ tri ∈ triangles, ¬ hug_candidate tri (wall_hug_detection triangles p) := by
    constructor
    · intro heq tri hmem hcand
      obtain ⟨t, ht, hc, _, hpush⟩ :=
        (wall_hug_detection_cases triangles (wall_hug_detection triangles p)).2 ⟨tri, hmem, hcand⟩
      rw [heq] at hpush
      exact push_ne_self _ _ _ (by have := hc.2.1; linarith) (hunit t ht) hpush.symm
    · exact (wall_hug_detection_cases triangles (wall_hug_detection triangles p)).1
  refine ⟨hiff, fun hlen => hiff.mpr ?_⟩
  match triangles, hunit, hlen with
  | [], _, _ => exact fun tri h => absurd h (List.not_mem_nil tri)
  | [t], hunit, _ =>
    intro tri hmem hcand
    rw [List.mem_singleton.mp hmem] at hcand
    by_cases hc : hug_candidate t p
    · obtain ⟨t1, ht1, _, _, hpush⟩ :=
        (wall_hug_detection_cases [t] p).2 ⟨t, List.mem_singleton.mpr rfl, hc⟩
      rw [List.mem_singleton.mp ht1] at hpush
      have h1 := plane_dist_pushed t p (hunit t (List.mem_singleton.mpr rfl))
      rw [← hpush] at h1
      have := hcand.2.1
      linarith
    · have hsame := (wall_hug_detection_cases [t] p).1
        (fun tri h => by rw [List.mem_singleton.mp h]; exact hc)
      rw [hsame] at hcand
      exact hc hcand
  | _ :: _ :: _, _, hlen => exact absurd hlen (by simp)

/-- Exact arithmetic on the registry holding `example_wall` at `(1/2,0,0)`: the second
invocation leaves the position of the first unchanged. -/
theorem wall_hug_detection_idempotent_iff_witness :
    wall_hug_detection [(example_wall : Triangle ℝ)]
        (wall_hug_detection [(example_wall : Triangle ℝ)] ⟨1 / 2, 0, 0⟩)
      = wall_hug_detection [(example_wall : Triangle ℝ)] ⟨1 / 2, 0, 0⟩ :=
  (wall_hug_detection_idempotent_iff [example_wall] ⟨1 / 2, 0, 0⟩ example_wall_unit).2
    (le_refl 1)

/-- C7 fails as stated: with the two walls `example_wall` and `example_wall_y` (unit
normals) and the position `(1/2,7/10,0)`, the first invocation pushes away from the
nearer wall to `(1,7/10,0)` and the second one pushes away from the other wall to
`(1,1,0)`. -/
theorem wall_hug_detection_twice_moves :
    (∀ tri ∈ [(example_wall : Triangle ℝ), example_wall_y], dot tri.normal tri.normal = 1)
    ∧ wall_hug_detection [(example_wall : Triangle ℝ), example_wall_y] ⟨1 / 2, 7 / 10, 0⟩
        = ⟨1, 7 / 10, 0⟩
    ∧ wall_hug_detection [(example_wall : Triangle ℝ), example_wall_y]
        (wall_hug_detection [(example_wall : Triangle ℝ), example_wall_y] ⟨1 / 2, 7 / 10, 0⟩)
        = ⟨1, 1, 0⟩ := by
  have h1 : wall_hug_detection [(example_wall : Triangle ℝ), example_wall_y] ⟨1 / 2, 7 / 10, 0⟩
      = ⟨1, 7 / 10, 0⟩ := by
    norm_num [wall_hug_detection, wall_hug_scan, wall_hug_step, example_wall, example_wall_y,
      inside_triangle, dot, cross, splat]
  refine ⟨?_, h1, ?_⟩
  · intro tri h
    rcases List.mem_cons.mp h with e | e
    · rw [e]; norm_num [example_wall, dot]
    · rw [List.mem_singleton.mp e]; norm_num [example_wall_y, dot]
  · rw [h1]
    norm_num [wall_hug_detection, wall_hug_scan, wall_hug_step, example_wall, example_wall_y,
      inside_triangle, dot, cross, splat]

end hug

/-! ## The registry built at load time -/

section registry

/-- Every triangle of `mesh_triangles` is built by `init_triangle`. -/
theorem mesh_triangles_mem {K : Type} [LinearOrderedField K] (sqrt : K → K) :
    ∀ (vertices : List (Vec3 K)) (tri : Triangle K), tri ∈ mesh_triangles sqrt vertices →
      ∃ va vb vc : Vec3 K, tri = init_triangle sqrt va vb vc
  | va :: vb :: vc :: rest, tri, h => by
    rw [mesh_triangles] at h
    rcases List.mem_cons.mp h with e | e
    · exact ⟨va, vb, vc, e⟩
    · exact mesh_triangles_mem sqrt rest tri e
  | [], tri, h => by simp [mesh_triangles] at h
  | [_], tri, h => by simp [mesh_triangles] at h
  | [_, _], tri, h => by simp [mesh_triangles] at h

/-- Every triangle of the registry of `init_mesh` is built by `init_triangle`. -/
theorem init_mesh_mem {K : Type} [LinearOrderedField K] (sqrt : K → K)
    (meshes : List (List (Vec3 K))) (tri : Triangle K) (h : tri ∈ init_mesh sqrt meshes) :
    ∃ va vb vc : Vec3 K, tri = init_triangle sqrt va vb vc := by
  have hfold : ∀ (ms : List (List (Vec3 K))) (acc : List (Triangle K)),
      tri ∈ ms.foldl (fun triangles vertices => triangles ++ mesh_triangles sqrt vertices) acc →
      tri ∈ acc ∨ ∃ va vb vc : Vec3 K, tri = init_triangle sqrt va vb vc := by
    intro ms
    induction ms with
    | nil => intro acc h; exact Or.inl h
    | cons m ms ih =>
      intro acc h
      rcases ih _ h with h1 | h1
      · rcases List.mem_append.mp h1 with h2 | h2
        · exact Or.inl h2
        · exact Or.inr (mesh_triangles_mem sqrt m tri h2)
      · exact Or.inr h1
  rcases hfold meshes [] h with h1 | h1
  · exact absurd h1 (List.not_mem_nil tri)
  · exact h1

/-- A non-zero vector is normalised to squared length one. -/
theorem normalize_unit (v : Vec3 ℝ) (hv : v ≠ 0) :
    dot (normalize Real.sqrt v) (normalize Real.sqrt v) = 1 := by
  have hpos := Vec3.dot_self_pos hv
  have hs0 : Real.sqrt (dot v v) ≠ 0 := (Real.sqrt_pos.mpr hpos).ne'
  have hs2 : Real.sqrt (dot v v) * Real.sqrt (dot v v) = dot v v := Real.mul_self_sqrt hpos.le
  unfold normalize
  rw [dot_mul_splat]
  have hflip : dot (v * splat (1 / Real.sqrt (dot v v))) v
      = 1 / Real.sqrt (dot v v) * dot v v := by
    simp only [dot, splat, Vec3.mul_def]
    ring
  rw [hflip]
  field_simp

/-- The cross product is orthogonal to both of its factors. -/
theorem dot_cross_self {K : Type} [LinearOrderedField K] (u w : Vec3 K) :
    dot (cross u w) u = 0 ∧ dot (cross u w) w = 0 := by
  simp only [dot, cross]
  constructor <;> ring

theorem dot_neg_normalize {K : Type} [LinearOrderedField K] (sqrt : K → K) (n x : Vec3 K) :
    dot (-(normalize sqrt n)) x = -(1 / sqrt (dot n n)) * dot n x := by
  unfold normalize
  generalize 1 / sqrt (dot n n) = lam
  simp only [dot, splat, Vec3.mul_def, Vec3.neg_def]
  ring

theorem dot_sub_right {K : Type} [LinearOrderedField K] (n x y : Vec3 K) :
    dot n (x - y) = dot n x - dot n y := by
  simp only [dot, Vec3.sub_def]
  ring

/-- Exact arithmetic. Every triangle that `init_mesh` builds whose vertices (already divided
by the ellipsoid radii) are not collinear satisfies the invariant of `Triangle`: the normal
has squared length one, and `dot normal a`, `dot normal b` and `dot normal c` all equal the
plane constant `n0`. -/
theorem init_mesh_invariant (meshes : List (List (Vec3 ℝ))) (tri : Triangle ℝ)
    (hmem : tri ∈ init_mesh Real.sqrt meshes)
    (hnc : cross (tri.b - tri.a) (tri.c - tri.a) ≠ 0) :
    dot tri.normal tri.normal = 1
    ∧ dot tri.normal tri.a = tri.n0
    ∧ dot tri.normal tri.b = tri.n0
    ∧ dot tri.normal tri.c = tri.n0 := by
  obtain ⟨va, vb, vc, rfl⟩ := init_mesh_mem Real.sqrt meshes tri hmem
  simp only [init_triangle] at hnc ⊢
  generalize va / player_size = a at hnc ⊢
  generalize vb / player_size = b at hnc ⊢
  generalize vc / player_size = c at hnc ⊢
  have hunit := normalize_unit _ hnc
  obtain ⟨h1, h2⟩ := dot_cross_self (b - a) (c - a)
  have hb : dot (-(normalize Real.sqrt (cross (b - a) (c - a)))) b
      = dot (-(normalize Real.sqrt (cross (b - a) (c - a)))) a := by
    rw [dot_neg_normalize, dot_neg_normalize, ← sub_eq_zero, ← mul_sub, ← dot_sub_right, h1,
      mul_zero]
  have hc : dot (-(normalize Real.sqrt (cross (b - a) (c - a)))) c
      = dot (-(normalize Real.sqrt (cross (b - a) (c - a)))) a := by
    rw [dot_neg_normalize, dot_neg_normalize, ← sub_eq_zero, ← mul_sub, ← dot_sub_right, h2,
      mul_zero]
  refine ⟨?_, trivial, hb, hc⟩
  simp only [dot, Vec3.neg_def] at hunit ⊢
  linear_combination hunit

theorem Vec3.div_def {K : Type} [LinearOrderedField K] (u v : Vec3 K) :
    u / v = ⟨u.x / v.x, u.y / v.y, u.z / v.z⟩ := rfl

theorem example_floor_built :
    init_mesh Real.sqrt [[(⟨0, 0, 0⟩ : Vec3 ℝ), ⟨2 / 5, 0, 0⟩, ⟨0, 4 / 5, 0⟩]]
      = [example_floor] := by
  norm_num [init_mesh, mesh_triangles, init_triangle, player_size, normalize, cross, dot,
    splat, example_floor, Vec3.div_def]

/-- The invariant on the mesh of the one triangle `(0,0,0)`, `(2/5,0,0)`, `(0,4/5,0)`, which
`init_mesh` turns into `example_floor`. -/
theorem init_mesh_invariant_witness :
    (example_floor : Triangle ℝ)
        ∈ init_mesh Real.sqrt [[(⟨0, 0, 0⟩ : Vec3 ℝ), ⟨2 / 5, 0, 0⟩, ⟨0, 4 / 5, 0⟩]]
    ∧ dot (example_floor : Triangle ℝ).normal (example_floor : Triangle ℝ).normal = 1
    ∧ dot (example_floor : Triangle ℝ).normal (example_floor : Triangle ℝ).a
        = (example_floor : Triangle ℝ).n0
    ∧ dot (example_floor : Triangle ℝ).normal (example_floor : Triangle ℝ).b
        = (example_floor : Triangle ℝ).n0
    ∧ dot (example_floor : Triangle ℝ).normal (example_floor : Triangle ℝ).c
        = (example_floor : Triangle ℝ).n0 :=
  ⟨by rw [example_floor_built]; exact List.mem_singleton.mpr rfl,
    init_mesh_invariant [[(⟨0, 0, 0⟩ : Vec3 ℝ), ⟨2 / 5, 0, 0⟩, ⟨0, 4 / 5, 0⟩]] example_floor
      (by rw [example_floor_built]; exact List.mem_singleton.mpr rfl)
      example_floor_not_collinear⟩

end registry

/-! ## Degenerate inputs of the solvers -/

section degenerate

/-- A velocity along the edge has no component across it: the vector `V` of
`line_crash_time` is zero. -/
theorem parallel_component_zero {K : Type} [LinearOrderedField K] (ab : Vec3 K) (lam : K)
    (hab : dot ab ab ≠ 0) :
    splat lam * ab - splat (dot ab (splat lam * ab) / dot ab ab) * ab = 0 := by
  have hT : dot ab (splat lam * ab) / dot ab ab = lam := by
    rw [div_eq_iff hab]
    simp only [dot, splat, Vec3.mul_def]
    ring
  rw [hT]
  simp only [splat, Vec3.sub_def, Vec3.mul_def, Vec3.zero_def, sub_self]

/-- Exact arithmetic. Degenerate inputs give the sentinel: for a segment `a ≠ b` and a
velocity that is zero or a multiple of `b - a`, the component `V` of the velocity across the
edge is zero, so is the leading coefficient `A = dot V V` of the edge solver, and
`line_crash_time` returns `10` (with the contact left at `vec3(0)`); and `point_crash_time`
with zero velocity returns `10`. -/
theorem degenerate_inputs_miss (pos v a b q : Vec3 ℝ) (hab : a ≠ b)
    (hpar : v = 0 ∨ ∃ lam : ℝ, v = splat lam * (b - a)) :
    v - splat (dot (b - a) v / dot (b - a) (b - a)) * (b - a) = 0
    ∧ dot (v - splat (dot (b - a) v / dot (b - a) (b - a)) * (b - a))
        (v - splat (dot (b - a) v / dot (b - a) (b - a)) * (b - a)) = 0
    ∧ line_crash_time Real.sqrt pos v a b = (10, 0)
    ∧ point_crash_time Real.sqrt pos 0 q = 10 := by
  have hab2 : dot (b - a) (b - a) ≠ 0 := fun h => hab (Vec3.eq_of_sub_eq_zero
    (Vec3.dot_self_eq_zero h)).symm
  have hlam : ∃ lam : ℝ, v = splat lam * (b - a) := by
    rcases hpar with h | h
    · exact ⟨0, by rw [h]; simp [splat, Vec3.zero_def]⟩
    · exact h
  obtain ⟨lam, rfl⟩ := hlam
  have hV := parallel_component_zero (b - a) lam hab2
  have hA : dot (splat lam * (b - a)
        - splat (dot (b - a) (splat lam * (b - a)) / dot (b - a) (b - a)) * (b - a))
      (splat lam * (b - a)
        - splat (dot (b - a) (splat lam * (b - a)) / dot (b - a) (b - a)) * (b - a)) = 0 := by
    rw [hV]
    simp [dot]
  refine ⟨hV, hA, ?_, ?_⟩
  · unfold line_crash_time
    simp only [fdiv_of_ne hab2, hA, mul_zero, fdiv_zero]
    split_ifs <;> rfl
  · unfold point_crash_time
    have h0 : dot (0 : Vec3 ℝ) 0 = 0 := by simp [dot]
    simp only [h0, mul_zero, fdiv_zero]
    split_ifs <;> rfl

theorem example_edge_ne : (⟨0, 0, 0⟩ : Vec3 ℝ) ≠ ⟨2, 0, 0⟩ := by
  intro h
  have := congrArg Vec3.x h
  norm_num at this

/-- The sentinel from `(0,1/2,0)` with the velocity `(1,0,0)` along the segment
`(0,0,0)-(2,0,0)`, and for the point `(3,0,0)` with zero velocity. -/
theorem degenerate_inputs_miss_witness :
    line_crash_time Real.sqrt ⟨0, 1 / 2, 0⟩ ⟨1, 0, 0⟩ ⟨0, 0, 0⟩ ⟨2, 0, 0⟩ = (10, 0)
    ∧ point_crash_time Real.sqrt ⟨0, 1 / 2, 0⟩ 0 ⟨3, 0, 0⟩ = 10 :=
  (degenerate_inputs_miss ⟨0, 1 / 2, 0⟩ ⟨1, 0, 0⟩ ⟨0, 0, 0⟩ ⟨2, 0, 0⟩ ⟨3, 0, 0⟩ example_edge_ne
    (Or.inr ⟨1 / 2, by norm_num [splat]⟩)).2.2

end degenerate

/-! ## The fall-through to the vertex and edge tests -/

section fall_through

variable {K : Type} [LinearOrderedField K]

theorem pick_fst (x : K) (p : Vec3 K) (r : K × Vec3 K) :
    (if x < r.1 then (x, p) else r).1 = min r.1 x := by
  split_ifs with h
  · exact (min_eq_right h.le).symm
  · exact (min_eq_left (not_lt.mp h)).symm

/-- The time of `edge_vertex_time` is the least of the six times of the sub-tests. -/
theorem edge_vertex_time_fst (sqrt : K → K) (pos v : Vec3 K) (tri : Triangle K) :
    (edge_vertex_time sqrt pos v tri).1 = six_min sqrt pos v tri := by
  unfold edge_vertex_time six_min
  simp only []
  have h1 := pick_fst (point_crash_time sqrt pos v tri.b) tri.b
    (point_crash_time sqrt pos v tri.a, tri.a)
  simp only [] at h1
  generalize (if point_crash_time sqrt pos v tri.b < point_crash_time sqrt pos v tri.a then
    (point_crash_time sqrt pos v tri.b, tri.b)
    else (point_crash_time sqrt pos v tri.a, tri.a)) = r1 at h1 ⊢
  have h2 := pick_fst (point_crash_time sqrt pos v tri.c) tri.c r1
  generalize (if point_crash_time sqrt pos v tri.c < r1.1 then
    (point_crash_time sqrt pos v tri.c, tri.c) else r1) = r2 at h2 ⊢
  have h3 := pick_fst (line_crash_time sqrt pos v tri.a tri.b).1
    (line_crash_time sqrt pos v tri.a tri.b).2 r2
  generalize (if (line_crash_time sqrt pos v tri.a tri.b).1 < r2.1 then
    ((line_crash_time sqrt pos v tri.a tri.b).1, (line_crash_time sqrt pos v tri.a tri.b).2)
    else r2) = r3 at h3 ⊢
  have h4 := pick_fst (line_crash_time sqrt pos v tri.a tri.c).1
    (line_crash_time sqrt pos v tri.a tri.c).2 r3
  generalize (if (line_crash_time sqrt pos v tri.a tri.c).1 < r3.1 then
    ((line_crash_time sqrt pos v tri.a tri.c).1, (line_crash_time sqrt pos v tri.a tri.c).2)
    else r3) = r4 at h4 ⊢
  rw [pick_fst, h4, h3, h2, h1]

theorem sqrt_sixty_four : Real.sqrt 64 = 8 := by
  rw [show (64 : ℝ) = 8 * 8 by norm_num]
  exact Real.sqrt_mul_self (by norm_num)

theorem sqrt_twenty_five : Real.sqrt 25 = 5 := by
  rw [show (25 : ℝ) = 5 * 5 by norm_num]
  exact Real.sqrt_mul_self (by norm_num)

theorem example_side_wall_times :
    edge_vertex_time Real.sqrt ⟨0, 0, 0⟩ ⟨-1, 0, 0⟩ (example_side_wall : Triangle ℝ)
      = (3 / 10, ⟨-(11 / 10), 3 / 5, 0⟩) := by
  norm_num [edge_vertex_time, point_crash_time, line_crash_time, fdiv, select_root,
    twiddle_factor, example_side_wall, dot, cross, splat, sqrt_four, sqrt_sixty_four,
    sqrt_twenty_five]

/-- C13, amended. For a registry holding one triangle, a position and a velocity with
closing speed above `0.00001`: if `ticks_to_hit` is outside `[0,1)` and
`0 ≤ plane_dist < 1 + towards_plane_v`, the vertex and edge tests are made; when the least
of their six times is below `1`, it is the impact time, the triangle is recorded with an
edge or vertex event and the position is advanced by that time; otherwise no triangle is
recorded and position and velocity are returned unchanged. -/
theorem collision_detection_fall_through (sqrt : K → K) (tri : Triangle K) (pos v : Vec3 K)
    (hclose : 1 / 100000 < dot v tri.normal)
    (hticks : ¬ (0 ≤ face_hit_time tri pos v ∧ face_hit_time tri pos v < 1))
    (hslab : 0 ≤ plane_dist tri pos ∧ plane_dist tri pos < 1 + dot v tri.normal) :
    (six_min sqrt pos v tri < 1 →
        (collision_scan sqrt [tri] pos v).min_time = six_min sqrt pos v tri
        ∧ (collision_scan sqrt [tri] pos v).crash = true
        ∧ (collision_scan sqrt [tri] pos v).closest_triangle = some tri
        ∧ (collision_detection sqrt [tri] pos v).1 = pos + splat (six_min sqrt pos v tri) * v)
    ∧ (¬ six_min sqrt pos v tri < 1 →
        (collision_scan sqrt [tri] pos v).closest_triangle = none
        ∧ collision_detection sqrt [tri] pos v = (pos, v)) := by
  have hv : v ≠ 0 := by
    intro h
    rw [h] at hclose
    simp [dot] at hclose
    linarith
  have hscan : collision_scan sqrt [tri] pos v
      = if (edge_vertex_time sqrt pos v tri).1 < 1 then
          { min_time := (edge_vertex_time sqrt pos v tri).1, closest_triangle := some tri,
            crash := true, crash_point := (edge_vertex_time sqrt pos v tri).2 }
        else { min_time := 1, crash := false, crash_point := 0, closest_triangle := none } := by
    unfold collision_scan
    rw [List.foldl_cons, List.foldl_nil]
    unfold collision_step
    unfold face_hit_time at hticks
    unfold plane_dist at hslab
    simp only []
    rw [if_pos hclose, if_neg hticks, if_pos hslab]
  rw [edge_vertex_time_fst] at hscan
  constructor
  · intro hlt
    rw [if_pos hlt] at hscan
    have hcl : (collision_scan sqrt [tri] pos v).closest_triangle ≠ none := by
      rw [hscan]; simp
    refine ⟨by rw [hscan], by rw [hscan], by rw [hscan], ?_⟩
    rw [collision_detection_pos sqrt [tri] pos v hv hcl, hscan, one_mul]
  · intro hge
    rw [if_neg hge] at hscan
    refine ⟨by rw [hscan], ?_⟩
    unfold collision_detection
    rw [if_neg hv, hscan]

theorem example_near_wall_times :
    edge_vertex_time Real.sqrt ⟨0, 0, 0⟩ ⟨-1, 0, 0⟩ (example_near_wall : Triangle ℝ)
      = (-(1 / 4), ⟨-(3 / 4), 0, 0⟩) := by
  norm_num [edge_vertex_time, point_crash_time, line_crash_time, fdiv, select_root,
    twiddle_factor, example_near_wall, dot, cross, splat, sqrt_four]

/-- The amended C13 on the registry holding `example_near_wall`, from the origin with
velocity `(-1,0,0)`: `ticks_to_hit` is `-1/4`, the plane distance is `3/4`, and the
vertex test of `a` gives the impact time `-1/4` with an edge or vertex event. -/
theorem collision_detection_fall_through_witness :
    six_min Real.sqrt ⟨0, 0, 0⟩ ⟨-1, 0, 0⟩ (example_near_wall : Triangle ℝ) = -(1 / 4)
    ∧ (collision_scan Real.sqrt [example_near_wall] ⟨0, 0, 0⟩ ⟨-1, 0, 0⟩).min_time
        = six_min Real.sqrt ⟨0, 0, 0⟩ ⟨-1, 0, 0⟩ (example_near_wall : Triangle ℝ)
    ∧ (collision_scan Real.sqrt [example_near_wall] ⟨0, 0, 0⟩ ⟨-1, 0, 0⟩).crash = true :=
  ⟨by rw [← edge_vertex_time_fst, example_near_wall_times],
    ((collision_detection_fall_through Real.sqrt example_near_wall ⟨0, 0, 0⟩ ⟨-1, 0, 0⟩
      (by norm_num [example_near_wall, dot])
      (by norm_num [face_hit_time, example_near_wall, dot])
      (by norm_num [plane_dist, example_near_wall, dot])).1
      (by rw [← edge_vertex_time_fst, example_near_wall_times]; norm_num)).1,
    ((collision_detection_fall_through Real.sqrt example_near_wall ⟨0, 0, 0⟩ ⟨-1, 0, 0⟩
      (by norm_num [example_near_wall, dot])
      (by norm_num [face_hit_time, example_near_wall, dot])
      (by norm_num [plane_dist, example_near_wall, dot])).1
      (by rw [← edge_vertex_time_fst, example_near_wall_times]; norm_num)).2.1⟩

/-- C13 fails as stated: on the registry holding `example_side_wall`, from the origin
with velocity `(-1,0,0)`, the closing speed is `1`, `ticks_to_hit` is `1/10` and the
projected contact `(-11/10,0,0)` is outside the triangle, so there is no valid face hit,
and `0 ≤ plane_dist = 11/10 < 1 + 1`; the least of the six vertex and edge times is
`3/10` (the vertex `a`), below `1`.  Yet the scan records no triangle, its `min_time`
stays `1`, and `collision_detection` returns position and velocity unchanged: the
vertex and edge tests are not reached. -/
theorem collision_detection_no_fall_through :
    1 / 100000 < dot (⟨-1, 0, 0⟩ : Vec3 ℝ) (example_side_wall : Triangle ℝ).normal
    ∧ face_hit_time (example_side_wall : Triangle ℝ) ⟨0, 0, 0⟩ ⟨-1, 0, 0⟩ = 1 / 10
    ∧ inside_triangle (example_side_wall : Triangle ℝ)
        (((⟨0, 0, 0⟩ : Vec3 ℝ) + (example_side_wall : Triangle ℝ).normal)
          + splat (face_hit_time (example_side_wall : Triangle ℝ) ⟨0, 0, 0⟩ ⟨-1, 0, 0⟩)
            * ⟨-1, 0, 0⟩) = false
    ∧ ¬ valid_face_hit (example_side_wall : Triangle ℝ) ⟨0, 0, 0⟩ ⟨-1, 0, 0⟩
    ∧ 0 ≤ plane_dist (example_side_wall : Triangle ℝ) ⟨0, 0, 0⟩
    ∧ plane_dist (example_side_wall : Triangle ℝ) ⟨0, 0, 0⟩
        < 1 + dot (⟨-1, 0, 0⟩ : Vec3 ℝ) (example_side_wall : Triangle ℝ).normal
    ∧ six_min Real.sqrt ⟨0, 0, 0⟩ ⟨-1, 0, 0⟩ (example_side_wall : Triangle ℝ) = 3 / 10
    ∧ (collision_scan Real.sqrt [example_side_wall] ⟨0, 0, 0⟩ ⟨-1, 0, 0⟩).closest_triangle = none
    ∧ (collision_scan Real.sqrt [example_side_wall] ⟨0, 0, 0⟩ ⟨-1, 0, 0⟩).min_time = 1
    ∧ collision_detection Real.sqrt [example_side_wall] ⟨0, 0, 0⟩ ⟨-1, 0, 0⟩
        = (⟨0, 0, 0⟩, ⟨-1, 0, 0⟩) := by
  have hin : inside_triangle (example_side_wall : Triangle ℝ)
      (((⟨0, 0, 0⟩ : Vec3 ℝ) + (example_side_wall : Triangle ℝ).normal)
        + splat (face_hit_time (example_side_wall : Triangle ℝ) ⟨0, 0, 0⟩ ⟨-1, 0, 0⟩)
          * ⟨-1, 0, 0⟩) = false := by
    norm_num [face_hit_time, example_side_wall, inside_triangle, dot, cross, splat]
  have hscan : collision_scan Real.sqrt [example_side_wall] ⟨0, 0, 0⟩ ⟨-1, 0, 0⟩
      = { min_time := 1, crash := false, crash_point := 0, closest_triangle := none } := by
    norm_num [collision_scan, collision_step, example_side_wall, inside_triangle, dot, cross,
      splat]
  refine ⟨by norm_num [example_side_wall, dot],
    by norm_num [face_hit_time, example_side_wall, dot], hin, ?_,
    by norm_num [plane_dist, example_side_wall, dot],
    by norm_num [plane_dist, example_side_wall, dot],
    by rw [← edge_vertex_time_fst, example_side_wall_times],
    by rw [hscan], by rw [hscan], ?_⟩
  · intro h
    rw [h.2.2.2] at hin
    exact Bool.noConfusion hin
  · unfold collision_detection
    rw [if_neg neg_unit_x_ne_zero, hscan]

end fall_through

/-! ## The rounded code without rounding -/

section unrounded

variable {K : Type} [LinearOrderedField K]

theorem rounded_vadd_id (u v : Vec3 K) : Rounded.vadd id u v = u + v := rfl

theorem rounded_vsub_id (u v : Vec3 K) : Rounded.vsub id u v = u - v := rfl

theorem rounded_vmul_id (u v : Vec3 K) : Rounded.vmul id u v = u * v := rfl

theorem rounded_vdot_id (u v : Vec3 K) : Rounded.vdot id u v = dot u v := rfl

theorem rounded_vcross_id (u v : Vec3 K) : Rounded.vcross id u v = cross u v := rfl

theorem rounded_fdiv_id (a b : K) : Rounded.fdiv id a b = fdiv a b := rfl

/-- With `rnd = id` the rounded inside test is `inside_triangle`. -/
theorem rounded_inside_triangle_id (tri : Triangle K) (p : Vec3 K) :
    Rounded.inside_triangle id tri p = inside_triangle tri p := rfl

/-- With `rnd = id` the rounded point solver is `point_crash_time`. -/
theorem rounded_point_crash_time_id (sqrt : K → K) (pos v q : Vec3 K) :
    Rounded.point_crash_time id sqrt pos v q = point_crash_time sqrt pos v q := rfl

/-- With `rnd = id` the rounded edge solver is `line_crash_time`. -/
theorem rounded_line_crash_time_id (sqrt : K → K) (pos v a b : Vec3 K) :
    Rounded.line_crash_time id sqrt pos v a b = line_crash_time sqrt pos v a b := rfl

/-- With `rnd = id` the rounded wall-hug corrector is `wall_hug_detection`. -/
theorem rounded_wall_hug_detection_id (triangles : List (Triangle K)) (p : Vec3 K) :
    Rounded.wall_hug_detection id triangles p = wall_hug_detection triangles p := rfl

theorem rounded_edge_vertex_time_id (sqrt : K → K) (pos v : Vec3 K) (tri : Triangle K) :
    Rounded.edge_vertex_time id sqrt pos v tri = edge_vertex_time sqrt pos v tri := by
  unfold Rounded.edge_vertex_time edge_vertex_time
  simp only [rounded_point_crash_time_id, rounded_line_crash_time_id]

theorem rounded_collision_step_id (sqrt : K → K) (pos v : Vec3 K) (st : Scan K)
    (tri : Triangle K) :
    Rounded.collision_step id sqrt pos v st tri = collision_step sqrt pos v st tri := by
  unfold Rounded.collision_step collision_step
  simp only [rounded_edge_vertex_time_id, rounded_inside_triangle_id, rounded_vdot_id,
    rounded_vadd_id, rounded_vmul_id, id]

/-- With `rnd = id` the rounded scan is `collision_scan`. -/
theorem rounded_collision_scan_id (sqrt : K → K) (triangles : List (Triangle K))
    (pos v : Vec3 K) :
    Rounded.collision_scan id sqrt triangles pos v = collision_scan sqrt triangles pos v := by
  have h : Rounded.collision_step id sqrt pos v = collision_step sqrt pos v :=
    funext fun st => funext fun tri => rounded_collision_step_id sqrt pos v st tri
  unfold Rounded.collision_scan collision_scan
  rw [h]

/-- With `rnd = id` the rounded resolver is `collision_detection`. -/
theorem rounded_collision_detection_id (sqrt : K → K) (triangles : List (Triangle K))
    (pos v : Vec3 K) :
    Rounded.collision_detection id sqrt triangles pos v
      = collision_detection sqrt triangles pos v := by
  unfold Rounded.collision_detection collision_detection
  simp only [rounded_collision_scan_id, rounded_vdot_id, rounded_vadd_id, rounded_vmul_id,
    rounded_vsub_id, id]

theorem rounded_hug_candidate_id (tri : Triangle K) (p : Vec3 K) :
    Rounded.hug_candidate id tri p ↔ hug_candidate tri p := Iff.rfl

end unrounded

/-! ## Binary32 rounding on samples -/

section binary32

/-- The constants of the source in binary32: `0.4f`, `0.8f`, `0.01f` and `0.00001f` are
the numbers with the bit patterns `0x3ECCCCCD`, `0x3F4CCCCD`, `0x3C23D70A` and
`0x3727C5AC`; numbers with a 24-bit significand are kept, `2 ^ 24 + 1` is a tie and goes
to the even neighbour. -/
theorem round32_samples :
    round32 (2 / 5) = 13421773 / 33554432
    ∧ round32 (4 / 5) = 13421773 / 16777216
    ∧ round32 (1 / 100) = 5368709 / 536870912
    ∧ round32 (1 / 100000) = 2748779 / 274877906944
    ∧ round32 0 = 0 ∧ round32 1 = 1 ∧ round32 (-(1 / 2)) = -(1 / 2) ∧ round32 10 = 10
    ∧ round32 16777217 = 16777216 ∧ round32 16777219 = 16777220
    ∧ round32 (-(1 / 3)) = -(11184811 / 33554432) := by
  decide!

/-- The binary32 square root on samples: `sqrt 2` is the number with the bit pattern
`0x3FB504F3`; squares of binary32 numbers give their roots back. -/
theorem sqrt32_samples :
    sqrt32 2 = 11863283 / 8388608
    ∧ sqrt32 3 = 14529495 / 8388608
    ∧ sqrt32 (1 / 2) = 11863283 / 16777216
    ∧ sqrt32 0 = 0 ∧ sqrt32 4 = 2 ∧ sqrt32 (1 / 4) = 1 / 2 ∧ sqrt32 64 = 8 := by
  decide!

end binary32

/-! ## The point solver in binary32 -/

section rounded_point

/-- Whatever the rounding, the time of the point solver is at least `-1/2`. -/
theorem rounded_point_crash_time_ge {K : Type} [LinearOrderedField K] (rnd sqrt : K → K)
    (pos v q : Vec3 K) :
    -(1 / 2) ≤ Rounded.point_crash_time rnd sqrt pos v q := by
  unfold Rounded.point_crash_time
  simp only []
  split_ifs with hd
  · norm_num
  · split
    · split
      · rename_i t ht
        exact (select_root_some ht).2
      · norm_num
    · norm_num

/-- C1 fails as stated on the binary32 code: from the origin with velocity `(1,0,0)` and the
point `(647657 / 2 ^ 22, 792867 / 2 ^ 20, 0)` the smaller root of the quadratic lies just
below the tolerance and is rounded to `-1/2`, which the code accepts and returns; at the
time `-1/2` the centre is not at distance one from the point, and `-1/2` is not the
sentinel. -/
theorem point_crash_time_binary32_rounded_root :
    Rounded.point_crash_time round32 sqrt32 ⟨0, 0, 0⟩ ⟨1, 0, 0⟩
        ⟨647657 / 4194304, 792867 / 1048576, 0⟩ = -(1 / 2)
    ∧ centre_dist_sq (⟨0, 0, 0⟩ : Vec3 ℚ) ⟨1, 0, 0⟩ ⟨647657 / 4194304, 792867 / 1048576, 0⟩
        (-(1 / 2)) ≠ 1
    ∧ Rounded.point_crash_time round32 sqrt32 ⟨0, 0, 0⟩ ⟨1, 0, 0⟩
        ⟨647657 / 4194304, 792867 / 1048576, 0⟩ ≠ 10 := by
  decide!

/-- C1, amended. Whatever the rounding of the operations, `point_crash_time` returns a
value that is at least `-1/2` (the sentinel `10` or an accepted root).  With exact
arithmetic (`rnd = id`, the
real square root) and a non-zero velocity it returns the least `t ≥ -1/2` at which the
centre `pos + t * v` is at distance one from the point when such a `t` exists, and `10`
otherwise; then the point `(3,0,0)` gives `2` and the point `(1,1/2,0)` gives
`1 - cos (π/6)` from the origin with velocity `(1,0,0)`.  In binary32 the point `(3,0,0)`
gives `2` as well. -/
theorem point_crash_time_rounded {K : Type} [LinearOrderedField K] (rnd sqrt : K → K)
    (pos v q : Vec3 K) :
    -(1 / 2) ≤ Rounded.point_crash_time rnd sqrt pos v q
    ∧ (∀ p w e : Vec3 ℝ, w ≠ 0 →
        ((∃ t : ℝ, -(1 / 2) ≤ t ∧ centre_dist_sq p w e t = 1) →
          IsLeast {t : ℝ | -(1 / 2) ≤ t ∧ centre_dist_sq p w e t = 1}
            (Rounded.point_crash_time id Real.sqrt p w e))
        ∧ ((¬ ∃ t : ℝ, -(1 / 2) ≤ t ∧ centre_dist_sq p w e t = 1) →
          Rounded.point_crash_time id Real.sqrt p w e = 10))
    ∧ Rounded.point_crash_time id Real.sqrt ⟨0, 0, 0⟩ ⟨1, 0, 0⟩ ⟨3, 0, 0⟩ = 2
    ∧ Rounded.point_crash_time id Real.sqrt ⟨0, 0, 0⟩ ⟨1, 0, 0⟩ ⟨1, 1 / 2, 0⟩
        = 1 - Real.cos (Real.pi / 6)
    ∧ Rounded.point_crash_time round32 sqrt32 ⟨0, 0, 0⟩ ⟨1, 0, 0⟩ ⟨3, 0, 0⟩ = 2 := by
  refine ⟨rounded_point_crash_time_ge rnd sqrt pos v q, fun p w e hw => ?_, ?_, ?_,
    by decide!⟩
  · rw [rounded_point_crash_time_id]
    exact ⟨(point_crash_time_least p w e hw).1, (point_crash_time_least p w e hw).2.1⟩
  · rw [rounded_point_crash_time_id]
    exact (point_crash_time_least ⟨0, 0, 0⟩ ⟨1, 0, 0⟩ ⟨3, 0, 0⟩ unit_x_ne_zero).2.2.1
  · rw [rounded_point_crash_time_id]
    exact (point_crash_time_least ⟨0, 0, 0⟩ ⟨1, 0, 0⟩ ⟨3, 0, 0⟩ unit_x_ne_zero).2.2.2

/-- The amended C1 with exact arithmetic at the origin, velocity `(1,0,0)` and the point
`(3,0,0)`. -/
theorem point_crash_time_rounded_witness :
    (⟨1, 0, 0⟩ : Vec3 ℝ) ≠ 0
    ∧ IsLeast {t : ℝ | -(1 / 2) ≤ t ∧ centre_dist_sq ⟨0, 0, 0⟩ ⟨1, 0, 0⟩ ⟨3, 0, 0⟩ t = 1}
        (Rounded.point_crash_time id Real.sqrt ⟨0, 0, 0⟩ ⟨1, 0, 0⟩ ⟨3, 0, 0⟩) :=
  ⟨unit_x_ne_zero,
    ((point_crash_time_rounded round32 sqrt32 ⟨0, 0, 0⟩ ⟨1, 0, 0⟩ ⟨3, 0, 0⟩).2.1
      ⟨0, 0, 0⟩ ⟨1, 0, 0⟩ ⟨3, 0, 0⟩ unit_x_ne_zero).1
      ⟨2, by norm_num, by norm_num [centre_dist_sq, dot, splat]⟩⟩

/-- C10 fails as stated on the binary32 code: from the origin with velocity `(4,0,0)` the
point `(2, 1 + 2⁻²³, 0)` is at squared perpendicular distance `(1 + 2⁻²³)²`, above `1`,
from the line of motion; the constant `C` of the quadratic rounds to `4`, the
discriminant to `0`, and the code returns the time `1/2`, not the sentinel. -/
theorem point_crash_time_binary32_grazing_hit :
    (⟨4, 0, 0⟩ : Vec3 ℚ) ≠ 0
    ∧ 1 < perp_dist_sq (⟨0, 0, 0⟩ : Vec3 ℚ) ⟨4, 0, 0⟩ ⟨2, 8388609 / 8388608, 0⟩
    ∧ Rounded.point_crash_time round32 sqrt32 ⟨0, 0, 0⟩ ⟨4, 0, 0⟩ ⟨2, 8388609 / 8388608, 0⟩
        = 1 / 2
    ∧ Rounded.point_crash_time round32 sqrt32 ⟨0, 0, 0⟩ ⟨4, 0, 0⟩ ⟨2, 8388609 / 8388608, 0⟩
        ≠ 10 := by
  decide!

/-- C10, amended. With exact arithmetic (`rnd = id`, the real square root), for a non-zero
velocity and a point whose perpendicular distance from the line of motion exceeds `1`,
`point_crash_time` returns the sentinel `10`; in binary32 it does so from the origin with
velocity `(1,0,0)` for the point `(2,2,0)`. -/
theorem point_crash_time_miss_rounded (p w e : Vec3 ℝ) (hw : w ≠ 0)
    (hfar : 1 < perp_dist_sq p w e) :
    Rounded.point_crash_time id Real.sqrt p w e = 10
    ∧ Rounded.point_crash_time round32 sqrt32 ⟨0, 0, 0⟩ ⟨1, 0, 0⟩ ⟨2, 2, 0⟩ = 10 := by
  refine ⟨?_, by decide!⟩
  rw [rounded_point_crash_time_id]
  exact (point_crash_time_miss p w e hw hfar).1

/-- The amended C10 at the origin with velocity `(1,0,0)` and the point `(2,2,0)`. -/
theorem point_crash_time_miss_rounded_witness :
    (⟨1, 0, 0⟩ : Vec3 ℝ) ≠ 0
    ∧ perp_dist_sq (⟨0, 0, 0⟩ : Vec3 ℝ) ⟨1, 0, 0⟩ ⟨2, 2, 0⟩ = 4
    ∧ Rounded.point_crash_time id Real.sqrt ⟨0, 0, 0⟩ ⟨1, 0, 0⟩ ⟨2, 2, 0⟩ = 10 :=
  ⟨unit_x_ne_zero, by norm_num [perp_dist_sq, centre_dist_sq, dot, splat],
    (point_crash_time_miss_rounded ⟨0, 0, 0⟩ ⟨1, 0, 0⟩ ⟨2, 2, 0⟩ unit_x_ne_zero
      (by norm_num [perp_dist_sq, centre_dist_sq, dot, splat])).1⟩

end rounded_point

/-! ## The inside test in binary32 -/

section rounded_inside

theorem example_thin_cross :
    cross ((example_thin_triangle : Triangle ℝ).b - example_thin_triangle.a)
      ((example_thin_triangle : Triangle ℝ).c - example_thin_triangle.a)
      = ⟨0, 0, 16777217 / 8388608⟩ := by
  norm_num [example_thin_triangle, cross]

theorem example_thin_not_collinear :
    cross ((example_thin_triangle : Triangle ℝ).b - example_thin_triangle.a)
      ((example_thin_triangle : Triangle ℝ).c - example_thin_triangle.a) ≠ 0 := by
  rw [example_thin_cross]
  intro h
  have := congrArg Vec3.z h
  norm_num at this

theorem example_thin_normal :
    (example_thin_triangle : Triangle ℝ).normal
      = -(normalize Real.sqrt (cross ((example_thin_triangle : Triangle ℝ).b - example_thin_triangle.a)
          ((example_thin_triangle : Triangle ℝ).c - example_thin_triangle.a))) := by
  rw [example_thin_cross]
  have hs : Real.sqrt (16777217 / 8388608 * (16777217 / 8388608)) = 16777217 / 8388608 :=
    Real.sqrt_mul_self (by norm_num)
  have hd : dot (⟨0, 0, 16777217 / 8388608⟩ : Vec3 ℝ) ⟨0, 0, 16777217 / 8388608⟩
      = 16777217 / 8388608 * (16777217 / 8388608) := by
    simp only [dot]
    ring
  unfold normalize
  rw [hd, hs]
  norm_num [example_thin_triangle, splat]

/-- C5 fails as stated on the binary32 code: for `example_thin_triangle` (non-collinear
vertices, normal `-normalize (cross (b - a) (c - a))`, plane constant `dot normal a`) the
point `(1, 1 - 2⁻²³, 0)` of its plane is outside the closed triangle, but the two
products of the first sign test both round to `1` and the binary32 `inside_triangle`
returns true. -/
theorem inside_triangle_binary32_accepts_outside :
    Rounded.inside_triangle round32 (example_thin_triangle : Triangle ℚ)
        ⟨1, 8388607 / 8388608, 0⟩ = true
    ∧ cross ((example_thin_triangle : Triangle ℝ).b - example_thin_triangle.a)
        ((example_thin_triangle : Triangle ℝ).c - example_thin_triangle.a) ≠ 0
    ∧ (example_thin_triangle : Triangle ℝ).normal
        = -(normalize Real.sqrt (cross ((example_thin_triangle : Triangle ℝ).b - example_thin_triangle.a)
            ((example_thin_triangle : Triangle ℝ).c - example_thin_triangle.a)))
    ∧ (example_thin_triangle : Triangle ℝ).n0
        = dot (example_thin_triangle : Triangle ℝ).normal (example_thin_triangle : Triangle ℝ).a
    ∧ dot (example_thin_triangle : Triangle ℝ).normal ⟨1, 8388607 / 8388608, 0⟩
        = (example_thin_triangle : Triangle ℝ).n0
    ∧ ¬ ∃ s t : ℝ, 0 ≤ s ∧ 0 ≤ t ∧ s + t ≤ 1
        ∧ (⟨1, 8388607 / 8388608, 0⟩ : Vec3 ℝ)
            = example_thin_triangle.a + splat s * (example_thin_triangle.b - example_thin_triangle.a)
              + splat t * (example_thin_triangle.c - example_thin_triangle.a) := by
  have hn0 : (example_thin_triangle : Triangle ℝ).n0
      = dot (example_thin_triangle : Triangle ℝ).normal (example_thin_triangle : Triangle ℝ).a := by
    norm_num [example_thin_triangle, dot]
  have hp : dot (example_thin_triangle : Triangle ℝ).normal ⟨1, 8388607 / 8388608, 0⟩
      = (example_thin_triangle : Triangle ℝ).n0 := by
    norm_num [example_thin_triangle, dot]
  refine ⟨by decide!, example_thin_not_collinear, example_thin_normal, hn0, hp, ?_⟩
  rw [← inside_triangle_iff_closed example_thin_triangle ⟨1, 8388607 / 8388608, 0⟩
    example_thin_not_collinear example_thin_normal hn0 hp]
  norm_num [inside_triangle, example_thin_triangle, dot, cross]

/-- C5, amended. With exact arithmetic (`rnd = id`), for a triangle with non-collinear
vertices whose normal is `-normalize (cross (b - a) (c - a))` and whose plane constant is
`dot normal a`, and a point `p` of its plane: `inside_triangle` is true exactly when
`p = a + s * (b - a) + t * (c - a)` with `s ≥ 0`, `t ≥ 0` and `s + t ≤ 1`.  In binary32,
on `example_floor`, the point `(1/4,1/4,0)` and the vertex `(1,0,0)` are accepted and the
point `(1,1,0)` is rejected. -/
theorem inside_triangle_rounded_exact (tri : Triangle ℝ) (p : Vec3 ℝ)
    (hnc : cross (tri.b - tri.a) (tri.c - tri.a) ≠ 0)
    (hn : tri.normal = -(normalize Real.sqrt (cross (tri.b - tri.a) (tri.c - tri.a))))
    (hn0 : tri.n0 = dot tri.normal tri.a)
    (hp : dot tri.normal p = tri.n0) :
    (Rounded.inside_triangle id tri p = true ↔
      ∃ s t : ℝ, 0 ≤ s ∧ 0 ≤ t ∧ s + t ≤ 1
        ∧ p = tri.a + splat s * (tri.b - tri.a) + splat t * (tri.c - tri.a))
    ∧ Rounded.inside_triangle round32 (example_floor : Triangle ℚ) ⟨1 / 4, 1 / 4, 0⟩ = true
    ∧ Rounded.inside_triangle round32 (example_floor : Triangle ℚ) ⟨1, 0, 0⟩ = true
    ∧ Rounded.inside_triangle round32 (example_floor : Triangle ℚ) ⟨1, 1, 0⟩ = false := by
  refine ⟨?_, by decide!⟩
  rw [rounded_inside_triangle_id]
  exact inside_triangle_iff_closed tri p hnc hn hn0 hp

/-- The amended C5 on `example_floor` with the point `(1/4,1/4,0)` of its plane. -/
theorem inside_triangle_rounded_exact_witness :
    Rounded.inside_triangle id (example_floor : Triangle ℝ) ⟨1 / 4, 1 / 4, 0⟩ = true ↔
      ∃ s t : ℝ, 0 ≤ s ∧ 0 ≤ t ∧ s + t ≤ 1
        ∧ (⟨1 / 4, 1 / 4, 0⟩ : Vec3 ℝ)
            = example_floor.a + splat s * (example_floor.b - example_floor.a)
              + splat t * (example_floor.c - example_floor.a) :=
  (inside_triangle_rounded_exact example_floor ⟨1 / 4, 1 / 4, 0⟩ example_floor_not_collinear
    example_floor_normal (by norm_num [example_floor, dot]) (by norm_num [example_floor, dot])).1

end rounded_inside

/-! ## The wall-hug corrector in binary32 -/

section rounded_hug

variable {K : Type} [LinearOrderedField K]

/-- An iteration of the rounded loop of `wall_hug_detection` keeps the invariant. -/
theorem rounded_wall_hug_step_ok (rnd : K → K) (p : Vec3 K) (seen : List (Triangle K))
    (st : K × Option (Triangle K)) (tri : Triangle K) (h : Rounded.hug_ok rnd p seen st) :
    Rounded.hug_ok rnd p (seen ++ [tri]) (Rounded.wall_hug_step rnd p st tri) := by
  obtain ⟨h1, h2, h3, h4⟩ := h
  unfold Rounded.wall_hug_step
  simp only []
  split_ifs with c1 c2
  · refine ⟨le_trans c1.2.le h1, fun hc => absurd hc (by simp), ?_, ?_⟩
    · intro t ht hcand
      rcases List.mem_append.mp ht with hm | hm
      · exact ⟨by simp, le_trans c1.2.le (h3 t hm hcand).2⟩
      · rw [List.mem_singleton.mp hm]
        exact ⟨by simp, le_refl _⟩
    · intro t ht
      have e : tri = t := Option.some.inj ht
      subst e
      exact ⟨by simp, ⟨c1.1, lt_of_lt_of_le c1.2 h1, c2⟩, rfl⟩
  · refine ⟨h1, h2, ?_, fun t ht => ⟨List.mem_append_left _ (h4 t ht).1, (h4 t ht).2⟩⟩
    intro t ht hcand
    rcases List.mem_append.mp ht with hm | hm
    · exact h3 t hm hcand
    · rw [List.mem_singleton.mp hm] at hcand
      exact absurd hcand.2.2 c2
  · refine ⟨h1, h2, ?_, fun t ht => ⟨List.mem_append_left _ (h4 t ht).1, (h4 t ht).2⟩⟩
    intro t ht hcand
    rcases List.mem_append.mp ht with hm | hm
    · exact h3 t hm hcand
    · rw [List.mem_singleton.mp hm] at hcand ⊢
      have hle : st.1 ≤ Rounded.plane_dist rnd tri p := by
        by_contra hlt
        exact c1 ⟨hcand.1, not_le.mp hlt⟩
      refine ⟨fun hn => ?_, hle⟩
      have := h2 hn
      have := hcand.2.1
      linarith

/-- The rounded scan of `wall_hug_detection` ends in a state that satisfies the invariant
for the whole registry. -/
theorem rounded_wall_hug_scan_ok (rnd : K → K) (triangles : List (Triangle K)) (p : Vec3 K) :
    Rounded.hug_ok rnd p triangles (Rounded.wall_hug_scan rnd triangles p) := by
  have hfold : ∀ (l seen : List (Triangle K)) (st : K × Option (Triangle K)),
      Rounded.hug_ok rnd p seen st →
      Rounded.hug_ok rnd p (seen ++ l) (l.foldl (Rounded.wall_hug_step rnd p) st) := by
    intro l
    induction l with
    | nil => intro seen st h; simpa using h
    | cons tri l ih =>
      intro seen st h
      have := ih (seen ++ [tri]) _ (rounded_wall_hug_step_ok rnd p seen st tri h)
      simpa using this
  have := hfold triangles [] (1, none)
    ⟨le_refl _, fun _ => rfl, fun t ht => absurd ht (List.not_mem_nil t),
      fun t ht => absurd ht (by simp)⟩
  simpa using this

/-- The two outcomes of the rounded `wall_hug_detection`: the position itself without a
hug candidate, else the position displaced along the normal of a candidate of least
computed plane distance. -/
theorem rounded_wall_hug_detection_cases (rnd : K → K) (triangles : List (Triangle K))
    (p : Vec3 K) :
    ((∀ tri ∈ triangles, ¬ Rounded.hug_candidate rnd tri p) →
        Rounded.wall_hug_detection rnd triangles p = p)
    ∧ ((∃ tri ∈ triangles, Rounded.hug_candidate rnd tri p) →
        ∃ tri ∈ triangles, Rounded.hug_candidate rnd tri p
          ∧ (∀ other ∈ triangles, Rounded.hug_candidate rnd other p →
              Rounded.plane_dist rnd tri p ≤ Rounded.plane_dist rnd other p)
          ∧ Rounded.wall_hug_detection rnd triangles p
              = Rounded.vadd rnd p
                  (Rounded.vmul rnd (splat (rnd (Rounded.plane_dist rnd tri p - 1))) tri.normal)) := by
  obtain ⟨_, _, h3, h4⟩ := rounded_wall_hug_scan_ok rnd triangles p
  unfold Rounded.wall_hug_detection
  constructor
  · intro hno
    split
    · rename_i min_dist tri heq
      have := h4 tri (by rw [heq])
      exact absurd this.2.1 (hno tri this.1)
    · rfl
  · rintro ⟨t0, ht0, hc0⟩
    split
    · rename_i min_dist tri heq
      obtain ⟨hmem, hcand, hmin⟩ := h4 tri (by rw [heq])
      rw [heq] at h3 hmin
      simp only [] at hmin h3
      refine ⟨tri, hmem, hcand, fun other ho hco => ?_, by rw [hmin]⟩
      rw [← hmin]
      exact (h3 other ho hco).2
    · rename_i min_dist heq
      rw [heq] at h3
      exact absurd rfl (h3 t0 ht0 hc0).1

/-- C6 fails as stated on the binary32 code: on the registry holding
`example_offset_wall` (unit normal `(-1,0,0)`), at `(9717769 / 2 ^ 26, 0, 0)` the wall is
a hug candidate and the position is pushed to `(6471989 / 2 ^ 23, 0, 0)`; the plane
distance of the result to the wall is computed as `1 - 2⁻²⁴`, and is `1 - 3 * 2⁻²⁶`
exactly: not `1`. -/
theorem wall_hug_detection_binary32_short_push :
    dot (example_offset_wall : Triangle ℚ).normal (example_offset_wall : Triangle ℚ).normal = 1
    ∧ Rounded.hug_candidate round32 (example_offset_wall : Triangle ℚ) ⟨9717769 / 67108864, 0, 0⟩
    ∧ Rounded.wall_hug_detection round32 [(example_offset_wall : Triangle ℚ)]
        ⟨9717769 / 67108864, 0, 0⟩ = ⟨6471989 / 8388608, 0, 0⟩
    ∧ Rounded.plane_dist round32 (example_offset_wall : Triangle ℚ) ⟨6471989 / 8388608, 0, 0⟩
        = 16777215 / 16777216
    ∧ plane_dist (example_offset_wall : Triangle ℚ) ⟨6471989 / 8388608, 0, 0⟩
        = 67108861 / 67108864 := by
  unfold Rounded.hug_candidate
  decide!

/-- C6, amended. Whatever the rounding of the operations: without a hug candidate
`wall_hug_detection` returns the position; with one, it returns the position displaced by
`(minDist - 1) * normal` (operations rounded) for a candidate of least computed plane
distance `minDist`.  With exact arithmetic (`rnd = id`) and unit normals the plane
distance of the result to that triangle is `1`. -/
theorem wall_hug_detection_rounded (rnd : K → K) (triangles : List (Triangle K)) (p : Vec3 K) :
    ((∀ tri ∈ triangles, ¬ Rounded.hug_candidate rnd tri p) →
        Rounded.wall_hug_detection rnd triangles p = p)
    ∧ ((∃ tri ∈ triangles, Rounded.hug_candidate rnd tri p) →
        ∃ tri ∈ triangles, Rounded.hug_candidate rnd tri p
          ∧ (∀ other ∈ triangles, Rounded.hug_candidate rnd other p →
              Rounded.plane_dist rnd tri p ≤ Rounded.plane_dist rnd other p)
          ∧ Rounded.wall_hug_detection rnd triangles p
              = Rounded.vadd rnd p
                  (Rounded.vmul rnd (splat (rnd (Rounded.plane_dist rnd tri p - 1))) tri.normal))
    ∧ (∀ (registry : List (Triangle ℝ)) (pos : Vec3 ℝ),
        (∀ tri ∈ registry, dot tri.normal tri.normal = 1) →
        (∃ tri ∈ registry, hug_candidate tri pos) →
        ∃ tri ∈ registry, hug_candidate tri pos
          ∧ (∀ other ∈ registry, hug_candidate other pos →
              plane_dist tri pos ≤ plane_dist other pos)
          ∧ Rounded.wall_hug_detection id registry pos
              = pos + splat (plane_dist tri pos - 1) * tri.normal
          ∧ plane_dist tri (Rounded.wall_hug_detection id registry pos) = 1) := by
  refine ⟨(rounded_wall_hug_detection_cases rnd triangles p).1,
    (rounded_wall_hug_detection_cases rnd triangles p).2, fun registry pos hunit hex => ?_⟩
  rw [rounded_wall_hug_detection_id]
  exact (wall_hug_detection_spec registry pos hunit).2 hex

/-- The amended C6 with exact arithmetic on the registry holding `example_wall` at
`(1/2,0,0)`, a hug candidate at plane distance `1/2`. -/
theorem wall_hug_detection_rounded_witness :
    ∃ tri ∈ [(example_wall : Triangle ℝ)], hug_candidate tri ⟨1 / 2, 0, 0⟩
      ∧ (∀ other ∈ [(example_wall : Triangle ℝ)], hug_candidate other ⟨1 / 2, 0, 0⟩ →
          plane_dist tri ⟨1 / 2, 0, 0⟩ ≤ plane_dist other ⟨1 / 2, 0, 0⟩)
      ∧ Rounded.wall_hug_detection id [example_wall] ⟨1 / 2, 0, 0⟩
          = ⟨1 / 2, 0, 0⟩ + splat (plane_dist tri ⟨1 / 2, 0, 0⟩ - 1) * tri.normal
      ∧ plane_dist tri (Rounded.wall_hug_detection id [example_wall] ⟨1 / 2, 0, 0⟩) = 1 :=
  (wall_hug_detection_rounded round32 [] ⟨0, 0, 0⟩).2.2 [example_wall] ⟨1 / 2, 0, 0⟩
    example_wall_unit ⟨example_wall, List.mem_singleton.mpr rfl, example_wall_candidate⟩

/-- The binary32 code moves twice on one triangle: on the registry holding
`example_offset_wall`, from `(9717769 / 2 ^ 26, 0, 0)`, the first invocation returns
`(6471989 / 2 ^ 23, 0, 0)` and the second `(12943979 / 2 ^ 24, 0, 0)`. -/
theorem wall_hug_detection_binary32_moves_twice :
    Rounded.wall_hug_detection round32 [(example_offset_wall : Triangle ℚ)]
        ⟨9717769 / 67108864, 0, 0⟩ = ⟨6471989 / 8388608, 0, 0⟩
    ∧ Rounded.wall_hug_detection round32 [(example_offset_wall : Triangle ℚ)]
        ⟨6471989 / 8388608, 0, 0⟩ = ⟨12943979 / 16777216, 0, 0⟩ := by
  decide!

/-- C7, amended. Whatever the rounding of the operations: if no triangle of the registry
is a hug candidate at the position that `wall_hug_detection` returned, a second invocation
leaves that position unchanged.  With exact arithmetic (`rnd = id`) and unit normals the
second invocation leaves it unchanged exactly in that case, which is the case for every
registry of at most one triangle; in binary32 one triangle can remain a candidate
(`example_offset_wall`), and the second invocation moves the position again. -/
theorem wall_hug_detection_idempotent_rounded (rnd : K → K) (triangles : List (Triangle K))
    (p : Vec3 K) :
    ((∀ tri ∈ triangles,
          ¬ Rounded.hug_candidate rnd tri (Rounded.wall_hug_detection rnd triangles p)) →
        Rounded.wall_hug_detection rnd triangles (Rounded.wall_hug_detection rnd triangles p)
          = Rounded.wall_hug_detection rnd triangles p)
    ∧ (∀ (registry : List (Triangle ℝ)) (pos : Vec3 ℝ),
        (∀ tri ∈ registry, dot tri.normal tri.normal = 1) →
        (Rounded.wall_hug_detection id registry (Rounded.wall_hug_detection id registry pos)
            = Rounded.wall_hug_detection id registry pos
          ↔ ∀ tri ∈ registry,
              ¬ hug_candidate tri (Rounded.wall_hug_detection id registry pos))
        ∧ (registry.length ≤ 1 →
            Rounded.wall_hug_detection id registry (Rounded.wall_hug_detection id registry pos)
              = Rounded.wall_hug_detection id registry pos))
    ∧ Rounded.wall_hug_detection round32 [(example_offset_wall : Triangle ℚ)]
          (Rounded.wall_hug_detection round32 [(example_offset_wall : Triangle ℚ)]
            ⟨9717769 / 67108864, 0, 0⟩)
        ≠ Rounded.wall_hug_detection round32 [(example_offset_wall : Triangle ℚ)]
            ⟨9717769 / 67108864, 0, 0⟩ := by
  refine ⟨(rounded_wall_hug_detection_cases rnd triangles _).1, fun registry pos hunit => ?_, ?_⟩
  · simp only [rounded_wall_hug_detection_id]
    exact wall_hug_detection_idempotent_iff registry pos hunit
  · rw [wall_hug_detection_binary32_moves_twice.1, wall_hug_detection_binary32_moves_twice.2]
    decide!

/-- The amended C7 with exact arithmetic on the registry holding `example_wall` at
`(1/2,0,0)`: the second invocation leaves the position of the first unchanged. -/
theorem wall_hug_detection_idempotent_rounded_witness :
    Rounded.wall_hug_detection id [(example_wall : Triangle ℝ)]
        (Rounded.wall_hug_detection id [(example_wall : Triangle ℝ)] ⟨1 / 2, 0, 0⟩)
      = Rounded.wall_hug_detection id [(example_wall : Triangle ℝ)] ⟨1 / 2, 0, 0⟩ :=
  ((wall_hug_detection_idempotent_rounded round32 [] ⟨0, 0, 0⟩).2.1 [example_wall]
    ⟨1 / 2, 0, 0⟩ example_wall_unit).2 (le_refl 1)

end rounded_hug

/-! ## The response of `collision_detection` in binary32 -/

section rounded_response

variable {K : Type} [LinearOrderedField K]

/-- Whatever the rounding, the time of the edge solver is at least `-1/2`. -/
theorem rounded_line_crash_time_ge (rnd sqrt : K → K) (pos v a b : Vec3 K) :
    -(1 / 2) ≤ (Rounded.line_crash_time rnd sqrt pos v a b).1 := by
  unfold Rounded.line_crash_time
  simp only []
  split
  · split_ifs with hD
    · norm_num
    · split
      · split
        · rename_i t ht
          split_ifs
          · exact (select_root_some ht).2
          · norm_num
        · norm_num
      · norm_num
  · norm_num

/-- Whatever the rounding, the least of the six times of a triangle is at least `-1/2`. -/
theorem rounded_edge_vertex_time_ge (rnd sqrt : K → K) (pos v : Vec3 K) (tri : Triangle K) :
    -(1 / 2) ≤ (Rounded.edge_vertex_time rnd sqrt pos v tri).1 := by
  unfold Rounded.edge_vertex_time
  simp only []
  have ha := rounded_point_crash_time_ge rnd sqrt pos v tri.a
  have hb := rounded_point_crash_time_ge rnd sqrt pos v tri.b
  have hc := rounded_point_crash_time_ge rnd sqrt pos v tri.c
  have hab := rounded_line_crash_time_ge rnd sqrt pos v tri.a tri.b
  have hac := rounded_line_crash_time_ge rnd sqrt pos v tri.a tri.c
  have hbc := rounded_line_crash_time_ge rnd sqrt pos v tri.b tri.c
  split_ifs <;> assumption

/-- One iteration of the rounded loop keeps the impact time in `[-1/2, 1]`, below `1` once
a triangle is recorded. -/
theorem rounded_collision_step_ok (rnd sqrt : K → K) (pos v : Vec3 K) (st : Scan K)
    (tri : Triangle K) (h : Rounded.scan_ok st) :
    Rounded.scan_ok (Rounded.collision_step rnd sqrt pos v st tri) := by
  obtain ⟨h1, h2, h3⟩ := h
  unfold Rounded.collision_step
  simp only []
  split_ifs with hv ht hin hpd hr
  · exact ⟨le_trans ht.2.le h1, le_trans (by norm_num) ht.1, fun _ => lt_of_lt_of_le ht.2 h1⟩
  · exact ⟨h1, h2, h3⟩
  · exact ⟨le_trans hr.le h1, rounded_edge_vertex_time_ge rnd sqrt pos v tri,
      fun _ => lt_of_lt_of_le hr h1⟩
  · exact ⟨h1, h2, h3⟩
  · exact ⟨h1, h2, h3⟩
  · exact ⟨h1, h2, h3⟩

/-- After the rounded loop the impact time is in `[-1/2, 1]`, below `1` once a triangle is
recorded. -/
theorem rounded_collision_scan_ok (rnd sqrt : K → K) (triangles : List (Triangle K))
    (pos v : Vec3 K) : Rounded.scan_ok (Rounded.collision_scan rnd sqrt triangles pos v) := by
  unfold Rounded.collision_scan
  have hgen : ∀ (l : List (Triangle K)) (st : Scan K), Rounded.scan_ok st →
      Rounded.scan_ok (l.foldl (Rounded.collision_step rnd sqrt pos v) st) := by
    intro l
    induction l with
    | nil => intro st h; exact h
    | cons t l ih =>
      intro st h
      exact ih _ (rounded_collision_step_ok rnd sqrt pos v st t h)
  exact hgen triangles _ ⟨le_refl 1, by norm_num, fun h => absurd rfl h⟩

/-- With a non-zero velocity and a recorded triangle the rounded code adds the rounded
`min_time * velocity` to the position, in both branches. -/
theorem rounded_collision_detection_pos (rnd sqrt : K → K) (triangles : List (Triangle K))
    (pos v : Vec3 K) (hv : v ≠ 0)
    (h : (Rounded.collision_scan rnd sqrt triangles pos v).closest_triangle ≠ none) :
    (Rounded.collision_detection rnd sqrt triangles pos v).1
      = Rounded.vadd rnd pos (Rounded.vmul rnd
          (splat (rnd (1 * (Rounded.collision_scan rnd sqrt triangles pos v).min_time))) v) := by
  unfold Rounded.collision_detection
  rw [if_neg hv]
  simp only []
  split
  · rename_i heq
    exact absurd heq h
  · split_ifs <;> rfl

/-- C9 fails as stated on the binary32 code: on the registry holding `example_wall_y`, from
`(4, 31/16, 0)` with velocity `(5 / 2 ^ 24, -1, 0)`, the face is hit at `15/16`; the `x`
coordinate of the position becomes `4 + 2⁻²¹`, a move of `2⁻²¹`, more than the absolute
value `5 / 2 ^ 24` of the velocity's `x` coordinate. -/
theorem collision_detection_binary32_overshoot :
    (Rounded.collision_detection round32 sqrt32 [(example_wall_y : Triangle ℚ)]
        ⟨4, 31 / 16, 0⟩ ⟨5 / 16777216, -1, 0⟩).1 = ⟨4 + 1 / 2097152, 1, 0⟩
    ∧ (Rounded.collision_scan round32 sqrt32 [(example_wall_y : Triangle ℚ)]
        ⟨4, 31 / 16, 0⟩ ⟨5 / 16777216, -1, 0⟩).min_time = 15 / 16
    ∧ ¬ |(Rounded.collision_detection round32 sqrt32 [(example_wall_y : Triangle ℚ)]
          ⟨4, 31 / 16, 0⟩ ⟨5 / 16777216, -1, 0⟩).1.x - 4| ≤ |(5 / 16777216 : ℚ)| := by
  decide!

/-- C9, amended. Whatever the rounding of the operations: `collision_detection` leaves the
position unchanged when the velocity is zero and when the scan records no triangle;
otherwise the position becomes the rounded sum of the position and the rounded product
`min_time * velocity`, with `-1/2 ≤ min_time < 1`.  With exact arithmetic (`rnd = id`,
the real square root) each coordinate of the position moves by at most the absolute value
of the velocity's coordinate. -/
theorem collision_detection_displacement_rounded (rnd sqrt : K → K)
    (triangles : List (Triangle K)) (pos v : Vec3 K) :
    (v = 0 → (Rounded.collision_detection rnd sqrt triangles pos v).1 = pos)
    ∧ ((Rounded.collision_scan rnd sqrt triangles pos v).closest_triangle = none →
        (Rounded.collision_detection rnd sqrt triangles pos v).1 = pos)
    ∧ (v ≠ 0 → (Rounded.collision_scan rnd sqrt triangles pos v).closest_triangle ≠ none →
        -(1 / 2) ≤ (Rounded.collision_scan rnd sqrt triangles pos v).min_time
        ∧ (Rounded.collision_scan rnd sqrt triangles pos v).min_time < 1
        ∧ (Rounded.collision_detection rnd sqrt triangles pos v).1
            = Rounded.vadd rnd pos (Rounded.vmul rnd
                (splat (rnd (1 * (Rounded.collision_scan rnd sqrt triangles pos v).min_time)))
                v))
    ∧ (∀ (registry : List (Triangle ℝ)) (p w : Vec3 ℝ),
        |(Rounded.collision_detection id Real.sqrt registry p w).1.x - p.x| ≤ |w.x|
        ∧ |(Rounded.collision_detection id Real.sqrt registry p w).1.y - p.y| ≤ |w.y|
        ∧ |(Rounded.collision_detection id Real.sqrt registry p w).1.z - p.z| ≤ |w.z|) := by
  refine ⟨?_, ?_, ?_, ?_⟩
  · intro h
    unfold Rounded.collision_detection
    rw [if_pos h]
  · intro h
    unfold Rounded.collision_detection
    simp only [h]
    split_ifs <;> rfl
  · intro hv hcl
    obtain ⟨_, h2, h3⟩ := rounded_collision_scan_ok rnd sqrt triangles pos v
    exact ⟨h2, h3 hcl, rounded_collision_detection_pos rnd sqrt triangles pos v hv hcl⟩
  · intro registry p w
    rw [rounded_collision_detection_id]
    exact ⟨(collision_detection_displacement registry p w).1,
      (collision_detection_displacement registry p w).2.1,
      (collision_detection_displacement registry p w).2.2.1⟩

/-- The amended C9 in binary32 on the registry holding `example_wall_y`, from
`(4, 31/16, 0)` with the non-zero velocity `(5 / 2 ^ 24, -1, 0)`: a triangle is recorded,
the impact time `15/16` is in `[-1/2, 1)` and the position is the rounded sum. -/
theorem collision_detection_displacement_rounded_witness :
    -(1 / 2) ≤ (Rounded.collision_scan round32 sqrt32 [(example_wall_y : Triangle ℚ)]
        ⟨4, 31 / 16, 0⟩ ⟨5 / 16777216, -1, 0⟩).min_time
    ∧ (Rounded.collision_scan round32 sqrt32 [(example_wall_y : Triangle ℚ)]
        ⟨4, 31 / 16, 0⟩ ⟨5 / 16777216, -1, 0⟩).min_time < 1
    ∧ (Rounded.collision_detection round32 sqrt32 [(example_wall_y : Triangle ℚ)]
        ⟨4, 31 / 16, 0⟩ ⟨5 / 16777216, -1, 0⟩).1
        = Rounded.vadd round32 ⟨4, 31 / 16, 0⟩ (Rounded.vmul round32
            (splat (round32 (1 * (Rounded.collision_scan round32 sqrt32
              [(example_wall_y : Triangle ℚ)] ⟨4, 31 / 16, 0⟩ ⟨5 / 16777216, -1, 0⟩).min_time)))
            ⟨5 / 16777216, -1, 0⟩) :=
  (collision_detection_displacement_rounded round32 sqrt32 [example_wall_y]
    ⟨4, 31 / 16, 0⟩ ⟨5 / 16777216, -1, 0⟩).2.2.1 (by decide!)
    (fun h => absurd (congrArg Option.isSome h) (by decide!))

end rounded_response

/-! ## The registry in binary32 -/

section rounded_registry

/-- Every entry of `Rounded.mesh_triangles` is built by `Rounded.init_triangle`. -/
theorem rounded_mesh_triangles_mem (rnd sqrt : K → K) :
    ∀ (vertices : List (Vec3 K)) (t : Option (Triangle K)),
      t ∈ Rounded.mesh_triangles rnd sqrt vertices →
      ∃ va vb vc : Vec3 K, t = Rounded.init_triangle rnd sqrt va vb vc
  | va :: vb :: vc :: rest, t, h => by
    rw [Rounded.mesh_triangles] at h
    rcases List.mem_cons.mp h with e | e
    · exact ⟨va, vb, vc, e⟩
    · exact rounded_mesh_triangles_mem rnd sqrt rest t e
  | [], t, h => by simp [Rounded.mesh_triangles] at h
  | [_], t, h => by simp [Rounded.mesh_triangles] at h
  | [_, _], t, h => by simp [Rounded.mesh_triangles] at h

/-- Every entry of the registry of `Rounded.init_mesh` is built by
`Rounded.init_triangle`. -/
theorem rounded_init_mesh_mem (rnd sqrt : K → K) (meshes : List (List (Vec3 K)))
    (t : Option (Triangle K)) (h : t ∈ Rounded.init_mesh rnd sqrt meshes) :
    ∃ va vb vc : Vec3 K, t = Rounded.init_triangle rnd sqrt va vb vc := by
  have hfold : ∀ (ms : List (List (Vec3 K))) (acc : List (Option (Triangle K))),
      t ∈ ms.foldl
        (fun triangles vertices => triangles ++ Rounded.mesh_triangles rnd sqrt vertices) acc →
      t ∈ acc ∨ ∃ va vb vc : Vec3 K, t = Rounded.init_triangle rnd sqrt va vb vc := by
    intro ms
    induction ms with
    | nil => intro acc h; exact Or.inl h
    | cons m ms ih =>
      intro acc h
      rcases ih _ h with h1 | h1
      · rcases List.mem_append.mp h1 with h2 | h2
        · exact Or.inl h2
        · exact Or.inr (rounded_mesh_triangles_mem rnd sqrt m t h2)
      · exact Or.inr h1
  rcases hfold meshes [] h with h1 | h1
  · exact absurd h1 (List.not_mem_nil t)
  · exact h1

/-- A triangle that `Rounded.init_triangle` builds has the rounded quotients as vertices
and the computed `dot normal a` as plane constant. -/
theorem rounded_init_triangle_some (rnd sqrt : K → K) (va vb vc : Vec3 K) (tri : Triangle K)
    (h : Rounded.init_triangle rnd sqrt va vb vc = some tri) :
    tri.a = Rounded.vdiv rnd va (Rounded.player_size rnd)
    ∧ tri.b = Rounded.vdiv rnd vb (Rounded.player_size rnd)
    ∧ tri.c = Rounded.vdiv rnd vc (Rounded.player_size rnd)
    ∧ tri.n0 = Rounded.vdot rnd tri.normal tri.a := by
  unfold Rounded.init_triangle at h
  simp only [] at h
  split at h
  · rw [← Option.some.inj h]
    exact ⟨rfl, rfl, rfl, rfl⟩
  · exact absurd h (by simp)

/-- Without rounding, a triangle that `Rounded.init_triangle` builds is the one of
`init_triangle`. -/
theorem rounded_init_triangle_id (sqrt : K → K) (va vb vc : Vec3 K) (tri : Triangle K)
    (h : Rounded.init_triangle id sqrt va vb vc = some tri) :
    tri = init_triangle sqrt va vb vc := by
  unfold Rounded.init_triangle Rounded.normalize Rounded.fdiv at h
  simp only [] at h
  split at h
  · rename_i n hn
    split at hn
    · rename_i inv hinv
      split_ifs at hinv
      rw [← Option.some.inj h, ← Option.some.inj hn, ← Option.some.inj hinv]
      rfl
    · exact absurd hn (by simp)
  · exact absurd h (by simp)

/-- Without rounding, `Rounded.init_triangle` builds a triangle from vertices that are not
collinear after the division. -/
theorem rounded_init_triangle_id_some (va vb vc : Vec3 ℝ)
    (h : cross (vb / player_size - va / player_size) (vc / player_size - va / player_size) ≠ 0) :
    Rounded.init_triangle id Real.sqrt va vb vc = some (init_triangle Real.sqrt va vb vc) := by
  have hs : Real.sqrt (dot
      (cross (vb / player_size - va / player_size) (vc / player_size - va / player_size))
      (cross (vb / player_size - va / player_size) (vc / player_size - va / player_size))) ≠ 0 :=
    (Real.sqrt_pos.mpr (Vec3.dot_self_pos h)).ne'
  unfold Rounded.init_triangle Rounded.normalize Rounded.fdiv
  simp only []
  have hs2 : Real.sqrt (Rounded.vdot id
      (Rounded.vcross id
        (Rounded.vsub id (Rounded.vdiv id vb (Rounded.player_size id))
          (Rounded.vdiv id va (Rounded.player_size id)))
        (Rounded.vsub id (Rounded.vdiv id vc (Rounded.player_size id))
          (Rounded.vdiv id va (Rounded.player_size id))))
      (Rounded.vcross id
        (Rounded.vsub id (Rounded.vdiv id vb (Rounded.player_size id))
          (Rounded.vdiv id va (Rounded.player_size id)))
        (Rounded.vsub id (Rounded.vdiv id vc (Rounded.player_size id))
          (Rounded.vdiv id va (Rounded.player_size id))))) ≠ 0 := hs
  rw [if_neg hs2]
  rfl

/-- C11 fails as stated on the binary32 code: the mesh of the three vertices `(0,0,0)`,
`(6710887 / 2 ^ 24, 0.8f, 0)`, `(0.4f, 13421771 / 2 ^ 24, 0)` is divided to `(0,0,0)`,
`(1 + 2⁻²³, 1, 0)`, `(1, 1 - 2⁻²³, 0)`, which are not collinear; the computed cross
product is zero, and the normal and the plane constant of the triangle that enters the
registry are not numbers. -/
theorem init_mesh_binary32_degenerate_normal :
    Rounded.vdiv round32 ⟨0, 0, 0⟩ (Rounded.player_size round32) = ⟨0, 0, 0⟩
    ∧ Rounded.vdiv round32 ⟨6710887 / 16777216, round32 (4 / 5), 0⟩
        (Rounded.player_size round32) = ⟨8388609 / 8388608, 1, 0⟩
    ∧ Rounded.vdiv round32 ⟨round32 (2 / 5), 13421771 / 16777216, 0⟩
        (Rounded.player_size round32) = ⟨1, 8388607 / 8388608, 0⟩
    ∧ cross ((⟨8388609 / 8388608, 1, 0⟩ : Vec3 ℚ) - ⟨0, 0, 0⟩)
        (⟨1, 8388607 / 8388608, 0⟩ - ⟨0, 0, 0⟩) ≠ 0
    ∧ (Rounded.init_mesh round32 sqrt32
        [[⟨0, 0, 0⟩, ⟨6710887 / 16777216, round32 (4 / 5), 0⟩,
          ⟨round32 (2 / 5), 13421771 / 16777216, 0⟩]]).map Option.isSome = [false] := by
  decide!

/-- C11, amended. Whatever the rounding of the operations, a triangle of the registry of
`init_mesh` whose normal is a vector of numbers has as plane constant `n0` the computed
`dot normal a`.  With exact arithmetic (`rnd = id`, the real square root) every triple
of vertices that is not collinear after the division by the ellipsoid radii gives a
triangle, and every triangle of the registry whose vertices are not collinear satisfies
the invariant of `Triangle`: the normal has squared length one, and `dot normal a`,
`dot normal b` and `dot normal c` all equal `n0`. -/
theorem init_mesh_invariant_rounded (rnd sqrt : K → K) (meshes : List (List (Vec3 K)))
    (tri : Triangle K) :
    (some tri ∈ Rounded.init_mesh rnd sqrt meshes → tri.n0 = Rounded.vdot rnd tri.normal tri.a)
    ∧ (∀ va vb vc : Vec3 ℝ,
        cross (vb / player_size - va / player_size) (vc / player_size - va / player_size) ≠ 0 →
        (Rounded.init_mesh id Real.sqrt [[va, vb, vc]]).map Option.isSome = [true])
    ∧ (∀ (registry : List (List (Vec3 ℝ))) (t : Triangle ℝ),
        some t ∈ Rounded.init_mesh id Real.sqrt registry →
        cross (t.b - t.a) (t.c - t.a) ≠ 0 →
        dot t.normal t.normal = 1
        ∧ dot t.normal t.a = t.n0
        ∧ dot t.normal t.b = t.n0
        ∧ dot t.normal t.c = t.n0) := by
  refine ⟨fun hmem => ?_, fun va vb vc hnc => ?_, fun registry t hmem hnc => ?_⟩
  · obtain ⟨va, vb, vc, h⟩ := rounded_init_mesh_mem rnd sqrt meshes (some tri) hmem
    exact (rounded_init_triangle_some rnd sqrt va vb vc tri h.symm).2.2.2
  · simp [Rounded.init_mesh, Rounded.mesh_triangles, rounded_init_triangle_id_some va vb vc hnc]
  · obtain ⟨va, vb, vc, h⟩ := rounded_init_mesh_mem id Real.sqrt registry (some t) hmem
    have ht := rounded_init_triangle_id Real.sqrt va vb vc t h.symm
    exact init_mesh_invariant [[va, vb, vc]] t
      (by rw [ht]; simp [init_mesh, mesh_triangles]) hnc

/-- In binary32 the mesh of the one triangle `(0,0,0)`, `(0.4f,0,0)`, `(0,0.8f,0)` gives
the triangle `example_floor`: vertices `(0,0,0)`, `(1,0,0)`, `(0,1,0)`, normal `(0,0,-1)`
and plane constant `0`. -/
theorem init_mesh_binary32_floor :
    (Rounded.init_mesh round32 sqrt32
        [[⟨0, 0, 0⟩, ⟨round32 (2 / 5), 0, 0⟩, ⟨0, round32 (4 / 5), 0⟩]]).map
      (Option.map (fun t => (t.a, t.b, t.c)))
      = [some ((example_floor : Triangle ℚ).a, (example_floor : Triangle ℚ).b,
          (example_floor : Triangle ℚ).c)]
    ∧ (Rounded.init_mesh round32 sqrt32
        [[⟨0, 0, 0⟩, ⟨round32 (2 / 5), 0, 0⟩, ⟨0, round32 (4 / 5), 0⟩]]).map
      (Option.map (fun t => (t.normal, t.n0)))
      = [some ((example_floor : Triangle ℚ).normal, (example_floor : Triangle ℚ).n0)] := by
  decide!

/-- Without rounding the mesh of the one triangle `(0,0,0)`, `(2/5,0,0)`, `(0,4/5,0)`
gives `example_floor`. -/
theorem example_floor_rounded_built :
    some (example_floor : Triangle ℝ)
      ∈ Rounded.init_mesh id Real.sqrt [[(⟨0, 0, 0⟩ : Vec3 ℝ), ⟨2 / 5, 0, 0⟩, ⟨0, 4 / 5, 0⟩]] := by
  have hnc : cross ((⟨2 / 5, 0, 0⟩ : Vec3 ℝ) / player_size - ⟨0, 0, 0⟩ / player_size)
      (⟨0, 4 / 5, 0⟩ / player_size - ⟨0, 0, 0⟩ / player_size) ≠ 0 := by
    intro h
    have hz := congrArg Vec3.z h
    norm_num [cross, player_size, Vec3.div_def, Vec3.sub_def, Vec3.zero_z] at hz
  have hb : init_triangle Real.sqrt (⟨0, 0, 0⟩ : Vec3 ℝ) ⟨2 / 5, 0, 0⟩ ⟨0, 4 / 5, 0⟩
      = example_floor := by
    have h := example_floor_built
    simp only [init_mesh, mesh_triangles, List.foldl, List.nil_append] at h
    exact List.head_eq_of_cons_eq h
  simp only [Rounded.init_mesh, Rounded.mesh_triangles, List.foldl, List.nil_append,
    rounded_init_triangle_id_some _ _ _ hnc, hb]
  exact List.mem_singleton.mpr rfl

/-- The amended C11 with exact arithmetic on the mesh of the one triangle `(0,0,0)`,
`(2/5,0,0)`, `(0,4/5,0)`, which gives `example_floor`. -/
theorem init_mesh_invariant_rounded_witness :
    some (example_floor : Triangle ℝ)
        ∈ Rounded.init_mesh id Real.sqrt [[(⟨0, 0, 0⟩ : Vec3 ℝ), ⟨2 / 5, 0, 0⟩, ⟨0, 4 / 5, 0⟩]]
    ∧ dot (example_floor : Triangle ℝ).normal (example_floor : Triangle ℝ).normal = 1
    ∧ dot (example_floor : Triangle ℝ).normal (example_floor : Triangle ℝ).a
        = (example_floor : Triangle ℝ).n0
    ∧ dot (example_floor : Triangle ℝ).normal (example_floor : Triangle ℝ).b
        = (example_floor : Triangle ℝ).n0
    ∧ dot (example_floor : Triangle ℝ).normal (example_floor : Triangle ℝ).c
        = (example_floor : Triangle ℝ).n0 :=
  ⟨example_floor_rounded_built,
    (init_mesh_invariant_rounded round32 sqrt32 [] example_floor).2.2
      [[(⟨0, 0, 0⟩ : Vec3 ℝ), ⟨2 / 5, 0, 0⟩, ⟨0, 4 / 5, 0⟩]] example_floor
      example_floor_rounded_built example_floor_not_collinear⟩

end rounded_registry

/-! ## Degenerate inputs in binary32 -/

section rounded_degenerate

variable {K : Type} [LinearOrderedField K]

/-- A rounding that keeps zero gives the zero scalar product with the zero vector. -/
theorem rounded_vdot_zero (rnd : K → K) (h0 : rnd 0 = 0) (u : Vec3 K) :
    Rounded.vdot rnd u 0 = 0 := by
  simp only [Rounded.vdot, Vec3.zero_x, Vec3.zero_y, Vec3.zero_z, mul_zero, h0, add_zero]

/-- With a rounding that keeps zero, the point solver returns the sentinel for the zero
velocity: the divisor `2 * A` is zero. -/
theorem rounded_point_crash_time_zero (rnd sqrt : K → K) (h0 : rnd 0 = 0) (pos q : Vec3 K) :
    Rounded.point_crash_time rnd sqrt pos 0 q = 10 := by
  unfold Rounded.point_crash_time
  simp only [rounded_vdot_zero rnd h0, mul_zero, h0, Rounded.fdiv, if_true]
  split_ifs <;> rfl

/-- With a rounding that keeps zero, the edge solver returns the sentinel and the contact
`vec3(0)` for the zero velocity. -/
theorem rounded_line_crash_time_zero (rnd sqrt : K → K) (h0 : rnd 0 = 0) (pos a b : Vec3 K) :
    Rounded.line_crash_time rnd sqrt pos 0 a b = (10, 0) := by
  have hV : ∀ ab : Vec3 K,
      Rounded.vsub rnd (0 : Vec3 K) (Rounded.vmul rnd (splat 0) ab) = 0 := by
    intro ab
    simp only [Rounded.vsub, Rounded.vmul, splat, Vec3.zero_x, Vec3.zero_y, Vec3.zero_z,
      zero_mul, h0, sub_zero]
    rfl
  unfold Rounded.line_crash_time
  simp only [rounded_vdot_zero rnd h0, Rounded.fdiv]
  split_ifs with hab
  · rfl
  · simp only [zero_div, h0, hV, rounded_vdot_zero rnd h0, mul_zero, if_true]
    split_ifs <;> rfl

/-- C12 fails as stated on the binary32 code: for the segment from `(0,0,0)` to
`b = (2261 / 2 ^ 12, 28397 / 2 ^ 16, -22593 / 2 ^ 15)` and the velocity `3 * b`, parallel
to the segment, from `(-13/32, 15/16, -15/32)`, the edge solver returns the time `0` and
a contact on the segment instead of the sentinel `10`. -/
theorem line_crash_time_binary32_parallel_hit :
    (⟨0, 0, 0⟩ : Vec3 ℚ) ≠ ⟨2261 / 4096, 28397 / 65536, -(22593 / 32768)⟩
    ∧ (⟨6783 / 4096, 85191 / 65536, -(67779 / 32768)⟩ : Vec3 ℚ)
        = splat 3 * (⟨2261 / 4096, 28397 / 65536, -(22593 / 32768)⟩ - ⟨0, 0, 0⟩)
    ∧ Rounded.line_crash_time round32 sqrt32 ⟨-(13 / 32), 15 / 16, -(15 / 32)⟩
        ⟨6783 / 4096, 85191 / 65536, -(67779 / 32768)⟩ ⟨0, 0, 0⟩
        ⟨2261 / 4096, 28397 / 65536, -(22593 / 32768)⟩
      = (0, ⟨2416903 / 8388608, 15177531 / 67108864, -(12075429 / 33554432)⟩)
    ∧ (Rounded.line_crash_time round32 sqrt32 ⟨-(13 / 32), 15 / 16, -(15 / 32)⟩
        ⟨6783 / 4096, 85191 / 65536, -(67779 / 32768)⟩ ⟨0, 0, 0⟩
        ⟨2261 / 4096, 28397 / 65536, -(22593 / 32768)⟩).1 ≠ 10 := by
  decide!

/-- C12, amended. For every rounding of the operations that keeps zero, the zero velocity
gives the sentinel: `point_crash_time` returns `10` and `line_crash_time` returns `10`
with the contact left at `vec3(0)`, for every position, point and segment.  With exact
arithmetic (`rnd = id`, the real square root), for a segment `a ≠ b` and a velocity that
is a multiple of `b - a`, `line_crash_time` returns `10` as well. -/
theorem degenerate_inputs_rounded (rnd sqrt : K → K) (pos a b q : Vec3 K) :
    (rnd 0 = 0 →
      Rounded.point_crash_time rnd sqrt pos 0 q = 10
      ∧ Rounded.line_crash_time rnd sqrt pos 0 a b = (10, 0))
    ∧ (∀ p w s e : Vec3 ℝ, s ≠ e → (w = 0 ∨ ∃ lam : ℝ, w = splat lam * (e - s)) →
        Rounded.line_crash_time id Real.sqrt p w s e = (10, 0)) := by
  refine ⟨fun h0 => ⟨rounded_point_crash_time_zero rnd sqrt h0 pos q,
    rounded_line_crash_time_zero rnd sqrt h0 pos a b⟩, fun p w s e hse hpar => ?_⟩
  rw [rounded_line_crash_time_id]
  exact (degenerate_inputs_miss p w s e p hse hpar).2.2.1

/-- The amended C12 in binary32 from `(0,1/2,0)` with zero velocity, for the point
`(3,0,0)` and the segment `(0,0,0)-(2,0,0)`. -/
theorem degenerate_inputs_rounded_witness :
    round32 0 = 0
    ∧ Rounded.point_crash_time round32 sqrt32 ⟨0, 1 / 2, 0⟩ 0 ⟨3, 0, 0⟩ = 10
    ∧ Rounded.line_crash_time round32 sqrt32 ⟨0, 1 / 2, 0⟩ 0 ⟨0, 0, 0⟩ ⟨2, 0, 0⟩ = (10, 0) :=
  ⟨by decide!, (degenerate_inputs_rounded round32 sqrt32 ⟨0, 1 / 2, 0⟩ ⟨0, 0, 0⟩ ⟨2, 0, 0⟩
    ⟨3, 0, 0⟩).1 (by decide!)⟩

end rounded_degenerate

end Scenewalker
